import Mathlib

/-!
# Little Tftp (ltftp): a shallow embedding of the transfer engine

Source files embedded here: `src/include/tftp.h`, `src/src/util.c`, `src/src/server.c`,
`src/src/client.c`.

Conventions of the embedding.

* A byte is a `Nat` (meant to be below 256). Memory is a `List Nat`; a pointer into a buffer
  is the list of bytes from that address onwards.
* A C string argument (`const char *`) is the list of its bytes before the terminating NUL.
* `unsigned short` is a `Nat` reduced modulo `2 ^ 16`, `int` and `ssize_t` are `Int`, and
  `size_t` is a `Nat`, reduced modulo `2 ^ 64` where the program can wrap it (the conversion
  of a negative `ssize_t`, `len - 2`, `4 + len`); offsets into buffers and string
  lengths stay far below `2 ^ 64`.
* System calls (`open`, `read`, `write`, `sendto`, `poll`, `recvfrom`) are not part of the
  program: their outcomes are supplied by the `World`, one list of outcomes per call, consumed
  in call order. A function whose next call finds its list empty is blocked on the
  environment and yields `none`.
-/

namespace Ltftp

/-! ## Constants of `tftp.h` and of the C library -/

def TFTP_BLOCKSIZE : Nat := 512

def TFTP_OPCODE_RRQ : Nat := 1
def TFTP_OPCODE_WRQ : Nat := 2
def TFTP_OPCODE_DATA : Nat := 3
def TFTP_OPCODE_ACK : Nat := 4
def TFTP_OPCODE_ERROR : Nat := 5

def TFTP_ERROR_NOT_DEFINED : Nat := 0
def TFTP_ERROR_FILE_NOT_FOUND : Nat := 1
def TFTP_ERROR_ACCESS_VIOLATION : Nat := 2
def TFTP_ERROR_DISK_FULL : Nat := 3
def TFTP_ERROR_ILLEGAL_OPERATION : Nat := 4
def TFTP_ERROR_UNKNOWN_TRANSFER_ID : Nat := 5
def TFTP_ERROR_FILE_ALREADY_EXISTS : Nat := 6
def TFTP_ERROR_NO_SUCH_USER : Nat := 7

def TFTP_TRANSFER_MODE_NETASCII : Int := 0
def TFTP_TRANSFER_MODE_OCTET : Int := 1

def TFTP_PARAMS_NLIMIT : Nat := 16
def TFTP_PARAMS_STRLIMIT : Nat := 256

/-- The `errno` values used by the program, with their Linux numbering (`errno.h`). -/
def EPERM : Int := 1
def ENOENT : Int := 2
def E2BIG : Int := 7
def EACCES : Int := 13
def EINVAL : Int := 22
def ENOSPC : Int := 28
def ENODATA : Int := 61
def EMSGSIZE : Int := 90
def ENOBUFS : Int := 105
def EDQUOT : Int := 122

/-- Range of `size_t` on the 64-bit targets of the program. -/
def SIZE_MAX1 : Nat := 2 ^ 64

/-- Conversion `(ssize_t) x` of a `size_t` value. -/
def to_ssize (x : Nat) : Int :=
  if x % SIZE_MAX1 < 2 ^ 63 then ((x % SIZE_MAX1 : Nat) : Int)
  else ((x % SIZE_MAX1 : Nat) : Int) - (SIZE_MAX1 : Int)

/-- The difference `a - b` in `size_t` arithmetic, for operands below `2 ^ 64`: it wraps
when `a < b`. -/
def size_sub (a b : Nat) : Nat := if b ≤ a then a - b else a + SIZE_MAX1 - b

/-- Conversion `(size_t) x` of an `ssize_t` value. -/
def to_size (x : Int) : Nat := (x % (SIZE_MAX1 : Int)).toNat

/-- The bytes of a string literal. -/
def cstr (s : String) : List Nat := s.data.map Char.toNat

/-! ## C string functions -/

/-- The C function `strlen` on the memory starting at a pointer: the number of bytes before
the first NUL. Bytes past the end of the modelled memory read as NUL. -/
def strlen : List Nat → Nat
  | [] => 0
  | b :: bs => if b = 0 then 0 else strlen bs + 1

/-- The C function `strchr`: offset of the first occurrence of `c` in the string, or `none`
for `NULL`. -/
def strchr : List Nat → Nat → Option Nat
  | [], _ => none
  | b :: bs, c => if b = c then some 0 else (strchr bs c).map (· + 1)

/-- Does the string start with `needle`? (inner comparison loop of `strstr`) -/
def starts_with : List Nat → List Nat → Bool
  | _, [] => true
  | [], _ :: _ => false
  | b :: bs, n :: ns => b == n && starts_with bs ns

/-- The C function `strstr`: offset of the first occurrence of `needle` in the string, or
`none` for `NULL`. -/
def strstr : List Nat → List Nat → Option Nat
  | [], needle => if needle = [] then some 0 else none
  | b :: bs, needle =>
    if starts_with (b :: bs) needle then some 0 else (strstr bs needle).map (· + 1)

/-- Model of `tftp_validate_path` (server.c):
`strchr ( path, '/' ) != path && strstr ( path, "../" ) == NULL`. -/
def tftp_validate_path (path : List Nat) : Bool :=
  strchr path 47 != some 0 && strstr path [46, 46, 47] == none

/-- The C function `memcpy ( dst + off, src, src.length )` on a buffer. -/
def memcpy (dst : List Nat) (off : Nat) (src : List Nat) : List Nat :=
  dst.take off ++ src ++ dst.drop (off + src.length)

/-- A local array of `size` bytes that the function writes before it reads it; its
indeterminate initial content is taken to be zero. -/
def local_buffer (size : Nat) : List Nat := List.replicate size 0

/-- The C function `tolower` on a byte (C locale). -/
def tolower (c : Nat) : Nat := if 65 ≤ c ∧ c ≤ 90 then c + 32 else c

/-! ## Packet codec (util.c) -/

/-- Swap the two bytes of a 16-bit value. -/
def bswap16 (v : Nat) : Nat := (v % 256) * 256 + (v / 256) % 256

/-- The C function `htons` on a host that is little-endian (`le = true`) or big-endian. -/
def htons (le : Bool) (v : Nat) : Nat := if le then bswap16 v else v % 65536

/-- The C function `ntohs`. -/
def ntohs (le : Bool) (v : Nat) : Nat := if le then bswap16 v else v % 65536

/-- The host's own 16-bit load `*( ( unsigned short * ) buffer )`. -/
def load_ushort (le : Bool) (buffer : List Nat) : Nat :=
  if le then buffer.getD 0 0 + 256 * buffer.getD 1 0
  else 256 * buffer.getD 0 0 + buffer.getD 1 0

/-- The two bytes the host's own 16-bit store writes for the value `v`. -/
def ushort_bytes (le : Bool) (v : Nat) : List Nat :=
  if le then [v % 256, (v / 256) % 256] else [(v / 256) % 256, v % 256]

/-- Model of `tfp_load_ushort_ns` (util.c): `ntohs ( *( ( unsigned short * ) buffer ) )`. -/
def tfp_load_ushort_ns (le : Bool) (buffer : List Nat) : Nat :=
  ntohs le (load_ushort le buffer)

/-- Model of `tfp_store_ushort_ns` (util.c): `*( ( unsigned short * ) buffer ) = htons ( value )`;
the result is the buffer after the store. -/
def tfp_store_ushort_ns (le : Bool) (buffer : List Nat) (value : Nat) : List Nat :=
  memcpy buffer 0 (ushort_bytes le (htons le value))

/-- Model of `tftp_packet_check_length` (util.c), without its diagnostic output. -/
def tftp_packet_check_length (expected got : Nat) : Int :=
  if got < expected then 0 else 1

/-- What `tftp_prepare_header` leaves behind: its return value, `errno` and the buffer. -/
structure HeaderRes where
  ret : Int
  errno : Int
  header : List Nat
  deriving DecidableEq, Repr

/-- The `for` loop of `tftp_prepare_header` over the remaining parameters, from `offset`. -/
def tftp_prepare_header_loop (limit : Nat) (errno : Int) :
    List (List Nat) → Nat → List Nat → HeaderRes
  | [], offset, header => ⟨offset, errno, header⟩
  | p :: ps, offset, header =>
    let len := p.length
    if offset + len ≥ limit then ⟨ENOBUFS, errno, header⟩
    else
      let header := memcpy header offset p
      let offset := offset + len
      let header := memcpy header offset [0]
      tftp_prepare_header_loop limit errno ps (offset + 1) header

/-- Model of `tftp_prepare_header` (util.c). `params = none` is the `NULL` parameter list;
`errno` is the value of `errno` at the call. -/
def tftp_prepare_header (le : Bool) (header : List Nat) (limit : Nat) (opcode : Nat)
    (params : Option (List (List Nat))) (errno : Int) : HeaderRes :=
  if limit < 2 then ⟨-1, ENOBUFS, header⟩
  else
    let header := memcpy header 0 (ushort_bytes le (htons le opcode))
    match params with
    | none => ⟨2, errno, header⟩
    | some ps => tftp_prepare_header_loop limit errno ps 2 header

/-! ## Request parameters (server.c) -/

/-- First loop of `tftp_params_split`: the value of `i` when the loop
`for ( i = 0; i < len; i++ ) if ( header[i] == 0 ) break;` ends, counted from the current
position, with `len` bytes left to inspect. -/
def first_nul : List Nat → Nat → Nat
  | _, 0 => 0
  | header, len + 1 => if header.getD 0 0 = 0 then 0 else first_nul (header.drop 1) len + 1

/-- What `tftp_params_split` leaves behind: its return value, `errno` and the strings stored
in the rows `0 .. ret - 1` of the `params` table. -/
structure SplitRes where
  ret : Int
  errno : Int
  params : List (List Nat)
  deriving DecidableEq, Repr

/-- Second loop of `tftp_params_split`. `fuel` bounds the number of iterations, each of which
advances `offset` by at least one; `acc` holds the rows already stored, last first. -/
def tftp_params_split_loop (header : List Nat) (len nlimit strlimit : Nat) (errno : Int) :
    Nat → Nat → Nat → List (List Nat) → SplitRes
  | 0, i, _, acc => ⟨i, errno, acc.reverse⟩
  | fuel + 1, i, offset, acc =>
    if offset < len then
      if i ≥ nlimit then ⟨-1, ENOBUFS, acc.reverse⟩
      else
        let sublen := strlen (header.drop offset)
        if sublen ≥ strlimit then ⟨-1, ENOBUFS, acc.reverse⟩
        else
          tftp_params_split_loop header len nlimit strlimit errno fuel (i + 1)
            (offset + sublen + 1) ((header.drop offset).take sublen :: acc)
    else ⟨i, errno, acc.reverse⟩

/-- Model of `tftp_params_split` (server.c) on the memory `header` and the length `len`. -/
def tftp_params_split (header : List Nat) (len nlimit strlimit : Nat) (errno : Int) :
    SplitRes :=
  if first_nul header len = len then ⟨-1, EINVAL, []⟩
  else tftp_params_split_loop header len nlimit strlimit errno len 0 0 []

/-- The C function `strcmp`, as the test `!strcmp ( a, b )` on two strings. -/
def strcmp_eq (a b : List Nat) : Bool := a == b

/-- Model of `tftp_parse_transfer_mode` (server.c). The function lowers the string in place;
only its return value is used afterwards. -/
def tftp_parse_transfer_mode (mode : List Nat) : Int :=
  let mode := mode.map tolower
  if strcmp_eq mode (cstr "octet") then TFTP_TRANSFER_MODE_OCTET
  else if strcmp_eq mode (cstr "netascii") then TFTP_TRANSFER_MODE_NETASCII
  else -1

/-! ## The environment -/

/-- Outcome of a system call that returns a count or a descriptor: `ok n` is the return
value `n`, `err e` is the return value `-1` with `errno` set to `e`. -/
inductive SysRes where
  | ok (n : Nat)
  | err (e : Int)
  deriving DecidableEq, Repr

/-- Outcome of `read`: the bytes read (none at end of file), or a failure. -/
inductive ReadRes where
  | ok (data : List Nat)
  | err (e : Int)
  deriving DecidableEq, Repr

/-- Outcome of `recvfrom`: the datagram received and the address it came from, or a failure. -/
inductive RecvRes where
  | ok (dgram : List Nat) (src : Nat)
  | err (e : Int)
  deriving DecidableEq, Repr

/-- Outcome of `poll` on the one socket: the return value `status`, the `revents` bits of the
socket, and the `errno` a failure sets. -/
structure PollRes where
  status : Int
  revents : Nat
  errno : Int
  deriving DecidableEq, Repr

/-- The bit `POLLHUP` of `poll.h`. -/
def POLLHUP : Nat := 16

/-- What the program does to the outside, in order. -/
inductive Effect where
  | open_call (path : List Nat) (writing : Bool)
  | closed
  | fread
  | fwrite (bytes : List Nat)
  | sent (dgram : List Nat) (dest : Nat)
  | polled
  | received
  deriving DecidableEq, Repr

/-- The session (`struct tftp_sess`: `exit_flag` and the peer address `saddr`; the socket and
the program name never change), `errno`, the outcomes the environment holds for the system
calls still to come, and the trace of the effects so far, first effect first. -/
structure World where
  exit_flag : Int
  saddr : Nat
  errno : Int
  opens : List SysRes
  reads : List ReadRes
  writes : List SysRes
  sends : List SysRes
  polls : List PollRes
  recvs : List RecvRes
  trace : List Effect
  deriving DecidableEq, Repr

/-- Append an effect to the trace. -/
def World.emit (w : World) (e : Effect) : World := { w with trace := w.trace ++ [e] }

/-- The system call `close ( fd )`. -/
def World.close (w : World) : World := w.emit Effect.closed

/-! ## Transport (util.c) -/

/-- Model of `sendto_autoretry` (util.c), over the outcomes of its `poll` calls (`polls`) and
of its `sendto` calls (taken from the world). Returns the result (`none` when the outcomes run
out), the unused `poll` outcomes and the world. A successful `sendto` of `buf` returns the
count the environment reports and puts the datagram on the trace. -/
def sendto_autoretry_go (buf : List Nat) (dest : Nat) :
    List PollRes → World → Option Int × List PollRes × World
  | polls, w =>
    match w.sends with
    | [] => (none, polls, w)
    | SysRes.err e :: sends => (some (-1), polls, { w with sends := sends, errno := e })
    | SysRes.ok n :: sends =>
      let w := ({ w with sends := sends }).emit (Effect.sent buf dest)
      match polls with
      | [] => (none, [], w)
      | p :: polls =>
        let w := w.emit Effect.polled
        if p.status < 0 then (some (-1), polls, { w with errno := p.errno })
        else if p.revents &&& POLLHUP ≠ 0 then (some (-1), polls, w)
        else if p.status = 0 then sendto_autoretry_go buf dest polls w
        else (some n, polls, w)

/-- The call `sendto_autoretry ( sess->sock, buf, len, 0, &sess->saddr, ... )`: the first
`len` bytes of `buf` go to the session's peer. -/
def sendto_autoretry (buf : List Nat) (len : Nat) (w : World) : Option Int × World :=
  let r := sendto_autoretry_go (buf.take len) w.saddr w.polls w
  (r.1, { r.2.2 with polls := r.2.1 })

/-- The call `recvfrom ( sess->sock, buffer, size, 0, &sess->saddr, &slen )` on a buffer of
`size` bytes: `none` when no outcome is left, else the return value and the world, in which a
received datagram (cut to `size` bytes) has been written to the front of `buffer` and its
source address to `saddr`. -/
def recvfrom (buffer : List Nat) (size : Nat) (w : World) : Option (Int × List Nat × World) :=
  match w.recvs with
  | [] => none
  | RecvRes.err e :: recvs =>
    some (-1, buffer, ({ w with recvs := recvs, errno := e }).emit Effect.received)
  | RecvRes.ok dgram src :: recvs =>
    some (((dgram.take size).length : Int), memcpy buffer 0 (dgram.take size),
      ({ w with recvs := recvs, saddr := src }).emit Effect.received)

/-- Model of `tftp_send_ack_packet` (util.c). -/
def tftp_send_ack_packet (le : Bool) (block : Nat) (w : World) : Option Int × World :=
  let packet := ushort_bytes le (htons le TFTP_OPCODE_ACK) ++ ushort_bytes le (htons le block)
  match w.sends with
  | [] => (none, w)
  | SysRes.err e :: sends => (some (-1), { w with sends := sends, errno := e, exit_flag := 1 })
  | SysRes.ok _ :: sends =>
    (some 0, ({ w with sends := sends }).emit (Effect.sent packet w.saddr))

/-- Model of `tftp_get_errmsg` (util.c). -/
def tftp_get_errmsg (code : Nat) : List Nat :=
  if code = TFTP_ERROR_NOT_DEFINED then cstr "Not defined, see error message (if any)."
  else if code = TFTP_ERROR_FILE_NOT_FOUND then cstr "File not found."
  else if code = TFTP_ERROR_ACCESS_VIOLATION then cstr "Access violation."
  else if code = TFTP_ERROR_DISK_FULL then cstr "Disk full or allocation exceeded."
  else if code = TFTP_ERROR_ILLEGAL_OPERATION then cstr "Illegal TFTP operation."
  else if code = TFTP_ERROR_UNKNOWN_TRANSFER_ID then cstr "Unknown transfer ID."
  else if code = TFTP_ERROR_FILE_ALREADY_EXISTS then cstr "File already exists."
  else if code = TFTP_ERROR_NO_SUCH_USER then cstr "No such user."
  else cstr "Unknown"

/-- Model of `tftp_send_error_packet` (util.c). -/
def tftp_send_error_packet (le : Bool) (code : Nat) (w : World) : Option Int × World :=
  let message := tftp_get_errmsg code
  let len := message.length
  if len ≥ 256 then (some (-1), { w with errno := E2BIG })
  else
    let packet := ushort_bytes le (htons le TFTP_OPCODE_ERROR) ++ ushort_bytes le (htons le code)
      ++ message ++ [0]
    match w.sends with
    | [] => (none, w)
    | SysRes.err e :: sends => (some (-1), { w with sends := sends, errno := e, exit_flag := 1 })
    | SysRes.ok _ :: sends =>
      (some 0, ({ w with sends := sends }).emit (Effect.sent (packet.take (4 + len + 1)) w.saddr))

/-! ## File system calls -/

/-- The system call `open ( path, flags )`, `writing` standing for the flags
`O_CREAT | O_WRONLY | O_TRUNC` (else `O_RDONLY`). The call is put on the trace whatever its
outcome. -/
def sys_open (path : List Nat) (writing : Bool) (w : World) : Option (Int × World) :=
  match w.opens with
  | [] => none
  | SysRes.err e :: opens =>
    some (-1, ({ w with opens := opens, errno := e }).emit (Effect.open_call path writing))
  | SysRes.ok fd :: opens =>
    some ((fd : Int), ({ w with opens := opens }).emit (Effect.open_call path writing))

/-- The system call `read ( fd, buffer + off, count )`: the return value, the buffer and the
world. -/
def sys_read (buffer : List Nat) (off count : Nat) (w : World) :
    Option (Int × List Nat × World) :=
  match w.reads with
  | [] => none
  | ReadRes.err e :: reads =>
    some (-1, buffer, ({ w with reads := reads, errno := e }).emit Effect.fread)
  | ReadRes.ok data :: reads =>
    some (((data.take count).length : Int), memcpy buffer off (data.take count),
      ({ w with reads := reads }).emit Effect.fread)

/-- The system call `write ( fd, bytes, bytes.length )`; the environment says how many of the
bytes the call takes. -/
def sys_write (bytes : List Nat) (w : World) : Option (Int × World) :=
  match w.writes with
  | [] => none
  | SysRes.err e :: writes => some (-1, { w with writes := writes, errno := e })
  | SysRes.ok n :: writes =>
    some (((bytes.take n).length : Int),
      ({ w with writes := writes }).emit (Effect.fwrite (bytes.take n)))

/-! ## Receiver role (client.c `tftp_get_file`, server.c `tftp_handle_wrq`) -/

/-- Where one pass through a loop body ends: at a `return`, blocked on the environment, or at
the loop condition (reached from the end of the body or by `continue`) with the values of
`block` and `len` there. -/
inductive LoopStep where
  | ret (v : Int)
  | blocked
  | cond (block : Nat) (len : Nat)
  deriving DecidableEq, Repr

/-- Body of the `do ... while` loop of `tftp_handle_wrq` (server.c lines 174-227), on the
65536-byte receive buffer. -/
def tftp_handle_wrq_body (le : Bool) (block : Nat) (buffer : List Nat) (w : World) :
    LoopStep × List Nat × World :=
  match recvfrom buffer 65536 w with
  | none => (LoopStep.blocked, buffer, w)
  | some (r, buffer, w) =>
    let len := to_size r
    if to_ssize len < 0 then
      (LoopStep.ret w.errno, buffer, { w.close with exit_flag := 1 })
    else if tftp_packet_check_length 4 len = 0 then
      (LoopStep.ret w.errno, buffer, w.close)
    else if tfp_load_ushort_ns le buffer ≠ TFTP_OPCODE_DATA then
      (LoopStep.cond block len, buffer, w)
    else if tfp_load_ushort_ns le (buffer.drop 2) ≠ block then
      (LoopStep.cond block len, buffer, w)
    else
      match sys_write ((buffer.drop 4).take (len - 4)) w with
      | none => (LoopStep.blocked, buffer, w)
      | some (wr, w) =>
        if wr < 0 then (LoopStep.ret w.errno, buffer, w.close)
        else
          match tftp_send_ack_packet le block w with
          | (none, w) => (LoopStep.blocked, buffer, w)
          | (some a, w) =>
            if a < 0 then (LoopStep.ret w.errno, buffer, w.close)
            else (LoopStep.cond ((block + 1) % 65536) len, buffer, w)

/-- The `do ... while ( len == 4 + TFTP_BLOCKSIZE )` loop of `tftp_handle_wrq` and what
follows it. Every pass takes one `recvfrom` outcome; `fuel` bounds the number of passes. -/
def tftp_handle_wrq_loop (le : Bool) : Nat → Nat → List Nat → World → Option Int × World
  | 0, _, _, w => (none, w)
  | fuel + 1, block, buffer, w =>
    match tftp_handle_wrq_body le block buffer w with
    | (LoopStep.ret v, _, w) => (some v, w)
    | (LoopStep.blocked, _, w) => (none, w)
    | (LoopStep.cond block len, buffer, w) =>
      if len = 4 + TFTP_BLOCKSIZE then tftp_handle_wrq_loop le fuel block buffer w
      else (some 0, w.close)

/-- Body of the `do ... while` loop of `tftp_get_file` (client.c lines 234-286). -/
def tftp_get_file_body (le : Bool) (block : Nat) (buffer : List Nat) (w : World) :
    LoopStep × List Nat × World :=
  match recvfrom buffer 65536 w with
  | none => (LoopStep.blocked, buffer, w)
  | some (r, buffer, w) =>
    let len := to_size r
    if to_ssize len < 0 then
      (LoopStep.ret w.errno, buffer, { w.close with exit_flag := 1 })
    else if tftp_packet_check_length 4 len = 0 then
      (LoopStep.ret w.errno, buffer, w.close)
    else if tfp_load_ushort_ns le buffer ≠ TFTP_OPCODE_DATA then
      (LoopStep.cond block len, buffer, w)
    else if tfp_load_ushort_ns le (buffer.drop 2) ≠ block then
      (LoopStep.cond block len, buffer, w)
    else
      match sys_write ((buffer.drop 4).take (len - 4)) w with
      | none => (LoopStep.blocked, buffer, w)
      | some (wr, w) =>
        if wr < 0 then (LoopStep.ret w.errno, buffer, w.close)
        else
          match tftp_send_ack_packet le block w with
          | (none, w) => (LoopStep.blocked, buffer, w)
          | (some a, w) =>
            if a < 0 then (LoopStep.ret w.errno, buffer, w.close)
            else (LoopStep.cond ((block + 1) % 65536) len, buffer, w)

/-- The `do ... while ( len == 4 + TFTP_BLOCKSIZE )` loop of `tftp_get_file` and what follows
it. -/
def tftp_get_file_loop (le : Bool) : Nat → Nat → List Nat → World → Option Int × World
  | 0, _, _, w => (none, w)
  | fuel + 1, block, buffer, w =>
    match tftp_get_file_body le block buffer w with
    | (LoopStep.ret v, _, w) => (some v, w)
    | (LoopStep.blocked, _, w) => (none, w)
    | (LoopStep.cond block len, buffer, w) =>
      if len = 4 + TFTP_BLOCKSIZE then tftp_get_file_loop le fuel block buffer w
      else (some 0, w.close)

/-! ## Sender role (client.c `tftp_put_file`, server.c `tftp_handle_rrq`) -/

/-- Where the wait at the label `recv_ack` ends: at a `return`, blocked on the environment,
or past the block-number test with the matching ACK. -/
inductive AckStep where
  | ret (v : Int)
  | blocked
  | acked
  deriving DecidableEq, Repr

/-- The code from the label `recv_ack` to the test of the block number, in `tftp_put_file`
(client.c lines 134-170) and, line for line the same, in `tftp_handle_rrq` (server.c lines
327-363). The 4-byte `ack` structure is filled by every `recvfrom` that passes the length
test. Every pass (one `goto recv_ack`) takes one `recvfrom` outcome; `fuel` bounds the
passes. -/
def recv_ack (le : Bool) (block : Nat) : Nat → World → AckStep × World
  | 0, w => (AckStep.blocked, w)
  | fuel + 1, w =>
    match recvfrom [0, 0, 0, 0] 4 w with
    | none => (AckStep.blocked, w)
    | some (r, ack, w) =>
      let len := to_size r
      if to_ssize len < 0 then (AckStep.ret w.errno, { w.close with exit_flag := 1 })
      else if tftp_packet_check_length 4 len = 0 then (AckStep.ret EMSGSIZE, w.close)
      else if ntohs le (load_ushort le ack) ≠ TFTP_OPCODE_ACK then (AckStep.ret EINVAL, w.close)
      else if ntohs le (load_ushort le (ack.drop 2)) ≠ block then recv_ack le block fuel w
      else (AckStep.acked, w)

/-- The two header stores of a DATA packet: `tfp_store_ushort_ns ( buffer, TFTP_OPCODE_DATA )`
and `tfp_store_ushort_ns ( buffer + 2, block )`. -/
def store_data_header (le : Bool) (buffer : List Nat) (block : Nat) : List Nat :=
  let buffer := tfp_store_ushort_ns le buffer TFTP_OPCODE_DATA
  buffer.take 2 ++ tfp_store_ushort_ns le (buffer.drop 2) block

/-- The `for` loop of `tftp_handle_rrq` (server.c lines 306-367) and what follows it (lines
369-382). `block` is the number the next DATA packet carries. Every pass takes one `read`
outcome; `fuel` bounds the passes. -/
def tftp_handle_rrq_loop (le : Bool) : Nat → Nat → Nat → List Nat → World → Option Int × World
  | 0, _, _, _, w => (none, w)
  | fuel + 1, block, lastread, buffer, w =>
    match sys_read buffer 4 TFTP_BLOCKSIZE w with
    | none => (none, w)
    | some (r, buffer, w) =>
      let len := to_size r
      if to_ssize len > 0 ∨ lastread = TFTP_BLOCKSIZE then
        let lastread := len
        let buffer := store_data_header le buffer block
        match sendto_autoretry buffer ((4 + len) % SIZE_MAX1) w with
        | (none, w) => (none, w)
        | (some s, w) =>
          if s < 0 then (some w.errno, { w.close with exit_flag := 1 })
          else
            match recv_ack le block (w.recvs.length + 1) w with
            | (AckStep.ret v, w) => (some v, w)
            | (AckStep.blocked, w) => (none, w)
            | (AckStep.acked, w) =>
              tftp_handle_rrq_loop le fuel ((block + 1) % 65536) lastread buffer w
      else
        let w := w.close
        if to_ssize len < 0 then (some EINVAL, w) else (some 0, w)

/-- The `for` loop of `tftp_put_file` (client.c lines 111-174) and what follows it (lines
176-189). `block` is the number of the last block acknowledged; it is incremented at the top
of the body. -/
def tftp_put_file_loop (le : Bool) : Nat → Nat → Nat → List Nat → World → Option Int × World
  | 0, _, _, _, w => (none, w)
  | fuel + 1, block, lastread, buffer, w =>
    match sys_read buffer 4 TFTP_BLOCKSIZE w with
    | none => (none, w)
    | some (r, buffer, w) =>
      let len := to_size r
      if to_ssize len > 0 ∨ lastread = TFTP_BLOCKSIZE then
        let lastread := len
        let block := (block + 1) % 65536
        let buffer := store_data_header le buffer block
        match sendto_autoretry buffer ((4 + len) % SIZE_MAX1) w with
        | (none, w) => (none, w)
        | (some s, w) =>
          if s < 0 then (some w.errno, { w.close with exit_flag := 1 })
          else
            match recv_ack le block (w.recvs.length + 1) w with
            | (AckStep.ret v, w) => (some v, w)
            | (AckStep.blocked, w) => (none, w)
            | (AckStep.acked, w) => tftp_put_file_loop le fuel block lastread buffer w
      else
        let w := w.close
        if to_ssize len < 0 then (some EINVAL, w) else (some 0, w)

/-! ## Client operations (client.c) -/

/-- Model of `tftp_put_file` (client.c). The 4096-byte `buffer` is written before it is
read. -/
def tftp_put_file (le : Bool) (path : List Nat) (w : World) : Option Int × World :=
  let buffer := local_buffer 4096
  match sys_open path false w with
  | none => (none, w)
  | some (fd, w) =>
    if fd < 0 then (some w.errno, w)
    else
      let h := tftp_prepare_header le buffer 4096 TFTP_OPCODE_WRQ
        (some [path, cstr "octet"]) w.errno
      let w := { w with errno := h.errno }
      let buffer := h.header
      let len := to_size h.ret
      if to_ssize len < 0 then (some w.errno, w)
      else
        match sendto_autoretry buffer len w with
        | (none, w) => (none, w)
        | (some s, w) =>
          if s < 0 then (some w.errno, { w.close with exit_flag := 1 })
          else
            match recvfrom buffer 4096 w with
            | none => (none, w)
            | some (r, buffer, w) =>
              let len := to_size r
              if to_ssize len < 0 then (some w.errno, { w.close with exit_flag := 1 })
              else if tftp_packet_check_length 4 len = 0 then (some EMSGSIZE, w.close)
              else if tfp_load_ushort_ns le buffer ≠ TFTP_OPCODE_ACK then (some EINVAL, w.close)
              else
                let block := tfp_load_ushort_ns le (buffer.drop 2)
                if block ≠ 0 then (some EINVAL, w.close)
                else tftp_put_file_loop le (w.reads.length + 1) block 0 buffer w

/-- Model of `tftp_get_file` (client.c). -/
def tftp_get_file (le : Bool) (path : List Nat) (w : World) : Option Int × World :=
  let buffer := local_buffer 65536
  match sys_open path true w with
  | none => (none, w)
  | some (fd, w) =>
    if fd < 0 then (some w.errno, w)
    else
      let h := tftp_prepare_header le buffer 65536 TFTP_OPCODE_RRQ
        (some [path, cstr "octet"]) w.errno
      let w := { w with errno := h.errno }
      let buffer := h.header
      let len := to_size h.ret
      if to_ssize len < 0 then (some w.errno, w)
      else
        match sendto_autoretry buffer len w with
        | (none, w) => (none, w)
        | (some s, w) =>
          if s < 0 then (some w.errno, { w.close with exit_flag := 1 })
          else tftp_get_file_loop le (w.recvs.length + 1) 1 buffer w

/-! ## Server request handling (server.c) -/

/-- The statements of `tftp_handle_wrq` (server.c) after the call of `tftp_params_split`,
whose result is `sp`. -/
def tftp_handle_wrq_after_split (le : Bool) (sp : SplitRes) (w : World) : Option Int × World :=
  let buffer := local_buffer 65536
  let block := 0
  let w := { w with errno := sp.errno }
  let nparams := to_size sp.ret
  if to_ssize nparams < 0 then (some w.errno, w)
  else if nparams = 0 then (some ENODATA, w)
  else if nparams ≠ 1 ∧ (tftp_parse_transfer_mode (sp.params.getD 1 []) < 0
      ∨ tftp_parse_transfer_mode (sp.params.getD 1 []) ≠ TFTP_TRANSFER_MODE_OCTET) then
    (some EINVAL, w)
  else if !tftp_validate_path (sp.params.getD 0 []) then (some EACCES, w)
  else
    match sys_open (sp.params.getD 0 []) true w with
    | none => (none, w)
    | some (fd, w) =>
      if fd < 0 then (some w.errno, w)
      else
        match tftp_send_ack_packet le block w with
        | (none, w) => (none, w)
        | (some a, w) =>
          let block := (block + 1) % 65536
          if a < 0 then (some w.errno, w.close)
          else tftp_handle_wrq_loop le (w.recvs.length + 1) block buffer w

/-- Model of `tftp_handle_wrq` (server.c) on the request datagram `request` of `len` bytes:
the call `tftp_params_split ( request + 2, len - 2, params, 16, 256 )`, then the rest. -/
def tftp_handle_wrq (le : Bool) (request : List Nat) (len : Nat) (w : World) :
    Option Int × World :=
  tftp_handle_wrq_after_split le
    (tftp_params_split (request.drop 2) (size_sub len 2)
      TFTP_PARAMS_NLIMIT TFTP_PARAMS_STRLIMIT w.errno) w

/-- The statements of `tftp_handle_rrq` (server.c) after the call of `tftp_params_split`,
whose result is `sp`. -/
def tftp_handle_rrq_after_split (le : Bool) (sp : SplitRes) (w : World) : Option Int × World :=
  let buffer := local_buffer 4096
  let block := 1
  let w := { w with errno := sp.errno }
  let nparams := to_size sp.ret
  if to_ssize nparams < 0 then (some w.errno, w)
  else if nparams = 0 then (some ENODATA, w)
  else if nparams ≠ 1 ∧ tftp_parse_transfer_mode (sp.params.getD 1 []) < 0 then
    (some EINVAL, w)
  else if !tftp_validate_path (sp.params.getD 0 []) then (some EACCES, w)
  else
    match sys_open (sp.params.getD 0 []) false w with
    | none => (none, w)
    | some (fd, w) =>
      if fd < 0 then (some w.errno, w)
      else tftp_handle_rrq_loop le (w.reads.length + 1) block 0 buffer w

/-- Model of `tftp_handle_rrq` (server.c) on the request datagram `request` of `len` bytes:
the call `tftp_params_split ( request + 2, len - 2, params, 16, 256 )`, then the rest. -/
def tftp_handle_rrq (le : Bool) (request : List Nat) (len : Nat) (w : World) :
    Option Int × World :=
  tftp_handle_rrq_after_split le
    (tftp_params_split (request.drop 2) (size_sub len 2)
      TFTP_PARAMS_NLIMIT TFTP_PARAMS_STRLIMIT w.errno) w

/-- Model of `tftp_handle_operation` (server.c). `buffer` is the content of the 4096-byte
local receive buffer when the function is entered. -/
def tftp_handle_operation (le : Bool) (buffer : List Nat) (w : World) : Option Int × World :=
  match recvfrom buffer 4096 w with
  | none => (none, w)
  | some (r, buffer, w) =>
    let len := to_size r
    let w := if to_ssize len < 0 then { w with exit_flag := 1 } else w
    if tftp_packet_check_length 2 len = 0 then (some EMSGSIZE, w)
    else
      let opcode := tfp_load_ushort_ns le buffer
      if opcode = TFTP_OPCODE_WRQ then tftp_handle_wrq le buffer len w
      else if opcode = TFTP_OPCODE_RRQ then tftp_handle_rrq le buffer len w
      else (some EINVAL, w)

/-- The `switch ( status )` of the service loop of `main` (server.c lines 543-557): the code
of the ERROR packet sent for a non-zero status. -/
def main_error_code (status : Int) : Nat :=
  if status = EINVAL then TFTP_ERROR_ILLEGAL_OPERATION
  else if status = EPERM ∨ status = EACCES then TFTP_ERROR_ACCESS_VIOLATION
  else if status = EDQUOT then TFTP_ERROR_DISK_FULL
  else TFTP_ERROR_NOT_DEFINED

/-- What the service loop of `main` does with the status of an operation (server.c lines
534-557): nothing for zero, else one call of `tftp_send_error_packet`. -/
def main_report (le : Bool) (status : Int) (w : World) : Option Unit × World :=
  if status = 0 then (some (), w)
  else
    match tftp_send_error_packet le (main_error_code status) w with
    | (none, w) => (none, w)
    | (some _, w) => (some (), w)

/-- One pass through the service loop `while ( !sess.exit_flag )` of `main` (server.c lines
531-558): the status of the operation, and the world after the report. -/
def main_iteration (le : Bool) (buffer : List Nat) (w : World) : Option Int × World :=
  match tftp_handle_operation le buffer w with
  | (none, w) => (none, w)
  | (some status, w) =>
    match main_report le status w with
    | (none, w) => (none, w)
    | (some _, w) => (some status, w)

/-! ## Definitions used to state the properties -/

/-- The split of the parameters of a request datagram, as `tftp_handle_wrq` and
`tftp_handle_rrq` compute it in their first statement. -/
def request_params (request : List Nat) (len : Nat) (errno : Int) : SplitRes :=
  tftp_params_split (request.drop 2) (size_sub len 2)
    TFTP_PARAMS_NLIMIT TFTP_PARAMS_STRLIMIT errno

/-- A request datagram: opcode, then each field followed by a NUL. -/
def request_dgram (opcode : Nat) (fields : List String) : List Nat :=
  [0, opcode] ++ (fields.map (fun f => cstr f ++ [0])).flatten

/-- A world with no outcome left and an empty trace. -/
def idle_world : World := ⟨0, 0, 0, [], [], [], [], [], [], []⟩

/-- The paths of the `open` calls on a trace, in order. -/
def open_calls (t : List Effect) : List (List Nat) :=
  t.filterMap (fun e => match e with
    | Effect.open_call path _ => some path
    | _ => none)

/-- The datagrams sent on a trace, in order. -/
def sent_dgrams (t : List Effect) : List (List Nat) :=
  t.filterMap (fun e => match e with
    | Effect.sent dgram _ => some dgram
    | _ => none)

/-- The bytes written to the file on a trace, in order. -/
def written (t : List Effect) : List Nat :=
  (t.filterMap (fun e => match e with
    | Effect.fwrite bytes => some bytes
    | _ => none)).flatten

/-- The world after `recvfrom` has taken a datagram that came from `src`, `rest` being the
outcomes left. -/
def World.after_recv (w : World) (rest : List RecvRes) (src : Nat) : World :=
  { w with recvs := rest, saddr := src, trace := w.trace ++ [Effect.received] }

/-- The world after the Receiver has taken a datagram from `src`, written `payload` to the
file and sent the ACK for `block` to `src`; `rest`, `ws` and `ss` are the outcomes left for
`recvfrom`, `write` and `sendto`. -/
def World.after_accept (w : World) (rest : List RecvRes) (src : Nat) (ws ss : List SysRes)
    (payload : List Nat) (block : Nat) : World :=
  { w with
    recvs := rest, saddr := src, writes := ws, sends := ss,
    trace := w.trace ++ [Effect.received, Effect.fwrite payload,
      Effect.sent [0, 4, (block / 256) % 256, block % 256] src] }

/-- The world after one pass of a sender loop in which the read succeeds, the DATA packet
`dgram` is sent once and the matching ACK comes from `src`; `rs`, `ss`, `ps` and `rrest` are
the outcomes left for `read`, `sendto`, `poll` and `recvfrom`. -/
def World.after_block (w : World) (rs : List ReadRes) (ss : List SysRes) (ps : List PollRes)
    (rrest : List RecvRes) (src : Nat) (dgram : List Nat) : World :=
  { w with
    reads := rs, sends := ss, polls := ps, recvs := rrest, saddr := src,
    trace := w.trace ++ [Effect.fread, Effect.sent dgram w.saddr, Effect.polled,
      Effect.received] }

/-- The world after a sender loop has met the end of the file and closed it. -/
def World.after_eof (w : World) (rs : List ReadRes) : World :=
  { w with reads := rs, trace := w.trace ++ [Effect.fread, Effect.closed] }

/-- A DATA packet. -/
def data_dgram (block : Nat) (payload : List Nat) : List Nat :=
  [0, 3, (block / 256) % 256, block % 256] ++ payload

/-- An ACK packet. -/
def ack_dgram (block : Nat) : List Nat := [0, 4, (block / 256) % 256, block % 256]

/-- An ERROR packet with the standard message of its code. -/
def error_dgram (code : Nat) : List Nat :=
  [0, 5, (code / 256) % 256, code % 256] ++ tftp_get_errmsg code ++ [0]

/-- Outcomes of `count` successive `read` calls on a file that holds `content` from the
current position: every call returns the next `min 512 remaining` bytes. -/
def file_reads : Nat → List Nat → List ReadRes
  | 0, _ => []
  | count + 1, content =>
    ReadRes.ok (content.take TFTP_BLOCKSIZE) :: file_reads count (content.drop TFTP_BLOCKSIZE)

/-- The replies of a peer at address `src` that acknowledges `count` successive blocks, the
first of them numbered `block`. -/
def acks_from (src : Nat) : Nat → Nat → List RecvRes
  | 0, _ => []
  | count + 1, block =>
    RecvRes.ok (ack_dgram block) src :: acks_from src count ((block + 1) % 65536)

/-- The first `count` DATA packets for `content`, numbered from `block` on: every packet
carries the next `min 512 remaining` bytes. -/
def data_dgrams : Nat → Nat → List Nat → List (List Nat)
  | 0, _, _ => []
  | count + 1, block, content =>
    data_dgram block (content.take TFTP_BLOCKSIZE)
      :: data_dgrams count ((block + 1) % 65536) (content.drop TFTP_BLOCKSIZE)

/-- The number of DATA packets the sender loop transmits for the rest `content` of a file
when the previous read returned `lastread` bytes. -/
def blocks_to_send (content : List Nat) (lastread : Nat) : Nat :=
  if content.length = 0 then (if lastread = TFTP_BLOCKSIZE then 1 else 0)
  else content.length / TFTP_BLOCKSIZE + 1

/-- Every `sendto` succeeds. -/
def sends_succeed (sends : List SysRes) : Prop := ∀ s ∈ sends, ∃ n, s = SysRes.ok n

/-- Every `poll` reports the socket readable: no timeout, no failure, no hang-up. -/
def polls_ready (polls : List PollRes) : Prop :=
  ∀ p ∈ polls, 0 < p.status ∧ p.revents &&& POLLHUP = 0

/-- A file of `n` bytes, used in the examples. -/
def sample_file (n : Nat) : List Nat := List.replicate n 7

/-- The payload that holds the fields `fs`: each field followed by one NUL byte. -/
def encode_fields (fs : List (List Nat)) : List Nat :=
  (fs.map (fun f => f ++ [0])).flatten

/-- A byte string without NUL byte. -/
def nul_free (f : List Nat) : Prop := ∀ b ∈ f, b ≠ 0

instance nul_free_decidable (f : List Nat) : Decidable (nul_free f) := by
  unfold nul_free
  infer_instance

/-- The fields of a payload whose last byte is NUL: its maximal runs without NUL byte, each
ended by a NUL, in order. -/
def payload_fields : List Nat → List (List Nat)
  | [] => []
  | b :: bs =>
    if b = 0 then [] :: payload_fields bs
    else
      match payload_fields bs with
      | [] => [[b]]
      | f :: fs => (b :: f) :: fs

/-- The write request of `tftp_put_file` for `path`: opcode WRQ, the path and the mode
"octet", each followed by a NUL. -/
def wrq_request (path : List Nat) : List Nat := [0, 2] ++ encode_fields [path, cstr "octet"]

/-- The world after `tftp_put_file` has opened `path`, sent its request once and taken the
first reply, which came from `src`; `opens`, `ss`, `ps` and `rrest` are the outcomes left for
`open`, `sendto`, `poll` and `recvfrom`. -/
def World.after_request (w : World) (path : List Nat) (opens ss : List SysRes)
    (ps : List PollRes) (rrest : List RecvRes) (src : Nat) : World :=
  { w with
    opens := opens, sends := ss, polls := ps, recvs := rrest, saddr := src,
    trace := w.trace ++ [Effect.open_call path false, Effect.sent (wrq_request path) w.saddr,
      Effect.polled, Effect.received] }

/-- A `poll` that times out: no event, no failure, no hang-up. -/
def polls_timeout (polls : List PollRes) : Prop :=
  ∀ p ∈ polls, p.status = 0 ∧ p.revents &&& POLLHUP = 0

/-- The effects of `k` rounds of `sendto_autoretry`: the datagram sent to `dest`, then the
wait. -/
def retry_trace (k : Nat) (buf : List Nat) (dest : Nat) : List Effect :=
  (List.replicate k [Effect.sent buf dest, Effect.polled]).flatten

/-- The components of a path: the runs between the bytes '/'. -/
def path_components : List Nat → List (List Nat)
  | [] => [[]]
  | b :: bs =>
    if b = 47 then [] :: path_components bs
    else
      match path_components bs with
      | [] => [[b]]
      | c :: cs => (b :: c) :: cs

/-- A `sendto` outcome that is a failure. -/
def SysRes.failed : SysRes → Bool
  | SysRes.err _ => true
  | SysRes.ok _ => false

/-- A `recvfrom` outcome that is a failure. -/
def RecvRes.failed : RecvRes → Bool
  | RecvRes.err _ => true
  | RecvRes.ok _ _ => false

/-- A `poll` outcome that `sendto_autoretry` takes for a failure: an error or a hang-up. -/
def PollRes.failed (p : PollRes) : Bool :=
  decide (p.status < 0) || decide (p.revents &&& POLLHUP ≠ 0)

/-- No transport failure among the outcomes `s` of `sendto`, `p` of `poll` and `r` of
`recvfrom`. -/
def transport_clean (s : List SysRes) (p : List PollRes) (r : List RecvRes) : Bool :=
  s.all (fun x => !x.failed) && p.all (fun x => !x.failed) && r.all (fun x => !x.failed)

/-- Between the worlds `w` and `w1` of a run, `exit_flag` follows the transport: the run has
taken the outcomes `s`, `p` and `r` of `sendto`, `poll` and `recvfrom`; if none of them is a
failure `exit_flag` is what it was, otherwise it is 1. -/
def exit_flag_tracks (w w1 : World) : Prop :=
  ∃ (s : List SysRes) (p : List PollRes) (r : List RecvRes),
    w.sends = s ++ w1.sends ∧ w.polls = p ++ w1.polls ∧ w.recvs = r ++ w1.recvs ∧
    w1.exit_flag = if transport_clean s p r then w.exit_flag else 1

/-! # Theorems -/

/-! ## Path validation -/

theorem strchr_eq_zero_iff (s : List Nat) (c : Nat) :
    strchr s c = some 0 ↔ s.head? = some c := by
  cases s with
  | nil => simp [strchr]
  | cons b bs =>
    by_cases h : b = c
    · simp [strchr, h]
    · simp [strchr, h]

theorem starts_with_iff (s needle : List Nat) :
    starts_with s needle = true ↔ needle <+: s := by
  induction needle generalizing s with
  | nil => simp [starts_with]
  | cons n ns ih =>
    cases s with
    | nil => simp [starts_with]
    | cons b bs =>
      simp only [starts_with, ih, List.cons_prefix_cons, Bool.and_eq_true, beq_iff_eq]
      constructor <;> rintro ⟨h1, h2⟩ <;> exact ⟨h1.symm, h2⟩

theorem strstr_eq_none_iff (s needle : List Nat) :
    strstr s needle = none ↔ ¬ needle <:+: s := by
  induction s with
  | nil =>
    by_cases h : needle = []
    · simp [strstr, h]
    · simp [strstr, h]
  | cons b bs ih =>
    by_cases hs : starts_with (b :: bs) needle = true
    · have hp : needle <+: b :: bs := (starts_with_iff _ _).1 hs
      simp [strstr, hs, hp.isInfix]
    · have hp : ¬ needle <+: b :: bs := fun h => hs ((starts_with_iff _ _).2 h)
      simp only [strstr, hs, Bool.false_eq_true, if_false, Option.map_eq_none', ih]
      rw [List.infix_cons_iff]
      tauto

theorem validate_path_accepts_iff (path : List Nat) :
    tftp_validate_path path = true ↔ (path.head? ≠ some 47 ∧ ¬ [46, 46, 47] <:+: path) := by
  simp [tftp_validate_path, strchr_eq_zero_iff, strstr_eq_none_iff]

theorem tftp_validate_path_eq_false (path : List Nat)
    (h : path.head? = some 47 ∨ [46, 46, 47] <:+: path) : tftp_validate_path path = false := by
  cases hv : tftp_validate_path path with
  | false => rfl
  | true =>
    have := (validate_path_accepts_iff path).1 hv
    tauto

/-- C1: `tftp_validate_path` accepts a path exactly when its first character is not `/` and
the three-character string `../` occurs nowhere in it; it rejects `../etc/passwd`,
`/etc/passwd` and `a/../../b`, and accepts `a/b/c.txt` and `c.txt`. -/
theorem tftp_validate_path_iff :
    (∀ path : List Nat, tftp_validate_path path = true ↔
      (path.head? ≠ some 47 ∧ ¬ [46, 46, 47] <:+: path)) ∧
    cstr "/" = [47] ∧ cstr "../" = [46, 46, 47] ∧
    tftp_validate_path (cstr "../etc/passwd") = false ∧
    tftp_validate_path (cstr "/etc/passwd") = false ∧
    tftp_validate_path (cstr "a/../../b") = false ∧
    tftp_validate_path (cstr "a/b/c.txt") = true ∧
    tftp_validate_path (cstr "c.txt") = true :=
  ⟨validate_path_accepts_iff, by decide, by decide, by decide, by decide, by decide, by decide,
    by decide⟩

/-! ## Integer conversions -/

theorem to_size_natCast (n : Nat) (h : n < 2 ^ 64) : to_size (n : Int) = n := by
  unfold to_size SIZE_MAX1
  have : ((n : Int) % ((2 ^ 64 : Nat) : Int)) = (n : Int) := by
    rw [Int.emod_eq_of_lt] <;> omega
  rw [this]; simp

theorem to_ssize_small (n : Nat) (h : n < 2 ^ 63) : to_ssize n = (n : Int) := by
  have h2 : n % SIZE_MAX1 = n := Nat.mod_eq_of_lt (by unfold SIZE_MAX1; omega)
  unfold to_ssize
  rw [h2, if_pos h]

theorem to_ssize_to_size_neg_one : to_ssize (to_size (-1)) = -1 := by decide

/-! ## Splitting the request parameters -/

theorem split_loop_ret (header : List Nat) (len nlimit strlimit : Nat) (errno : Int) :
    ∀ (fuel i offset : Nat) (acc : List (List Nat)),
      (tftp_params_split_loop header len nlimit strlimit errno fuel i offset acc).ret = -1 ∨
      ((i : Int) ≤ (tftp_params_split_loop header len nlimit strlimit errno fuel i offset acc).ret ∧
       (tftp_params_split_loop header len nlimit strlimit errno fuel i offset acc).ret
          ≤ ((max i nlimit : Nat) : Int) ∧
       (0 < fuel → offset < len →
        (i : Int) + 1 ≤ (tftp_params_split_loop header len nlimit strlimit errno fuel i offset acc).ret)) := by
  intro fuel
  induction fuel with
  | zero => intro i offset acc; right; simp [tftp_params_split_loop]
  | succ fuel ih =>
    intro i offset acc
    unfold tftp_params_split_loop
    by_cases h1 : offset < len
    · by_cases h2 : i ≥ nlimit
      · left; simp [h1, h2]
      · by_cases h3 : strlen (header.drop offset) ≥ strlimit
        · left; simp [h1, h2, h3]
        · simp only [h1, h2, h3, if_true, if_false]
          rcases ih (i + 1) (offset + strlen (header.drop offset) + 1)
            ((header.drop offset).take (strlen (header.drop offset)) :: acc) with h | ⟨ha, hb, _⟩
          · left; exact h
          · right
            refine ⟨by omega, ?_, fun _ _ => by omega⟩
            have : max (i + 1) nlimit = max i nlimit := by omega
            rw [this] at hb; exact hb
    · right; simp [h1]

/-- A split that does not fail returns at least one field and at most `nlimit`. -/
theorem split_ret (header : List Nat) (len nlimit strlimit : Nat) (errno : Int) :
    (tftp_params_split header len nlimit strlimit errno).ret = -1 ∨
    (1 ≤ (tftp_params_split header len nlimit strlimit errno).ret ∧
     (tftp_params_split header len nlimit strlimit errno).ret ≤ (nlimit : Int)) := by
  unfold tftp_params_split
  by_cases h : first_nul header len = len
  · left; simp [h]
  · simp only [h, if_false]
    have hlen : 0 < len := by
      rcases Nat.eq_zero_or_pos len with h0 | h0
      · subst h0; simp [first_nul] at h
      · exact h0
    rcases split_loop_ret header len nlimit strlimit errno len 0 0 [] with h1 | ⟨_, hb, hc⟩
    · left; exact h1
    · right
      refine ⟨?_, ?_⟩
      · have := hc hlen hlen; simpa using this
      · simpa using hb

/-! ## Codec lemmas -/

theorem bswap_lo (a b : Nat) (hb : b < 256) : (a * 256 + b) % 256 = b := by omega

theorem bswap_hi (a b : Nat) (ha : a < 256) (hb : b < 256) : (a * 256 + b) / 256 % 256 = a := by
  omega

/-- The bytes stored for a 16-bit value are its high byte and its low byte, on either host. -/
theorem ushort_bytes_htons (le : Bool) (v : Nat) :
    ushort_bytes le (htons le v) = [(v / 256) % 256, v % 256] := by
  cases le
  · simp only [ushort_bytes, htons, Bool.false_eq_true, if_false, List.cons.injEq, and_true]
    omega
  · simp only [ushort_bytes, htons, bswap16, if_true, List.cons.injEq, and_true]
    exact ⟨bswap_lo _ _ (Nat.mod_lt _ (by norm_num)),
      bswap_hi _ _ (Nat.mod_lt _ (by norm_num)) (Nat.mod_lt _ (by norm_num))⟩

/-- Loading two bytes gives the big-endian value, on either host. -/
theorem tfp_load_ushort_ns_cons (le : Bool) (b0 b1 : Nat) (rest : List Nat)
    (h0 : b0 < 256) (h1 : b1 < 256) :
    tfp_load_ushort_ns le (b0 :: b1 :: rest) = 256 * b0 + b1 := by
  cases le
  · simp only [tfp_load_ushort_ns, ntohs, load_ushort, Bool.false_eq_true, if_false,
      List.getD_cons_zero, List.getD_cons_succ]
    omega
  · simp only [tfp_load_ushort_ns, ntohs, load_ushort, bswap16, if_true,
      List.getD_cons_zero, List.getD_cons_succ]
    omega

/-! ## Path confinement in the handlers -/

theorem to_ssize_to_size_ret (r : Int) (h1 : 1 ≤ r) (h2 : r ≤ 16) :
    to_ssize (to_size r) = r ∧ (to_size r = 1 ↔ r = 1) ∧ to_size r ≠ 0 := by
  obtain ⟨n, rfl⟩ := Int.eq_ofNat_of_zero_le (by omega : 0 ≤ r)
  have hn : n < 2 ^ 63 := by omega
  rw [to_size_natCast n (by omega), to_ssize_small n hn]
  refine ⟨rfl, by omega, by omega⟩

/-- A request whose parameters split passes the two tests on the parameter count. -/
theorem request_params_count (request : List Nat) (len : Nat) (errno : Int)
    (hsplit : (request_params request len errno).ret ≠ -1) :
    ¬ to_ssize (to_size (request_params request len errno).ret) < 0 ∧
    to_size (request_params request len errno).ret ≠ 0 ∧
    (to_size (request_params request len errno).ret = 1 ↔
      (request_params request len errno).ret = 1) := by
  rcases split_ret (request.drop 2) (size_sub len 2) TFTP_PARAMS_NLIMIT
    TFTP_PARAMS_STRLIMIT errno with h | ⟨h1, h2⟩
  · exact absurd h hsplit
  obtain ⟨hr2, hr3, hr4⟩ := to_ssize_to_size_ret _ h1 (by simpa [TFTP_PARAMS_NLIMIT] using h2)
  unfold request_params
  refine ⟨?_, hr4, hr3⟩
  rw [hr2]; omega

/-- The ERROR packet the service loop sends for `EACCES`. -/
theorem main_report_eacces (le : Bool) (w1 : World) (n : Nat) (ss : List SysRes)
    (hs : w1.sends = SysRes.ok n :: ss) :
    main_report le EACCES w1 = (some (), { w1 with
      sends := ss,
      trace := w1.trace ++
        [Effect.sent ([0, 5, 0, 2] ++ cstr "Access violation." ++ [0]) w1.saddr] }) := by
  have hmsg : tftp_get_errmsg 2 = cstr "Access violation." := by decide
  have hlen : (cstr "Access violation.").length = 17 := by decide
  have hc : main_error_code EACCES = 2 := by decide
  have he : ¬ (EACCES = 0) := by decide
  unfold main_report tftp_send_error_packet
  rw [if_neg he, hc, hmsg]
  dsimp only
  rw [hlen, if_neg (by omega), hs]
  simp only [ushort_bytes_htons, World.emit, TFTP_OPCODE_ERROR]
  have h2 : ([5 / 256 % 256, 5 % 256] ++ [2 / 256 % 256, 2 % 256] ++ cstr "Access violation."
      ++ [0]) = [0, 5, 0, 2] ++ cstr "Access violation." ++ [0] := by decide
  rw [h2, List.take_of_length_le (by simp [hlen])]

theorem wrq_after_split_bad_path (le : Bool) (sp : SplitRes) (w : World)
    (hc1 : ¬ to_ssize (to_size sp.ret) < 0) (hc2 : to_size sp.ret ≠ 0)
    (hm : ¬ (to_size sp.ret ≠ 1 ∧ (tftp_parse_transfer_mode (sp.params.getD 1 []) < 0
      ∨ tftp_parse_transfer_mode (sp.params.getD 1 []) ≠ TFTP_TRANSFER_MODE_OCTET)))
    (hv : tftp_validate_path (sp.params.getD 0 []) = false) :
    tftp_handle_wrq_after_split le sp w = (some EACCES, { w with errno := sp.errno }) := by
  unfold tftp_handle_wrq_after_split
  simp only [hc1, hc2, hv, hm, if_false, Bool.not_false, if_true]

theorem rrq_after_split_bad_path (le : Bool) (sp : SplitRes) (w : World)
    (hc1 : ¬ to_ssize (to_size sp.ret) < 0) (hc2 : to_size sp.ret ≠ 0)
    (hm : ¬ (to_size sp.ret ≠ 1 ∧ tftp_parse_transfer_mode (sp.params.getD 1 []) < 0))
    (hv : tftp_validate_path (sp.params.getD 0 []) = false) :
    tftp_handle_rrq_after_split le sp w = (some EACCES, { w with errno := sp.errno }) := by
  unfold tftp_handle_rrq_after_split
  simp only [hc1, hc2, hv, hm, if_false, Bool.not_false, if_true]

/-- C2 (amended): when the parameters split and the filename starts with `/` or contains
`../`, `tftp_handle_wrq` returns `EACCES` if the mode is absent or parses as octet, and
`tftp_handle_rrq` returns `EACCES` if the mode is absent or parses as a known mode; the
service loop answers `EACCES` with an ERROR packet of code ACCESS_VIOLATION (2). -/
theorem handlers_reject_bad_path (le : Bool) (request : List Nat) (len : Nat) (w : World)
    (hsplit : (request_params request len w.errno).ret ≠ -1)
    (hpath : ((request_params request len w.errno).params.getD 0 []).head? = some 47 ∨
      [46, 46, 47] <:+: (request_params request len w.errno).params.getD 0 []) :
    (((request_params request len w.errno).ret = 1 ∨
        tftp_parse_transfer_mode ((request_params request len w.errno).params.getD 1 [])
          = TFTP_TRANSFER_MODE_OCTET) →
      tftp_handle_wrq le request len w
        = (some EACCES, { w with errno := (request_params request len w.errno).errno })) ∧
    (((request_params request len w.errno).ret = 1 ∨
        0 ≤ tftp_parse_transfer_mode ((request_params request len w.errno).params.getD 1 [])) →
      tftp_handle_rrq le request len w
        = (some EACCES, { w with errno := (request_params request len w.errno).errno })) ∧
    main_error_code EACCES = TFTP_ERROR_ACCESS_VIOLATION ∧
    (∀ (w1 : World) (n : Nat) (ss : List SysRes), w1.sends = SysRes.ok n :: ss →
      main_report le EACCES w1 = (some (), { w1 with
        sends := ss,
        trace := w1.trace ++
          [Effect.sent ([0, 5, 0, 2] ++ cstr "Access violation." ++ [0]) w1.saddr] })) := by
  have hv := tftp_validate_path_eq_false _ hpath
  obtain ⟨hc1, hc2, hc3⟩ := request_params_count request len w.errno hsplit
  refine ⟨?_, ?_, by decide, main_report_eacces le⟩
  · intro hm
    refine wrq_after_split_bad_path le (request_params request len w.errno) w hc1 hc2 ?_ hv
    rintro ⟨ha, hb⟩
    rcases hm with hm | hm
    · exact ha (hc3.2 hm)
    · rcases hb with hb | hb
      · rw [hm] at hb; exact absurd hb (by decide)
      · exact hb hm
  · intro hm
    refine rrq_after_split_bad_path le (request_params request len w.errno) w hc1 hc2 ?_ hv
    rintro ⟨ha, hb⟩
    rcases hm with hm | hm
    · exact ha (hc3.2 hm)
    · omega

theorem handlers_reject_bad_path_witness :
    (request_params (request_dgram 2 ["/etc/passwd", "OCTET"]) 19 idle_world.errno).ret ≠ -1 ∧
    ((request_params (request_dgram 2 ["/etc/passwd", "OCTET"]) 19
      idle_world.errno).params.getD 0 []).head? = some 47 ∧
    tftp_handle_wrq true (request_dgram 2 ["/etc/passwd", "OCTET"]) 19 idle_world
      = (some EACCES, idle_world) ∧
    tftp_handle_rrq true (request_dgram 2 ["/etc/passwd", "OCTET"]) 19 idle_world
      = (some EACCES, idle_world) :=
  ⟨by decide, by decide,
    (handlers_reject_bad_path true (request_dgram 2 ["/etc/passwd", "OCTET"]) 19 idle_world
      (by decide) (Or.inl (by decide))).1 (Or.inr (by decide)),
    (handlers_reject_bad_path true (request_dgram 2 ["/etc/passwd", "OCTET"]) 19 idle_world
      (by decide) (Or.inl (by decide))).2.1 (Or.inr (by decide))⟩

/-- C2 (as stated, refuted): a write request and a read request for `/etc/passwd` with the
mode `mail` split into two parameters, and both handlers return `EINVAL`, not `EACCES`; the
service loop answers with ILLEGAL_OPERATION (4). -/
theorem bad_path_bad_mode_is_einval :
    (request_params (request_dgram 2 ["/etc/passwd", "mail"]) 18 0).ret = 2 ∧
    (request_params (request_dgram 2 ["/etc/passwd", "mail"]) 18 0).params
      = [cstr "/etc/passwd", cstr "mail"] ∧
    (cstr "/etc/passwd").head? = some 47 ∧
    (tftp_handle_wrq true (request_dgram 2 ["/etc/passwd", "mail"]) 18 idle_world).1
      = some EINVAL ∧
    (tftp_handle_rrq true (request_dgram 1 ["/etc/passwd", "mail"]) 18 idle_world).1
      = some EINVAL ∧
    EINVAL ≠ EACCES ∧
    main_error_code EINVAL = TFTP_ERROR_ILLEGAL_OPERATION ∧
    (main_report true EINVAL { idle_world with saddr := 7, sends := [SysRes.ok 28] }).2.trace
      = [Effect.sent ([0, 5, 0, 4] ++ cstr "Illegal TFTP operation." ++ [0]) 7] := by
  refine ⟨by decide, by decide, by decide, by decide, by decide, by decide, by decide, ?_⟩
  decide

/-! ## The `open` calls of a run -/

theorem open_calls_append (t u : List Effect) :
    open_calls (t ++ u) = open_calls t ++ open_calls u := by
  simp [open_calls, List.filterMap_append]

theorem open_calls_emit (w : World) (e : Effect) :
    open_calls (w.emit e).trace = open_calls w.trace ++
      (match e with
        | Effect.open_call path _ => [path]
        | _ => []) := by
  cases e <;> simp [World.emit, open_calls, List.filterMap_append]

theorem open_calls_close (w : World) : open_calls w.close.trace = open_calls w.trace := by
  simp only [World.close, open_calls_emit, List.append_nil]

theorem recvfrom_open_calls (buffer : List Nat) (size : Nat) (w : World) (r : Int)
    (b : List Nat) (w1 : World) (h : recvfrom buffer size w = some (r, b, w1)) :
    open_calls w1.trace = open_calls w.trace := by
  unfold recvfrom at h
  split at h
  · simp at h
  · simp only [Option.some.injEq, Prod.mk.injEq] at h
    obtain ⟨_, _, rfl⟩ := h
    simp only [open_calls_emit, List.append_nil]
  · simp only [Option.some.injEq, Prod.mk.injEq] at h
    obtain ⟨_, _, rfl⟩ := h
    simp only [open_calls_emit, List.append_nil]

theorem sys_write_open_calls (bytes : List Nat) (w : World) (r : Int) (w1 : World)
    (h : sys_write bytes w = some (r, w1)) : open_calls w1.trace = open_calls w.trace := by
  unfold sys_write at h
  split at h
  · simp at h
  · simp only [Option.some.injEq, Prod.mk.injEq] at h
    obtain ⟨_, rfl⟩ := h
    rfl
  · simp only [Option.some.injEq, Prod.mk.injEq] at h
    obtain ⟨_, rfl⟩ := h
    simp only [open_calls_emit, List.append_nil]

theorem sys_read_open_calls (buffer : List Nat) (off count : Nat) (w : World) (r : Int)
    (b : List Nat) (w1 : World) (h : sys_read buffer off count w = some (r, b, w1)) :
    open_calls w1.trace = open_calls w.trace := by
  unfold sys_read at h
  split at h
  · simp at h
  · simp only [Option.some.injEq, Prod.mk.injEq] at h
    obtain ⟨_, _, rfl⟩ := h
    simp only [open_calls_emit, List.append_nil]
  · simp only [Option.some.injEq, Prod.mk.injEq] at h
    obtain ⟨_, _, rfl⟩ := h
    simp only [open_calls_emit, List.append_nil]

theorem send_ack_open_calls (le : Bool) (block : Nat) (w : World) :
    open_calls (tftp_send_ack_packet le block w).2.trace = open_calls w.trace := by
  unfold tftp_send_ack_packet
  split
  · rfl
  · rfl
  · simp only [open_calls_emit, List.append_nil]

theorem sendto_autoretry_go_open_calls (buf : List Nat) (dest : Nat) :
    ∀ (polls : List PollRes) (w : World),
      open_calls (sendto_autoretry_go buf dest polls w).2.2.trace = open_calls w.trace := by
  intro polls
  induction polls with
  | nil =>
    intro w
    unfold sendto_autoretry_go
    split
    · rfl
    · rfl
    · simp only [open_calls_emit, List.append_nil]
  | cons p polls ih =>
    intro w
    unfold sendto_autoretry_go
    split
    · rfl
    · rfl
    · simp only
      split
      · simp only [open_calls_emit, List.append_nil]
      · split
        · simp only [open_calls_emit, List.append_nil]
        · split
          · rw [ih]; simp only [open_calls_emit, List.append_nil]
          · simp only [open_calls_emit, List.append_nil]

theorem sendto_autoretry_open_calls (buf : List Nat) (len : Nat) (w : World) :
    open_calls (sendto_autoretry buf len w).2.trace = open_calls w.trace := by
  unfold sendto_autoretry
  exact sendto_autoretry_go_open_calls _ _ _ _

theorem wrq_body_open_calls (le : Bool) (block : Nat) (buffer : List Nat) (w : World) :
    open_calls (tftp_handle_wrq_body le block buffer w).2.2.trace = open_calls w.trace := by
  unfold tftp_handle_wrq_body
  split
  · rfl
  · rename_i r b w1 h
    have h1 := recvfrom_open_calls _ _ _ _ _ _ h
    simp only
    split_ifs
    · simpa [open_calls_close] using h1
    · simpa [open_calls_close] using h1
    · exact h1
    · exact h1
    · split
      · exact h1
      · rename_i wr w2 h2
        have h3 := sys_write_open_calls _ _ _ _ h2
        split_ifs
        · simpa [open_calls_close, h3] using h1
        · have h4 := send_ack_open_calls le block w2
          split
          · rename_i w3 h5
            rw [h5] at h4
            simpa [h3, h1] using h4
          · rename_i a w3 h5
            rw [h5] at h4
            split_ifs
            · simpa [open_calls_close, h3, h1] using h4
            · simpa [h3, h1] using h4

theorem wrq_loop_open_calls (le : Bool) :
    ∀ (fuel block : Nat) (buffer : List Nat) (w : World),
      open_calls (tftp_handle_wrq_loop le fuel block buffer w).2.trace = open_calls w.trace := by
  intro fuel
  induction fuel with
  | zero => intro block buffer w; rfl
  | succ fuel ih =>
    intro block buffer w
    unfold tftp_handle_wrq_loop
    have hb := wrq_body_open_calls le block buffer w
    split
    · rename_i v b w1 h; rw [h] at hb; exact hb
    · rename_i b w1 h; rw [h] at hb; exact hb
    · rename_i block1 len b w1 h
      rw [h] at hb
      split_ifs
      · rw [ih]; exact hb
      · simpa [open_calls_close] using hb

theorem recv_ack_open_calls (le : Bool) (block : Nat) :
    ∀ (fuel : Nat) (w : World),
      open_calls (recv_ack le block fuel w).2.trace = open_calls w.trace := by
  intro fuel
  induction fuel with
  | zero => intro w; rfl
  | succ fuel ih =>
    intro w
    unfold recv_ack
    split
    · rfl
    · rename_i r b w1 h
      have h1 := recvfrom_open_calls _ _ _ _ _ _ h
      simp only
      split_ifs
      · simpa [open_calls_close] using h1
      · simpa [open_calls_close] using h1
      · simpa [open_calls_close] using h1
      · rw [ih]; exact h1
      · exact h1

theorem rrq_loop_open_calls (le : Bool) :
    ∀ (fuel block lastread : Nat) (buffer : List Nat) (w : World),
      open_calls (tftp_handle_rrq_loop le fuel block lastread buffer w).2.trace
        = open_calls w.trace := by
  intro fuel
  induction fuel with
  | zero => intro block lastread buffer w; rfl
  | succ fuel ih =>
    intro block lastread buffer w
    unfold tftp_handle_rrq_loop
    split
    · rfl
    · rename_i r b w1 h
      have h1 := sys_read_open_calls _ _ _ _ _ _ _ h
      simp only
      split_ifs
      · have h2 := sendto_autoretry_open_calls (store_data_header le b block)
          ((4 + to_size r) % SIZE_MAX1) w1
        split
        · rename_i w2 h3; rw [h3] at h2; simpa [h1] using h2
        · rename_i s w2 h3
          rw [h3] at h2
          split_ifs
          · simpa [open_calls_close, h1] using h2
          · have h4 := recv_ack_open_calls le block (w2.recvs.length + 1) w2
            split
            · rename_i v w3 h5; rw [h5] at h4; simpa [h1, h2] using h4
            · rename_i w3 h5; rw [h5] at h4; simpa [h1, h2] using h4
            · rename_i w3 h5; rw [h5] at h4; rw [ih]; simpa [h1, h2] using h4
      · simpa [open_calls_close] using h1
      · simpa [open_calls_close] using h1

theorem sys_open_open_calls (path : List Nat) (writing : Bool) (w : World) (fd : Int)
    (w1 : World) (h : sys_open path writing w = some (fd, w1)) :
    open_calls w1.trace = open_calls w.trace ++ [path] := by
  unfold sys_open at h
  split at h
  · simp at h
  · simp only [Option.some.injEq, Prod.mk.injEq] at h
    obtain ⟨_, rfl⟩ := h
    simp only [open_calls_emit]
  · simp only [Option.some.injEq, Prod.mk.injEq] at h
    obtain ⟨_, rfl⟩ := h
    simp only [open_calls_emit]

/-- The `open` calls of the write handler, after the split. -/
theorem wrq_after_split_opens (le : Bool) (sp : SplitRes) (w : World) :
    (open_calls (tftp_handle_wrq_after_split le sp w).2.trace = open_calls w.trace ∨
      (open_calls (tftp_handle_wrq_after_split le sp w).2.trace
          = open_calls w.trace ++ [sp.params.getD 0 []] ∧
        tftp_validate_path (sp.params.getD 0 []) = true)) ∧
    (tftp_validate_path (sp.params.getD 0 []) = true ∨
      (tftp_handle_wrq_after_split le sp w).2.trace = w.trace) := by
  unfold tftp_handle_wrq_after_split
  simp only
  split_ifs with h1 h2 h3 h4
  · exact ⟨Or.inl rfl, Or.inr rfl⟩
  · exact ⟨Or.inl rfl, Or.inr rfl⟩
  · exact ⟨Or.inl rfl, Or.inr rfl⟩
  · exact ⟨Or.inl rfl, Or.inr rfl⟩
  · have hv : tftp_validate_path (sp.params.getD 0 []) = true := by simpa using h4
    refine ⟨?_, Or.inl hv⟩
    split
    · exact Or.inl rfl
    · rename_i fd w1 ho
      have ho1 := sys_open_open_calls _ _ _ _ _ ho
      have ho2 : open_calls w1.trace = open_calls w.trace ++ [sp.params.getD 0 []] := ho1
      right
      refine ⟨?_, hv⟩
      split_ifs
      · exact ho2
      · have ha := send_ack_open_calls le 0 w1
        split
        · rename_i w2 h5; rw [h5] at ha; simpa [ho2] using ha
        · rename_i a w2 h5
          rw [h5] at ha
          split_ifs
          · simpa [open_calls_close, ho2] using ha
          · rw [wrq_loop_open_calls]; simpa [ho2] using ha

/-- The `open` calls of the read handler, after the split. -/
theorem rrq_after_split_opens (le : Bool) (sp : SplitRes) (w : World) :
    (open_calls (tftp_handle_rrq_after_split le sp w).2.trace = open_calls w.trace ∨
      (open_calls (tftp_handle_rrq_after_split le sp w).2.trace
          = open_calls w.trace ++ [sp.params.getD 0 []] ∧
        tftp_validate_path (sp.params.getD 0 []) = true)) ∧
    (tftp_validate_path (sp.params.getD 0 []) = true ∨
      (tftp_handle_rrq_after_split le sp w).2.trace = w.trace) := by
  unfold tftp_handle_rrq_after_split
  simp only
  split_ifs with h1 h2 h3 h4
  · exact ⟨Or.inl rfl, Or.inr rfl⟩
  · exact ⟨Or.inl rfl, Or.inr rfl⟩
  · exact ⟨Or.inl rfl, Or.inr rfl⟩
  · exact ⟨Or.inl rfl, Or.inr rfl⟩
  · have hv : tftp_validate_path (sp.params.getD 0 []) = true := by simpa using h4
    refine ⟨?_, Or.inl hv⟩
    split
    · exact Or.inl rfl
    · rename_i fd w1 ho
      have ho1 := sys_open_open_calls _ _ _ _ _ ho
      have ho2 : open_calls w1.trace = open_calls w.trace ++ [sp.params.getD 0 []] := ho1
      right
      refine ⟨?_, hv⟩
      split_ifs
      · exact ho2
      · rw [rrq_loop_open_calls]; exact ho2

/-- C3: in every run of `tftp_handle_wrq` and `tftp_handle_rrq`, on every request, the run
makes no `open` call, or exactly one, whose path is the first request parameter, and then
this parameter does not start with `/` and does not contain `../`; and when the first
parameter is rejected by `tftp_validate_path` the run has no effect at all: no file is
opened and no packet is sent. -/
theorem handlers_open_only_valid_path (le : Bool) (request : List Nat) (len : Nat)
    (w : World) :
    ((open_calls (tftp_handle_wrq le request len w).2.trace = open_calls w.trace ∨
      (open_calls (tftp_handle_wrq le request len w).2.trace
          = open_calls w.trace ++ [(request_params request len w.errno).params.getD 0 []] ∧
        ((request_params request len w.errno).params.getD 0 []).head? ≠ some 47 ∧
        ¬ [46, 46, 47] <:+: (request_params request len w.errno).params.getD 0 [])) ∧
     (tftp_validate_path ((request_params request len w.errno).params.getD 0 []) = true ∨
      (tftp_handle_wrq le request len w).2.trace = w.trace)) ∧
    ((open_calls (tftp_handle_rrq le request len w).2.trace = open_calls w.trace ∨
      (open_calls (tftp_handle_rrq le request len w).2.trace
          = open_calls w.trace ++ [(request_params request len w.errno).params.getD 0 []] ∧
        ((request_params request len w.errno).params.getD 0 []).head? ≠ some 47 ∧
        ¬ [46, 46, 47] <:+: (request_params request len w.errno).params.getD 0 [])) ∧
     (tftp_validate_path ((request_params request len w.errno).params.getD 0 []) = true ∨
      (tftp_handle_rrq le request len w).2.trace = w.trace)) := by
  have hw := wrq_after_split_opens le (request_params request len w.errno) w
  have hr := rrq_after_split_opens le (request_params request len w.errno) w
  refine ⟨⟨?_, hw.2⟩, ⟨?_, hr.2⟩⟩
  · rcases hw.1 with h | ⟨h, hv⟩
    · exact Or.inl h
    · exact Or.inr ⟨h, (validate_path_accepts_iff _).1 hv⟩
  · rcases hr.1 with h | ⟨h, hv⟩
    · exact Or.inl h
    · exact Or.inr ⟨h, (validate_path_accepts_iff _).1 hv⟩

/-! ## Receiving a datagram -/

theorem memcpy_zero (buffer d : List Nat) : memcpy buffer 0 d = d ++ buffer.drop d.length := by
  simp [memcpy]

theorem tfp_load_ushort_ns_congr (le : Bool) (b c : List Nat)
    (h0 : b.getD 0 0 = c.getD 0 0) (h1 : b.getD 1 0 = c.getD 1 0) :
    tfp_load_ushort_ns le b = tfp_load_ushort_ns le c := by
  simp only [tfp_load_ushort_ns, load_ushort, h0, h1]

theorem getD_append_left (d x : List Nat) (i : Nat) (h : i < d.length) :
    (d ++ x).getD i 0 = d.getD i 0 := by
  simp [List.getD_eq_getElem?_getD, List.getElem?_append_left h]

/-- The opcode of the datagram in the buffer is the opcode of the datagram. -/
theorem load_opcode_memcpy (le : Bool) (buffer d : List Nat) (h : 2 ≤ d.length) :
    tfp_load_ushort_ns le (memcpy buffer 0 d) = tfp_load_ushort_ns le d := by
  rw [memcpy_zero]
  exact tfp_load_ushort_ns_congr le _ _ (getD_append_left _ _ _ (by omega))
    (getD_append_left _ _ _ (by omega))

/-- The block number of the datagram in the buffer is the block number of the datagram. -/
theorem load_block_memcpy (le : Bool) (buffer d : List Nat) (h : 4 ≤ d.length) :
    tfp_load_ushort_ns le ((memcpy buffer 0 d).drop 2) = tfp_load_ushort_ns le (d.drop 2) := by
  rw [memcpy_zero, List.drop_append_of_le_length (by omega)]
  exact tfp_load_ushort_ns_congr le _ _ (getD_append_left _ _ _ (by simp; omega))
    (getD_append_left _ _ _ (by simp; omega))

/-- The payload of the datagram in the buffer is the payload of the datagram. -/
theorem payload_memcpy (buffer d : List Nat) (h : 4 ≤ d.length) :
    ((memcpy buffer 0 d).drop 4).take (d.length - 4) = d.drop 4 := by
  rw [memcpy_zero, List.drop_append_of_le_length (by omega)]
  rw [List.take_append_of_le_length (by simp)]
  simp

theorem recvfrom_ok (buffer : List Nat) (size : Nat) (w : World) (d : List Nat) (src : Nat)
    (rest : List RecvRes) (hr : w.recvs = RecvRes.ok d src :: rest) (hs : d.length ≤ size) :
    recvfrom buffer size w = some ((d.length : Int), memcpy buffer 0 d,
      { w with recvs := rest, saddr := src, trace := w.trace ++ [Effect.received] }) := by
  unfold recvfrom
  rw [hr]
  simp only [List.take_of_length_le hs, World.emit]

theorem to_size_length (n : Nat) (h : n ≤ 65536) :
    to_size (n : Int) = n ∧ ¬ to_ssize n < 0 := by
  refine ⟨to_size_natCast n (by omega), ?_⟩
  rw [to_ssize_small n (by omega)]
  omega

/-! ## Receiver role: one pass through the loop -/

/-- The two receiver loops have the same body. -/
theorem get_file_body_eq (le : Bool) (block : Nat) (buffer : List Nat) (w : World) :
    tftp_get_file_body le block buffer w = tftp_handle_wrq_body le block buffer w := rfl

theorem get_file_loop_eq (le : Bool) :
    ∀ (fuel block : Nat) (buffer : List Nat) (w : World),
      tftp_get_file_loop le fuel block buffer w = tftp_handle_wrq_loop le fuel block buffer w := by
  intro fuel
  induction fuel with
  | zero => intro block buffer w; rfl
  | succ fuel ih =>
    intro block buffer w
    unfold tftp_get_file_loop tftp_handle_wrq_loop
    rw [get_file_body_eq]
    split <;> simp_all

/-- A datagram of at least 4 bytes that is not the expected DATA block takes the body to the
loop condition with `block` unchanged and nothing but the reception on the trace. -/
theorem wrq_body_discard (le : Bool) (block : Nat) (buffer : List Nat) (w : World)
    (d : List Nat) (src : Nat) (rest : List RecvRes)
    (hr : w.recvs = RecvRes.ok d src :: rest) (h4 : 4 ≤ d.length) (hmax : d.length ≤ 65536)
    (hbad : tfp_load_ushort_ns le d ≠ TFTP_OPCODE_DATA ∨
      tfp_load_ushort_ns le (d.drop 2) ≠ block) :
    tftp_handle_wrq_body le block buffer w = (LoopStep.cond block d.length, memcpy buffer 0 d,
      { w with recvs := rest, saddr := src, trace := w.trace ++ [Effect.received] }) := by
  obtain ⟨hs1, hs2⟩ := to_size_length d.length hmax
  have hl : ¬ (tftp_packet_check_length 4 d.length = 0) := by
    unfold tftp_packet_check_length
    rw [if_neg (by omega)]
    decide
  unfold tftp_handle_wrq_body
  rw [recvfrom_ok buffer 65536 w d src rest hr hmax]
  simp only [hs1, hs2, hl, if_false, load_opcode_memcpy le buffer d (by omega),
    load_block_memcpy le buffer d h4]
  rcases hbad with h | h
  · rw [if_pos h]
  · by_cases h1 : tfp_load_ushort_ns le d ≠ TFTP_OPCODE_DATA
    · rw [if_pos h1]
    · rw [if_neg h1, if_pos h]

/-- The expected DATA block, fully written and acknowledged, takes the body to the loop
condition with the next block number; the trace gains the reception, the write of the payload
and the ACK for the block. -/
theorem wrq_body_accept (le : Bool) (block : Nat) (buffer : List Nat) (w : World)
    (d : List Nat) (src : Nat) (rest : List RecvRes)
    (hr : w.recvs = RecvRes.ok d src :: rest) (h4 : 4 ≤ d.length) (hmax : d.length ≤ 65536)
    (hop : tfp_load_ushort_ns le d = TFTP_OPCODE_DATA)
    (hblk : tfp_load_ushort_ns le (d.drop 2) = block)
    (n : Nat) (ws : List SysRes) (hw : w.writes = SysRes.ok n :: ws) (hn : d.length - 4 ≤ n)
    (m : Nat) (ss : List SysRes) (hsend : w.sends = SysRes.ok m :: ss) :
    tftp_handle_wrq_body le block buffer w
      = (LoopStep.cond ((block + 1) % 65536) d.length, memcpy buffer 0 d,
        { w with recvs := rest, saddr := src, writes := ws, sends := ss,
                 trace := w.trace ++ [Effect.received, Effect.fwrite (d.drop 4),
                   Effect.sent [0, 4, (block / 256) % 256, block % 256] src] }) := by
  obtain ⟨hs1, hs2⟩ := to_size_length d.length hmax
  have hl : ¬ (tftp_packet_check_length 4 d.length = 0) := by
    unfold tftp_packet_check_length
    rw [if_neg (by omega)]
    decide
  have htake : (d.drop 4).take n = d.drop 4 := List.take_of_length_le (by simp; omega)
  have hlen : ¬ (((d.drop 4).length : Int) < 0) := by omega
  unfold tftp_handle_wrq_body
  rw [recvfrom_ok buffer 65536 w d src rest hr hmax]
  simp only [hs1, hs2, hl, if_false, load_opcode_memcpy le buffer d (by omega),
    load_block_memcpy le buffer d h4, hop, hblk, ne_eq, not_true_eq_false,
    payload_memcpy buffer d h4, sys_write, hw, htake, hlen, tftp_send_ack_packet, hsend,
    World.emit, ushort_bytes_htons, TFTP_OPCODE_ACK]
  simp

/-- What the loop does after a pass that ended at the loop condition. -/
theorem wrq_loop_of_body_cond (le : Bool) (fuel block : Nat) (buffer : List Nat) (w : World)
    (block1 len : Nat) (buffer1 : List Nat) (w1 : World)
    (h : tftp_handle_wrq_body le block buffer w = (LoopStep.cond block1 len, buffer1, w1)) :
    tftp_handle_wrq_loop le (fuel + 1) block buffer w
      = if len = 4 + TFTP_BLOCKSIZE then tftp_handle_wrq_loop le fuel block1 buffer1 w1
        else (some 0, w1.close) := by
  rw [tftp_handle_wrq_loop, h]

/-! ## Sender role: one pass through the wait for the ACK -/

theorem getD_take (d : List Nat) (i n : Nat) (h : i < n) :
    (d.take n).getD i 0 = d.getD i 0 := by
  simp [List.getD_eq_getElem?_getD, List.getElem?_take, h]

theorem load_ack_struct (le : Bool) (d : List Nat) (h : 4 ≤ d.length) :
    tfp_load_ushort_ns le (memcpy [0, 0, 0, 0] 0 (d.take 4)) = tfp_load_ushort_ns le d ∧
    tfp_load_ushort_ns le ((memcpy [0, 0, 0, 0] 0 (d.take 4)).drop 2)
      = tfp_load_ushort_ns le (d.drop 2) := by
  have hl : (d.take 4).length = 4 := by simp; omega
  constructor
  · rw [load_opcode_memcpy le _ _ (by omega)]
    exact tfp_load_ushort_ns_congr le _ _ (getD_take d 0 4 (by omega))
      (getD_take d 1 4 (by omega))
  · rw [load_block_memcpy le _ _ (by omega)]
    apply tfp_load_ushort_ns_congr le
    · rw [List.drop_take]
      exact getD_take (d.drop 2) 0 2 (by omega)
    · rw [List.drop_take]
      exact getD_take (d.drop 2) 1 2 (by omega)

/-- One pass of the wait at `recv_ack` on a reply of at least 4 bytes. -/
theorem recv_ack_step (le : Bool) (block fuel : Nat) (w : World)
    (d : List Nat) (src : Nat) (rest : List RecvRes)
    (hr : w.recvs = RecvRes.ok d src :: rest) (h4 : 4 ≤ d.length) :
    recv_ack le block (fuel + 1) w
      = if tfp_load_ushort_ns le d ≠ TFTP_OPCODE_ACK then
          (AckStep.ret EINVAL, (w.after_recv rest src).close)
        else if tfp_load_ushort_ns le (d.drop 2) ≠ block then
          recv_ack le block fuel (w.after_recv rest src)
        else (AckStep.acked, w.after_recv rest src) := by
  have hl : (d.take 4).length = 4 := by simp; omega
  obtain ⟨hs1, hs2⟩ := to_size_length 4 (by omega)
  have hc : ¬ (tftp_packet_check_length 4 4 = 0) := by decide
  obtain ⟨ho, hb⟩ := load_ack_struct le d h4
  have ho2 : ntohs le (load_ushort le (memcpy [0, 0, 0, 0] 0 (d.take 4)))
      = tfp_load_ushort_ns le d := ho
  have hb2 : ntohs le (load_ushort le ((memcpy [0, 0, 0, 0] 0 (d.take 4)).drop 2))
      = tfp_load_ushort_ns le (d.drop 2) := hb
  rw [recv_ack]
  unfold recvfrom
  rw [hr]
  simp only [hl, Nat.cast_ofNat, World.emit, World.after_recv]
  have hs1b : to_size 4 = 4 := by exact_mod_cast hs1
  simp only [hs1b, hs2, hc, if_false, ho2, hb2]

/-- C4 (the code at the failing input): a Receiver expecting block 1 takes an ERROR packet of
20 bytes, then would take DATA block 1. Both receiver loops end the transfer on the ERROR
packet: they return 0 and close the file, and DATA block 1 is never received. The same
happens on a short DATA packet with the wrong block number. -/
theorem receiver_discard_ends_transfer :
    (error_dgram 1).length = 20 ∧
    tftp_get_file_loop true 3 1 (local_buffer 65536)
        { idle_world with
          recvs := [RecvRes.ok (error_dgram 1) 9, RecvRes.ok (data_dgram 1 [104, 105]) 9],
          writes := [SysRes.ok 2], sends := [SysRes.ok 4] }
      = (some 0, { idle_world with
          saddr := 9, recvs := [RecvRes.ok (data_dgram 1 [104, 105]) 9],
          writes := [SysRes.ok 2], sends := [SysRes.ok 4],
          trace := [Effect.received, Effect.closed] }) ∧
    tftp_handle_wrq_loop true 3 1 (local_buffer 65536)
        { idle_world with
          recvs := [RecvRes.ok (error_dgram 1) 9, RecvRes.ok (data_dgram 1 [104, 105]) 9],
          writes := [SysRes.ok 2], sends := [SysRes.ok 4] }
      = (some 0, { idle_world with
          saddr := 9, recvs := [RecvRes.ok (data_dgram 1 [104, 105]) 9],
          writes := [SysRes.ok 2], sends := [SysRes.ok 4],
          trace := [Effect.received, Effect.closed] }) ∧
    tftp_get_file_loop true 3 1 (local_buffer 65536)
        { idle_world with
          recvs := [RecvRes.ok (data_dgram 7 [104, 105]) 9,
            RecvRes.ok (data_dgram 1 [104, 105]) 9],
          writes := [SysRes.ok 2], sends := [SysRes.ok 4] }
      = (some 0, { idle_world with
          saddr := 9, recvs := [RecvRes.ok (data_dgram 1 [104, 105]) 9],
          writes := [SysRes.ok 2], sends := [SysRes.ok 4],
          trace := [Effect.received, Effect.closed] }) := by
  refine ⟨by decide, by decide, by decide, by decide⟩

/-- A discarded datagram ends the loop unless it has exactly 516 bytes. -/
theorem wrq_loop_discard (le : Bool) (fuel block : Nat) (buffer : List Nat) (w : World)
    (d : List Nat) (src : Nat) (rest : List RecvRes)
    (hr : w.recvs = RecvRes.ok d src :: rest) (h4 : 4 ≤ d.length) (hmax : d.length ≤ 65536)
    (hbad : tfp_load_ushort_ns le d ≠ TFTP_OPCODE_DATA ∨
      tfp_load_ushort_ns le (d.drop 2) ≠ block) :
    tftp_handle_wrq_loop le (fuel + 1) block buffer w
      = if d.length = 4 + TFTP_BLOCKSIZE then
          tftp_handle_wrq_loop le fuel block (memcpy buffer 0 d) (w.after_recv rest src)
        else (some 0, (w.after_recv rest src).close) :=
  wrq_loop_of_body_cond le fuel block buffer w _ _ _ _
    (wrq_body_discard le block buffer w d src rest hr h4 hmax hbad)

/-- The loop on the expected DATA block, written in full and acknowledged. -/
theorem wrq_loop_accept (le : Bool) (block : Nat) (buffer : List Nat)
    (w : World) (d : List Nat) (src : Nat) (rest : List RecvRes)
    (hr : w.recvs = RecvRes.ok d src :: rest)
    (h4 : 4 ≤ d.length) (hL : d.length - 4 ≤ TFTP_BLOCKSIZE)
    (hop : tfp_load_ushort_ns le d = TFTP_OPCODE_DATA)
    (hblk : tfp_load_ushort_ns le (d.drop 2) = block)
    (n : Nat) (ws : List SysRes) (hw : w.writes = SysRes.ok n :: ws) (hn : d.length - 4 ≤ n)
    (m : Nat) (ss : List SysRes) (hsend : w.sends = SysRes.ok m :: ss) (fuel : Nat) :
    tftp_handle_wrq_loop le (fuel + 1) block buffer w
      = if d.length - 4 < TFTP_BLOCKSIZE then
          (some 0, (w.after_accept rest src ws ss (d.drop 4) block).close)
        else
          tftp_handle_wrq_loop le fuel ((block + 1) % 65536) (memcpy buffer 0 d)
            (w.after_accept rest src ws ss (d.drop 4) block) := by
  have hmax : d.length ≤ 65536 := by unfold TFTP_BLOCKSIZE at hL; omega
  have hb := wrq_body_accept le block buffer w d src rest hr h4 hmax hop hblk n ws hw hn
    m ss hsend
  rw [wrq_loop_of_body_cond le fuel block buffer w _ _ _ _ hb]
  unfold TFTP_BLOCKSIZE at hL ⊢
  by_cases hlt : d.length - 4 < 512
  · rw [if_neg (by omega), if_pos hlt]; rfl
  · rw [if_pos (by omega), if_neg hlt]; rfl

theorem written_append (t u : List Effect) : written (t ++ u) = written t ++ written u := by
  simp [written, List.filterMap_append]

theorem sent_dgrams_append (t u : List Effect) :
    sent_dgrams (t ++ u) = sent_dgrams t ++ sent_dgrams u := by
  simp [sent_dgrams, List.filterMap_append]

/-- The expected block when the write is complete: in both receiver loops, a received DATA
datagram `d` that carries the expected block number and a payload of `d.length - 4 ≤ 512`
bytes, when the write takes the whole payload (it returns at least `d.length - 4`) and the
ACK can be sent: the payload `d.drop 4`, and nothing else, is written to the file, one ACK
with the same block number is sent, the expected block becomes the next one modulo 65536; the
loop ends with result 0 (after closing the file) when the payload is shorter than 512 bytes
and goes on to receive another datagram when it has 512 bytes. -/
theorem receiver_accepts_expected_block (le : Bool) (block : Nat) (buffer : List Nat)
    (w : World) (d : List Nat) (src : Nat) (rest : List RecvRes)
    (hr : w.recvs = RecvRes.ok d src :: rest)
    (h4 : 4 ≤ d.length) (hL : d.length - 4 ≤ TFTP_BLOCKSIZE)
    (hop : tfp_load_ushort_ns le d = TFTP_OPCODE_DATA)
    (hblk : tfp_load_ushort_ns le (d.drop 2) = block)
    (n : Nat) (ws : List SysRes) (hw : w.writes = SysRes.ok n :: ws) (hn : d.length - 4 ≤ n)
    (m : Nat) (ss : List SysRes) (hsend : w.sends = SysRes.ok m :: ss) :
    (∀ fuel : Nat,
      tftp_handle_wrq_loop le (fuel + 1) block buffer w
        = if d.length - 4 < TFTP_BLOCKSIZE then
            (some 0, (w.after_accept rest src ws ss (d.drop 4) block).close)
          else
            tftp_handle_wrq_loop le fuel ((block + 1) % 65536) (memcpy buffer 0 d)
              (w.after_accept rest src ws ss (d.drop 4) block)) ∧
    (∀ fuel : Nat,
      tftp_get_file_loop le (fuel + 1) block buffer w
        = if d.length - 4 < TFTP_BLOCKSIZE then
            (some 0, (w.after_accept rest src ws ss (d.drop 4) block).close)
          else
            tftp_get_file_loop le fuel ((block + 1) % 65536) (memcpy buffer 0 d)
              (w.after_accept rest src ws ss (d.drop 4) block)) ∧
    written (w.after_accept rest src ws ss (d.drop 4) block).close.trace
      = written w.trace ++ d.drop 4 ∧
    sent_dgrams (w.after_accept rest src ws ss (d.drop 4) block).close.trace
      = sent_dgrams w.trace ++ [ack_dgram block] ∧
    (d.drop 4).length = d.length - 4 := by
  refine ⟨wrq_loop_accept le block buffer w d src rest hr h4 hL hop hblk n ws hw hn m ss hsend,
    ?_, ?_, ?_, by simp⟩
  · intro fuel
    rw [get_file_loop_eq, get_file_loop_eq]
    exact wrq_loop_accept le block buffer w d src rest hr h4 hL hop hblk n ws hw hn m ss
      hsend fuel
  · simp [World.after_accept, World.close, World.emit, written_append, written]
  · simp [World.after_accept, World.close, World.emit, sent_dgrams_append, sent_dgrams,
      ack_dgram]

theorem receiver_accepts_expected_block_witness :
    tftp_get_file_loop true 2 1 (local_buffer 65536)
        { idle_world with
          recvs := [RecvRes.ok (data_dgram 1 [104, 105]) 9],
          writes := [SysRes.ok 2], sends := [SysRes.ok 4] }
      = (some 0, { idle_world with
          saddr := 9,
          trace := [Effect.received, Effect.fwrite [104, 105],
            Effect.sent [0, 4, 0, 1] 9, Effect.closed] }) :=
  ((receiver_accepts_expected_block true 1 (local_buffer 65536)
      { idle_world with
        recvs := [RecvRes.ok (data_dgram 1 [104, 105]) 9],
        writes := [SysRes.ok 2], sends := [SysRes.ok 4] }
      (data_dgram 1 [104, 105]) 9 [] rfl (by decide) (by decide) (by decide) (by decide)
      2 [] rfl (by decide) 4 [] rfl).2.1 1).trans (by decide)

/-! ## Block numbers change only on an exact match -/

theorem recv_ack_nil (le : Bool) (block fuel : Nat) (w : World) (hr : w.recvs = []) :
    recv_ack le block fuel w = (AckStep.blocked, w) := by
  cases fuel with
  | zero => rfl
  | succ fuel =>
    rw [recv_ack]
    unfold recvfrom
    rw [hr]

theorem recv_ack_err (le : Bool) (block fuel : Nat) (w : World) (e : Int)
    (rest : List RecvRes) (hr : w.recvs = RecvRes.err e :: rest) :
    recv_ack le block (fuel + 1) w
      = (AckStep.ret e, { w with
          recvs := rest, errno := e, exit_flag := 1,
          trace := w.trace ++ [Effect.received, Effect.closed] }) := by
  rw [recv_ack]
  unfold recvfrom
  rw [hr]
  simp only
  rw [if_pos (by decide)]
  simp [World.emit, World.close]

theorem recv_ack_short (le : Bool) (block fuel : Nat) (w : World) (d : List Nat) (src : Nat)
    (rest : List RecvRes) (hr : w.recvs = RecvRes.ok d src :: rest) (h4 : d.length < 4) :
    recv_ack le block (fuel + 1) w = (AckStep.ret EMSGSIZE, (w.after_recv rest src).close) := by
  have hl : (d.take 4).length = d.length := by simp; omega
  obtain ⟨hs1, hs2⟩ := to_size_length d.length (by omega)
  have hc : tftp_packet_check_length 4 d.length = 0 := by
    unfold tftp_packet_check_length
    rw [if_pos h4]
  rw [recv_ack]
  unfold recvfrom
  rw [hr]
  simp only [hl, hs1, hs2, hc, if_false, if_true, World.emit, World.after_recv]

/-- The wait at `recv_ack` ends with `acked` only on a reply that is an ACK for `block`: the
outcomes taken are some replies, then a reply `d` of at least 4 bytes whose opcode is ACK and
whose block number is `block`. -/
theorem recv_ack_acked (le : Bool) (block : Nat) :
    ∀ (fuel : Nat) (w w1 : World), recv_ack le block fuel w = (AckStep.acked, w1) →
      ∃ (pre : List RecvRes) (d : List Nat) (src : Nat),
        w.recvs = pre ++ RecvRes.ok d src :: w1.recvs ∧ 4 ≤ d.length ∧
        tfp_load_ushort_ns le d = TFTP_OPCODE_ACK ∧
        tfp_load_ushort_ns le (d.drop 2) = block := by
  intro fuel
  induction fuel with
  | zero => intro w w1 h; simp [recv_ack] at h
  | succ fuel ih =>
    intro w w1 h
    cases hr : w.recvs with
    | nil => rw [recv_ack_nil le block _ w hr] at h; simp at h
    | cons r rest =>
      cases r with
      | err e => rw [recv_ack_err le block fuel w e rest hr] at h; simp at h
      | ok d src =>
        by_cases h4 : d.length < 4
        · rw [recv_ack_short le block fuel w d src rest hr h4] at h; simp at h
        · rw [recv_ack_step le block fuel w d src rest hr (by omega)] at h
          split_ifs at h with h1 h2
          · simp at h
          · obtain ⟨pre, d1, s1, hp, hl, ho, hb⟩ := ih _ _ h
            refine ⟨RecvRes.ok d src :: pre, d1, s1, ?_, hl, ho, hb⟩
            simp only [World.after_recv] at hp
            rw [hp]; rfl
          · simp only [Prod.mk.injEq, true_and] at h
            subst h
            exact ⟨[], d, src, rfl, by omega, by simpa using h1, by simpa using h2⟩

theorem load_recv_buffer (le : Bool) (buffer d : List Nat) (n : Nat) (hn : 4 ≤ n)
    (h : 4 ≤ d.length) :
    tfp_load_ushort_ns le (memcpy buffer 0 (d.take n)) = tfp_load_ushort_ns le d ∧
    tfp_load_ushort_ns le ((memcpy buffer 0 (d.take n)).drop 2)
      = tfp_load_ushort_ns le (d.drop 2) := by
  have hl : 4 ≤ (d.take n).length := by simp; omega
  constructor
  · rw [load_opcode_memcpy le _ _ (by omega)]
    exact tfp_load_ushort_ns_congr le _ _ (getD_take d 0 n (by omega))
      (getD_take d 1 n (by omega))
  · rw [load_block_memcpy le _ _ (by omega)]
    apply tfp_load_ushort_ns_congr le
    · rw [List.drop_take]
      exact getD_take (d.drop 2) 0 (n - 2) (by omega)
    · rw [List.drop_take]
      exact getD_take (d.drop 2) 1 (n - 2) (by omega)

/-- A pass through the receiver body that reaches the loop condition either leaves `block`
unchanged, having written and sent nothing, or has taken a DATA datagram of at least 4 bytes
whose block number is `block`, and then `block` is incremented modulo 65536. -/
theorem wrq_body_cond_inv (le : Bool) (block : Nat) (buffer : List Nat) (w : World)
    (block1 len : Nat) (buffer1 : List Nat) (w1 : World)
    (h : tftp_handle_wrq_body le block buffer w = (LoopStep.cond block1 len, buffer1, w1)) :
    (block1 = block ∧ written w1.trace = written w.trace ∧
      sent_dgrams w1.trace = sent_dgrams w.trace) ∨
    (block1 = (block + 1) % 65536 ∧
      ∃ (d : List Nat) (src : Nat) (rest : List RecvRes),
        w.recvs = RecvRes.ok d src :: rest ∧ 4 ≤ d.length ∧
        tfp_load_ushort_ns le d = TFTP_OPCODE_DATA ∧
        tfp_load_ushort_ns le (d.drop 2) = block) := by
  cases hr : w.recvs with
  | nil =>
    unfold tftp_handle_wrq_body recvfrom at h
    rw [hr] at h
    simp at h
  | cons r rest =>
    cases r with
    | err e =>
      unfold tftp_handle_wrq_body recvfrom at h
      rw [hr] at h
      simp only at h
      rw [if_pos (by decide)] at h
      simp at h
    | ok d src =>
      unfold tftp_handle_wrq_body recvfrom at h
      rw [hr] at h
      simp only at h
      have hsz : to_size ((d.take 65536).length : Int) = (d.take 65536).length :=
        to_size_natCast _ (by simp only [List.length_take]; omega)
      rw [hsz] at h
      split_ifs at h with h1 h2 h3 h4
      · simp at h
      · simp at h
      · simp only [Prod.mk.injEq, LoopStep.cond.injEq] at h
        obtain ⟨⟨rfl, _⟩, _, rfl⟩ := h
        left
        simp [World.emit, written_append, written, sent_dgrams_append, sent_dgrams]
      · simp only [Prod.mk.injEq, LoopStep.cond.injEq] at h
        obtain ⟨⟨rfl, _⟩, _, rfl⟩ := h
        left
        simp [World.emit, written_append, written, sent_dgrams_append, sent_dgrams]
      · have hlen : 4 ≤ d.length := by
          unfold tftp_packet_check_length at h2
          by_contra hlt
          rw [if_pos (by simp only [List.length_take]; omega)] at h2
          exact h2 rfl
        obtain ⟨ho, hb⟩ := load_recv_buffer le buffer d 65536 (by omega) hlen
        rw [ho] at h3
        rw [hb] at h4
        split at h
        · simp at h
        · split_ifs at h
          · simp at h
          · split at h
            · simp at h
            · split_ifs at h
              · simp at h
              · simp only [Prod.mk.injEq, LoopStep.cond.injEq] at h
                right
                exact ⟨h.1.1.symm, d, src, rest, rfl, hlen, by simpa using h3,
                  by simpa using h4⟩

theorem sent_dgrams_close (w : World) : sent_dgrams w.close.trace = sent_dgrams w.trace := by
  simp [World.close, World.emit, sent_dgrams_append, sent_dgrams]

theorem sent_dgrams_after_recv (w : World) (rest : List RecvRes) (src : Nat) :
    sent_dgrams (w.after_recv rest src).trace = sent_dgrams w.trace := by
  simp [World.after_recv, sent_dgrams_append, sent_dgrams]

/-- The wait for the ACK reads nothing from the file and sends nothing. -/
theorem recv_ack_frame (le : Bool) (block : Nat) :
    ∀ (fuel : Nat) (w : World),
      (recv_ack le block fuel w).2.reads = w.reads ∧
      (recv_ack le block fuel w).2.sends = w.sends ∧
      (recv_ack le block fuel w).2.polls = w.polls ∧
      sent_dgrams (recv_ack le block fuel w).2.trace = sent_dgrams w.trace := by
  intro fuel
  induction fuel with
  | zero => intro w; exact ⟨rfl, rfl, rfl, rfl⟩
  | succ fuel ih =>
    intro w
    cases hr : w.recvs with
    | nil => rw [recv_ack_nil le block _ w hr]; exact ⟨rfl, rfl, rfl, rfl⟩
    | cons r rest =>
      cases r with
      | err e =>
        rw [recv_ack_err le block fuel w e rest hr]
        refine ⟨rfl, rfl, rfl, ?_⟩
        simp [sent_dgrams_append, sent_dgrams]
      | ok d src =>
        by_cases h4 : d.length < 4
        · rw [recv_ack_short le block fuel w d src rest hr h4]
          refine ⟨rfl, rfl, rfl, ?_⟩
          rw [sent_dgrams_close, sent_dgrams_after_recv]
        · rw [recv_ack_step le block fuel w d src rest hr (by omega)]
          split_ifs
          · refine ⟨rfl, rfl, rfl, ?_⟩
            rw [sent_dgrams_close, sent_dgrams_after_recv]
          · obtain ⟨h1, h2, h3, h5⟩ := ih (w.after_recv rest src)
            exact ⟨h1, h2, h3, by rw [h5, sent_dgrams_after_recv]⟩
          · refine ⟨rfl, rfl, rfl, ?_⟩
            rw [sent_dgrams_after_recv]

/-- C8: a reply with a non-matching block number changes nothing and produces no output.
Sender: on an ACK of at least 4 bytes whose block number differs from `block`, the wait at
`recv_ack` goes on to the next reply with `block` unchanged; whatever replies it takes, the
wait reads nothing from the file and sends nothing; and it ends with `acked` (after which
alone the loops move to the next block) only on an ACK for `block`. Receiver: on a DATA
datagram whose block number differs from `block`, the body of both loops reaches the loop
condition with `block` unchanged, and only the reception is added to the trace: nothing is
written and no ACK is sent; and whenever a pass through the body changes `block`, the
datagram taken was the DATA block numbered `block`. -/
theorem mismatch_changes_nothing (le : Bool) (block : Nat) :
    (∀ (fuel : Nat) (w : World) (d : List Nat) (src : Nat) (rest : List RecvRes),
      w.recvs = RecvRes.ok d src :: rest → 4 ≤ d.length →
      tfp_load_ushort_ns le d = TFTP_OPCODE_ACK → tfp_load_ushort_ns le (d.drop 2) ≠ block →
      recv_ack le block (fuel + 1) w = recv_ack le block fuel (w.after_recv rest src)) ∧
    (∀ (fuel : Nat) (w : World),
      (recv_ack le block fuel w).2.reads = w.reads ∧
      (recv_ack le block fuel w).2.sends = w.sends ∧
      (recv_ack le block fuel w).2.polls = w.polls ∧
      sent_dgrams (recv_ack le block fuel w).2.trace = sent_dgrams w.trace) ∧
    (∀ (fuel : Nat) (w w1 : World), recv_ack le block fuel w = (AckStep.acked, w1) →
      ∃ (pre : List RecvRes) (d : List Nat) (src : Nat),
        w.recvs = pre ++ RecvRes.ok d src :: w1.recvs ∧ 4 ≤ d.length ∧
        tfp_load_ushort_ns le d = TFTP_OPCODE_ACK ∧
        tfp_load_ushort_ns le (d.drop 2) = block) ∧
    (∀ (buffer : List Nat) (w : World) (d : List Nat) (src : Nat) (rest : List RecvRes),
      w.recvs = RecvRes.ok d src :: rest → 4 ≤ d.length → d.length ≤ 65536 →
      tfp_load_ushort_ns le d = TFTP_OPCODE_DATA → tfp_load_ushort_ns le (d.drop 2) ≠ block →
      tftp_handle_wrq_body le block buffer w
        = (LoopStep.cond block d.length, memcpy buffer 0 d, w.after_recv rest src) ∧
      tftp_get_file_body le block buffer w
        = (LoopStep.cond block d.length, memcpy buffer 0 d, w.after_recv rest src) ∧
      (w.after_recv rest src).trace = w.trace ++ [Effect.received] ∧
      (w.after_recv rest src).writes = w.writes ∧
      (w.after_recv rest src).sends = w.sends) ∧
    (∀ (buffer : List Nat) (w : World) (block1 len : Nat) (buffer1 : List Nat) (w1 : World),
      (tftp_handle_wrq_body le block buffer w = (LoopStep.cond block1 len, buffer1, w1) ∨
       tftp_get_file_body le block buffer w = (LoopStep.cond block1 len, buffer1, w1)) →
      (block1 = block ∧ written w1.trace = written w.trace ∧
        sent_dgrams w1.trace = sent_dgrams w.trace) ∨
      (block1 = (block + 1) % 65536 ∧
        ∃ (d : List Nat) (src : Nat) (rest : List RecvRes),
          w.recvs = RecvRes.ok d src :: rest ∧ 4 ≤ d.length ∧
          tfp_load_ushort_ns le d = TFTP_OPCODE_DATA ∧
          tfp_load_ushort_ns le (d.drop 2) = block)) := by
  refine ⟨?_, recv_ack_frame le block, recv_ack_acked le block, ?_, ?_⟩
  · intro fuel w d src rest hr h4 hop hblk
    rw [recv_ack_step le block fuel w d src rest hr h4, if_neg (by simpa using hop),
      if_pos hblk]
  · intro buffer w d src rest hr h4 hmax hop hblk
    have hb := wrq_body_discard le block buffer w d src rest hr h4 hmax (Or.inr hblk)
    exact ⟨hb, hb, rfl, rfl, rfl⟩
  · intro buffer w block1 len buffer1 w1 h
    rcases h with h | h
    · exact wrq_body_cond_inv le block buffer w block1 len buffer1 w1 h
    · exact wrq_body_cond_inv le block buffer w block1 len buffer1 w1 h

theorem mismatch_changes_nothing_witness :
    recv_ack true 2 2 { idle_world with
        recvs := [RecvRes.ok (ack_dgram 1) 9, RecvRes.ok (ack_dgram 2) 9] }
      = (AckStep.acked, { idle_world with
          saddr := 9, trace := [Effect.received, Effect.received] }) ∧
    tftp_get_file_body true 2 [] { idle_world with
        recvs := [RecvRes.ok (data_dgram 1 [104, 105]) 9] }
      = (LoopStep.cond 2 6, data_dgram 1 [104, 105], { idle_world with
          saddr := 9, trace := [Effect.received] }) :=
  ⟨((mismatch_changes_nothing true 2).1 1 { idle_world with
        recvs := [RecvRes.ok (ack_dgram 1) 9, RecvRes.ok (ack_dgram 2) 9] }
      (ack_dgram 1) 9 [RecvRes.ok (ack_dgram 2) 9] rfl (by decide) (by decide)
      (by decide)).trans (by decide),
   ((mismatch_changes_nothing true 2).2.2.2.1 [] { idle_world with
        recvs := [RecvRes.ok (data_dgram 1 [104, 105]) 9] }
      (data_dgram 1 [104, 105]) 9 [] rfl (by decide) (by decide) (by decide)
      (by decide)).2.1.trans (by decide)⟩

/-! ## Sender role: building and sending a DATA packet -/

/-- The DATA packet in the buffer after a read of `data` and the two header stores. -/
theorem store_data_header_take (le : Bool) (buffer data : List Nat) (block : Nat)
    (hb : 4 ≤ buffer.length) :
    (store_data_header le (memcpy buffer 4 data) block).take (4 + data.length)
        = data_dgram block data ∧
    4 ≤ (store_data_header le (memcpy buffer 4 data) block).length := by
  have h1 : store_data_header le (memcpy buffer 4 data) block
      = data_dgram block data ++ buffer.drop (4 + data.length) := by
    unfold store_data_header tfp_store_ushort_ns
    simp only [ushort_bytes_htons, memcpy_zero, TFTP_OPCODE_DATA]
    unfold memcpy data_dgram
    have ht : (buffer.take 4).length = 4 := by simp; omega
    simp [List.drop_append_eq_append_drop, ht, List.take_append_eq_append_take]
  have hl : (data_dgram block data).length = 4 + data.length := by
    simp [data_dgram]; omega
  rw [h1]
  constructor
  · rw [List.take_append_of_le_length (by omega)]
    exact List.take_of_length_le (by omega)
  · rw [List.length_append]; omega

/-- A `sendto_autoretry` whose `sendto` succeeds and whose `poll` reports the socket readable
sends the datagram once. -/
theorem sendto_autoretry_ready (buf : List Nat) (len : Nat) (w : World) (n : Nat)
    (ss : List SysRes) (p : PollRes) (ps : List PollRes)
    (hs : w.sends = SysRes.ok n :: ss) (hp : w.polls = p :: ps)
    (hready : 0 < p.status ∧ p.revents &&& POLLHUP = 0) :
    sendto_autoretry buf len w = (some (n : Int), { w with
      sends := ss, polls := ps,
      trace := w.trace ++ [Effect.sent (buf.take len) w.saddr, Effect.polled] }) := by
  unfold sendto_autoretry
  rw [hp]
  unfold sendto_autoretry_go
  rw [hs]
  simp only [World.emit]
  rw [if_neg (by omega), if_neg (by simp [hready.2]), if_neg (by omega)]
  simp

theorem ack_dgram_loads (le : Bool) (block : Nat) (h : block < 65536) :
    4 ≤ (ack_dgram block).length ∧
    tfp_load_ushort_ns le (ack_dgram block) = TFTP_OPCODE_ACK ∧
    tfp_load_ushort_ns le ((ack_dgram block).drop 2) = block := by
  refine ⟨by simp [ack_dgram], ?_, ?_⟩
  · unfold ack_dgram
    rw [tfp_load_ushort_ns_cons le 0 4 _ (by omega) (by omega)]
    rfl
  · unfold ack_dgram
    simp only [List.drop_succ_cons, List.drop_zero]
    rw [tfp_load_ushort_ns_cons le _ _ _ (Nat.mod_lt _ (by omega)) (Nat.mod_lt _ (by omega))]
    omega

/-- One pass of the `for` loop of `tftp_handle_rrq` when the read returns `data`, the packet
is sent at once and the reply is the matching ACK. -/
theorem rrq_loop_block (le : Bool) (fuel block lastread : Nat) (buffer : List Nat) (w : World)
    (data : List Nat) (rs : List ReadRes) (n : Nat) (ss : List SysRes) (p : PollRes)
    (ps : List PollRes) (src : Nat) (rrest : List RecvRes)
    (hreads : w.reads = ReadRes.ok data :: rs) (hdl : data.length ≤ TFTP_BLOCKSIZE)
    (hgo : 0 < data.length ∨ lastread = TFTP_BLOCKSIZE)
    (hs : w.sends = SysRes.ok n :: ss) (hp : w.polls = p :: ps)
    (hready : 0 < p.status ∧ p.revents &&& POLLHUP = 0)
    (hrecv : w.recvs = RecvRes.ok (ack_dgram block) src :: rrest)
    (hblk : block < 65536) (hb : 4 ≤ buffer.length) :
    tftp_handle_rrq_loop le (fuel + 1) block lastread buffer w
      = tftp_handle_rrq_loop le fuel ((block + 1) % 65536) data.length
          (store_data_header le (memcpy buffer 4 data) block)
          (w.after_block rs ss ps rrest src (data_dgram block data)) := by
  unfold TFTP_BLOCKSIZE at hdl hgo
  have htake : data.take 512 = data := List.take_of_length_le hdl
  obtain ⟨hs1, hs2⟩ := to_size_length data.length (by omega)
  have hpos : to_ssize data.length > 0 ∨ lastread = 512 := by
    rcases hgo with h | h
    · left; rw [to_ssize_small _ (by omega)]; omega
    · right; exact h
  have hmod : (4 + data.length) % SIZE_MAX1 = 4 + data.length :=
    Nat.mod_eq_of_lt (by unfold SIZE_MAX1; omega)
  obtain ⟨hd1, hd2⟩ := store_data_header_take le buffer data block hb
  obtain ⟨ha1, ha2, ha3⟩ := ack_dgram_loads le block hblk
  obtain ⟨ef, sa, er, op, rd, wr, sd, pl, rc, tr⟩ := w
  simp only at hreads hs hp hrecv
  subst hreads hs hp hrecv
  have hsend := sendto_autoretry_ready (store_data_header le (memcpy buffer 4 data) block)
    (4 + data.length) ⟨ef, sa, er, op, rs, wr, SysRes.ok n :: ss, p :: ps,
      RecvRes.ok (ack_dgram block) src :: rrest, tr ++ [Effect.fread]⟩ n ss p ps rfl rfl hready
  have hack := recv_ack_step le block (rrest.length + 1)
    ⟨ef, sa, er, op, rs, wr, ss, ps, RecvRes.ok (ack_dgram block) src :: rrest,
      tr ++ [Effect.fread] ++ [Effect.sent (data_dgram block data) sa, Effect.polled]⟩
    (ack_dgram block) src rrest rfl ha1
  rw [if_neg (by simpa using ha2), if_neg (by simpa using ha3)] at hack
  simp only [hd1] at hsend
  rw [tftp_handle_rrq_loop]
  simp only [sys_read, TFTP_BLOCKSIZE, htake, hs1, hpos, if_true, hmod, World.emit, hsend,
    List.length_cons, hack]
  rw [if_neg (by omega)]
  simp only [World.after_recv, World.after_block, List.append_assoc, List.cons_append,
    List.nil_append]

/-- The last pass of the `for` loop of `tftp_handle_rrq`: the read meets the end of the file
and the previous read was not a full block. -/
theorem rrq_loop_eof (le : Bool) (fuel block lastread : Nat) (buffer : List Nat) (w : World)
    (rs : List ReadRes) (hreads : w.reads = ReadRes.ok [] :: rs)
    (hlast : lastread ≠ TFTP_BLOCKSIZE) :
    tftp_handle_rrq_loop le (fuel + 1) block lastread buffer w = (some 0, w.after_eof rs) := by
  have h0 : ¬ (to_ssize (to_size ((0 : Nat) : Int)) > 0 ∨ lastread = TFTP_BLOCKSIZE) := by
    have : ¬ to_ssize (to_size ((0 : Nat) : Int)) > 0 := by decide
    tauto
  have h1 : ¬ to_ssize (to_size ((0 : Nat) : Int)) < 0 := by decide
  rw [tftp_handle_rrq_loop]
  unfold sys_read
  rw [hreads]
  simp only [List.take_nil, List.length_nil, h0, h1, if_false, World.emit, World.close,
    World.after_eof, List.append_assoc, List.cons_append, List.nil_append]

/-! ## Sender role: a whole transfer over a channel without loss -/

theorem blocks_to_send_succ (content : List Nat) (lastread k : Nat)
    (hk : k + 1 = blocks_to_send content lastread) :
    k = blocks_to_send (content.drop TFTP_BLOCKSIZE) (content.take TFTP_BLOCKSIZE).length ∧
    (0 < (content.take TFTP_BLOCKSIZE).length ∨ lastread = TFTP_BLOCKSIZE) := by
  unfold blocks_to_send TFTP_BLOCKSIZE at *
  simp only [List.length_drop, List.length_take]
  by_cases h0 : content.length = 0
  · rw [if_pos h0] at hk
    by_cases hl : lastread = 512
    · rw [if_pos hl] at hk
      refine ⟨?_, Or.inr hl⟩
      rw [if_pos (by omega), if_neg (by omega)]
      omega
    · rw [if_neg hl] at hk; omega
  · rw [if_neg h0] at hk
    refine ⟨?_, Or.inl (by omega)⟩
    by_cases h1 : content.length - 512 = 0
    · rw [if_pos h1]
      by_cases h2 : min 512 content.length = 512
      · rw [if_pos h2]; omega
      · rw [if_neg h2]; omega
    · rw [if_neg h1]; omega

theorem sent_dgrams_after_block (w : World) (rs : List ReadRes) (ss : List SysRes)
    (ps : List PollRes) (rrest : List RecvRes) (src : Nat) (dgram : List Nat) :
    sent_dgrams (w.after_block rs ss ps rrest src dgram).trace
      = sent_dgrams w.trace ++ [dgram] := by
  simp [World.after_block, sent_dgrams_append, sent_dgrams]

theorem sent_dgrams_after_eof (w : World) (rs : List ReadRes) :
    sent_dgrams (w.after_eof rs).trace = sent_dgrams w.trace := by
  simp [World.after_eof, sent_dgrams_append, sent_dgrams]

/-- The sender loop of `tftp_handle_rrq` over a channel without loss: the reads return the
file in blocks, every `sendto` succeeds, every `poll` reports the socket readable and the
peer acknowledges every block. The loop returns 0 having sent exactly the `k` DATA packets
of the file, numbered from `block` on. -/
theorem rrq_loop_run (le : Bool) :
    ∀ (k : Nat) (content : List Nat) (fuel block lastread : Nat) (buffer : List Nat)
      (w : World) (src : Nat) (extra : List ReadRes) (rrest : List RecvRes),
      k = blocks_to_send content lastread →
      w.reads = file_reads (k + 1) content ++ extra →
      w.recvs = acks_from src k block ++ rrest →
      sends_succeed w.sends → k ≤ w.sends.length →
      polls_ready w.polls → k ≤ w.polls.length →
      block < 65536 → 4 ≤ buffer.length → k + 1 ≤ fuel →
      ∃ w1 : World, tftp_handle_rrq_loop le fuel block lastread buffer w = (some 0, w1) ∧
        sent_dgrams w1.trace = sent_dgrams w.trace ++ data_dgrams k block content ∧
        w1.reads = extra ∧ w1.recvs = rrest ∧
        w1.sends = w.sends.drop k ∧ w1.polls = w.polls.drop k ∧
        w1.exit_flag = w.exit_flag ∧ w1.errno = w.errno ∧
        written w1.trace = written w.trace := by
  intro k
  induction k with
  | zero =>
    intro content fuel block lastread buffer w src extra rrest hk hreads hrecvs _ _ _ _ _ _ hf
    obtain ⟨fuel, rfl⟩ : ∃ f, fuel = f + 1 := ⟨fuel - 1, by omega⟩
    unfold blocks_to_send TFTP_BLOCKSIZE at hk
    have h0 : content.length = 0 := by
      by_contra h; rw [if_neg h] at hk; omega
    rw [if_pos h0] at hk
    have hl : lastread ≠ TFTP_BLOCKSIZE := by
      intro h; rw [if_pos (by exact h)] at hk; omega
    have hc : content = [] := List.length_eq_zero.1 h0
    subst hc
    have hr : w.reads = ReadRes.ok [] :: extra := by
      rw [hreads]; simp [file_reads]
    refine ⟨w.after_eof extra, rrq_loop_eof le fuel block lastread buffer w extra hr hl,
      ?_, rfl, ?_, rfl, rfl, rfl, rfl, ?_⟩
    · rw [sent_dgrams_after_eof]; simp [data_dgrams]
    · simpa [acks_from, World.after_eof] using hrecvs
    · simp [World.after_eof, written_append, written]
  | succ k ih =>
    intro content fuel block lastread buffer w src extra rrest hk hreads hrecvs hs hsl hp hpl
      hblk hb hf
    obtain ⟨fuel, rfl⟩ : ∃ f, fuel = f + 1 := ⟨fuel - 1, by omega⟩
    obtain ⟨hk1, hgo⟩ := blocks_to_send_succ content lastread k hk
    obtain ⟨s, ss, hss⟩ : ∃ s ss, w.sends = s :: ss := by
      cases h : w.sends with
      | nil => rw [h] at hsl; simp at hsl
      | cons s ss => exact ⟨s, ss, rfl⟩
    obtain ⟨n, rfl⟩ := hs s (by rw [hss]; simp)
    obtain ⟨p, ps, hps⟩ : ∃ p ps, w.polls = p :: ps := by
      cases h : w.polls with
      | nil => rw [h] at hpl; simp at hpl
      | cons p ps => exact ⟨p, ps, rfl⟩
    have hready := hp p (by rw [hps]; simp)
    have hr : w.reads = ReadRes.ok (content.take TFTP_BLOCKSIZE)
        :: (file_reads (k + 1) (content.drop TFTP_BLOCKSIZE) ++ extra) := by
      rw [hreads]; rfl
    have hrc : w.recvs = RecvRes.ok (ack_dgram block) src
        :: (acks_from src k ((block + 1) % 65536) ++ rrest) := by
      rw [hrecvs]; rfl
    have hdl : (content.take TFTP_BLOCKSIZE).length ≤ TFTP_BLOCKSIZE := by
      simp only [List.length_take]; omega
    rw [rrq_loop_block le fuel block lastread buffer w _ _ n ss p ps src _ hr hdl hgo hss hps
      hready hrc hblk hb]
    obtain ⟨w1, h1, h2, h3, h4, h5, h6, h7, h8, h9⟩ := ih (content.drop TFTP_BLOCKSIZE) fuel
      ((block + 1) % 65536) (content.take TFTP_BLOCKSIZE).length
      (store_data_header le (memcpy buffer 4 (content.take TFTP_BLOCKSIZE)) block)
      (w.after_block (file_reads (k + 1) (content.drop TFTP_BLOCKSIZE) ++ extra) ss ps
        (acks_from src k ((block + 1) % 65536) ++ rrest) src
        (data_dgram block (content.take TFTP_BLOCKSIZE)))
      src extra rrest hk1 rfl rfl
      (fun x hx => hs x (by rw [hss]; exact List.mem_cons_of_mem _ hx))
      (by rw [hss] at hsl; simpa [World.after_block] using hsl)
      (fun x hx => hp x (by rw [hps]; exact List.mem_cons_of_mem _ hx))
      (by rw [hps] at hpl; simpa [World.after_block] using hpl)
      (Nat.mod_lt _ (by omega))
      (store_data_header_take le buffer _ block hb).2 (by omega)
    refine ⟨w1, h1, ?_, h3, h4, ?_, ?_, h7, h8, ?_⟩
    · rw [h2, sent_dgrams_after_block]
      simp [data_dgrams]
    · rw [h5, hss]; rfl
    · rw [h6, hps]; rfl
    · rw [h9]; simp [World.after_block, written_append, written]

/-- The loop of `tftp_put_file` entered with `block` is the loop of `tftp_handle_rrq` entered
with the next block number: the one increments `block` at the top of the body, the other at
the end. -/
theorem put_file_loop_eq (le : Bool) :
    ∀ (fuel block lastread : Nat) (buffer : List Nat) (w : World),
      tftp_put_file_loop le fuel block lastread buffer w
        = tftp_handle_rrq_loop le fuel ((block + 1) % 65536) lastread buffer w := by
  intro fuel
  induction fuel with
  | zero => intro block lastread buffer w; rfl
  | succ fuel ih =>
    intro block lastread buffer w
    rw [tftp_put_file_loop, tftp_handle_rrq_loop]
    simp only [ih]

/-- The `i`-th DATA packet of a file carries the block number `block + i` modulo 65536 and
the `i`-th run of 512 bytes of the file. -/
theorem data_dgrams_getElem (k : Nat) :
    ∀ (block : Nat) (content : List Nat) (i : Nat), i < k → block < 65536 →
      (data_dgrams k block content)[i]?
        = some (data_dgram ((block + i) % 65536)
            ((content.drop (TFTP_BLOCKSIZE * i)).take TFTP_BLOCKSIZE)) := by
  induction k with
  | zero => intro block content i hi; omega
  | succ k ih =>
    intro block content i hi hb
    cases i with
    | zero => simp [data_dgrams, Nat.mod_eq_of_lt hb]
    | succ i =>
      simp only [data_dgrams, List.getElem?_cons_succ]
      rw [ih _ _ i (by omega) (Nat.mod_lt _ (by omega))]
      have h1 : ((block + 1) % 65536 + i) % 65536 = (block + (i + 1)) % 65536 := by omega
      have h2 : TFTP_BLOCKSIZE * (i + 1) = TFTP_BLOCKSIZE + TFTP_BLOCKSIZE * i := by ring
      rw [h1, h2, List.drop_drop]

theorem data_dgram_drop (block : Nat) (payload : List Nat) :
    (data_dgram block payload).drop 4 = payload := rfl

/-- The payloads of the DATA packets of a file. -/
theorem data_dgrams_payloads (k : Nat) :
    ∀ (block : Nat) (content : List Nat), content.length < TFTP_BLOCKSIZE * k →
      ((data_dgrams k block content).map (List.drop 4)).flatten = content ∧
      (data_dgrams k block content).map (fun d => (d.drop 4).length)
        = List.replicate (content.length / TFTP_BLOCKSIZE) TFTP_BLOCKSIZE
          ++ (content.length % TFTP_BLOCKSIZE)
            :: List.replicate (k - 1 - content.length / TFTP_BLOCKSIZE) 0 := by
  unfold TFTP_BLOCKSIZE
  induction k with
  | zero => intro block content h; omega
  | succ k ih =>
    intro block content h
    by_cases hlt : content.length < 512
    · have ht : content.take 512 = content := List.take_of_length_le (by omega)
      have hd : content.drop 512 = [] := List.drop_of_length_le (by omega)
      have hz : ∀ (j b : Nat), ((data_dgrams j b []).map (List.drop 4)).flatten = [] ∧
          (data_dgrams j b []).map (fun d => (d.drop 4).length) = List.replicate j 0 := by
        intro j
        induction j with
        | zero => intro b; exact ⟨rfl, rfl⟩
        | succ j ihj =>
          intro b
          obtain ⟨h1, h2⟩ := ihj ((b + 1) % 65536)
          rw [data_dgrams, List.take_nil, List.drop_nil, List.map_cons, List.map_cons,
            List.flatten_cons, h1, h2, data_dgram_drop, List.replicate_succ]
          exact ⟨rfl, rfl⟩
      obtain ⟨h1, h2⟩ := hz k ((block + 1) % 65536)
      have hdiv : content.length / 512 = 0 := Nat.div_eq_of_lt hlt
      have hmod : content.length % 512 = content.length := Nat.mod_eq_of_lt hlt
      rw [data_dgrams, TFTP_BLOCKSIZE, ht, hd, List.map_cons, List.map_cons, List.flatten_cons,
        h1, h2, data_dgram_drop, hdiv, hmod]
      exact ⟨by simp, by simp⟩
    · obtain ⟨h1, h2⟩ := ih ((block + 1) % 65536) (content.drop 512)
        (by simp only [List.length_drop]; omega)
      have hl : (content.take 512).length = 512 := by simp only [List.length_take]; omega
      have hdiv : content.length / 512 = (content.length - 512) / 512 + 1 := by omega
      have hmod : content.length % 512 = (content.length - 512) % 512 := by omega
      have hk : k + 1 - 1 - ((content.length - 512) / 512 + 1)
          = k - 1 - (content.length - 512) / 512 := by omega
      rw [List.length_drop] at h2
      rw [data_dgrams, TFTP_BLOCKSIZE, List.map_cons, List.map_cons, List.flatten_cons,
        h1, h2, data_dgram_drop, hdiv, hmod, hk, hl, List.replicate_succ, List.cons_append]
      exact ⟨List.take_append_drop 512 content, rfl⟩

theorem sends_succeed_replicate (k n : Nat) : sends_succeed (List.replicate k (SysRes.ok n)) := by
  intro s hs
  exact ⟨n, (List.mem_replicate.1 hs).2⟩

theorem polls_ready_replicate (k : Nat) : polls_ready (List.replicate k ⟨1, 1, 0⟩) := by
  intro p hp
  rw [(List.mem_replicate.1 hp).2]
  decide

theorem sample_file_length (n : Nat) : (sample_file n).length = n :=
  List.length_replicate _ _

theorem local_buffer_length (n : Nat) : (local_buffer n).length = n :=
  List.length_replicate _ _

theorem file_reads_length (k : Nat) (content : List Nat) : (file_reads k content).length = k := by
  induction k generalizing content with
  | zero => rfl
  | succ k ih => simp [file_reads, ih]

/-- Both sender loops on a non-empty file over a channel without loss: they return 0 having
sent the `content.length / 512 + 1` DATA packets of the file, numbered from 1 on. -/
theorem sender_loops_run (le : Bool) (content : List Nat) (buffer : List Nat) (w : World)
    (src : Nat) (extra : List ReadRes) (rrest : List RecvRes)
    (hpos : 0 < content.length)
    (hreads : w.reads = file_reads (content.length / TFTP_BLOCKSIZE + 2) content ++ extra)
    (hrecvs : w.recvs = acks_from src (content.length / TFTP_BLOCKSIZE + 1) 1 ++ rrest)
    (hs : sends_succeed w.sends) (hsl : content.length / TFTP_BLOCKSIZE + 1 ≤ w.sends.length)
    (hp : polls_ready w.polls) (hpl : content.length / TFTP_BLOCKSIZE + 1 ≤ w.polls.length)
    (hb : 4 ≤ buffer.length) :
    ∃ w1 : World,
      tftp_handle_rrq_loop le (w.reads.length + 1) 1 0 buffer w = (some 0, w1) ∧
      tftp_put_file_loop le (w.reads.length + 1) 0 0 buffer w = (some 0, w1) ∧
      sent_dgrams w1.trace = sent_dgrams w.trace
        ++ data_dgrams (content.length / TFTP_BLOCKSIZE + 1) 1 content ∧
      w1.reads = extra ∧ w1.recvs = rrest ∧ w1.exit_flag = w.exit_flag := by
  have hk : content.length / TFTP_BLOCKSIZE + 1 = blocks_to_send content 0 := by
    unfold blocks_to_send
    rw [if_neg (by omega)]
  have hfuel : content.length / TFTP_BLOCKSIZE + 1 + 1 ≤ w.reads.length + 1 := by
    rw [hreads, List.length_append, file_reads_length]
    omega
  obtain ⟨w1, h1, h2, h3, h4, _, _, h7, _, _⟩ := rrq_loop_run le
    (content.length / TFTP_BLOCKSIZE + 1) content (w.reads.length + 1) 1 0 buffer w src extra
    rrest hk hreads hrecvs hs hsl hp hpl (by omega) hb hfuel
  refine ⟨w1, h1, ?_, h2, h3, h4, h7⟩
  rw [put_file_loop_eq]
  exact h1

/-- C6 (the code at the failing input): on an empty source file, of size 0, a multiple of
512, both sender loops read the end of the file, send no DATA packet at all, close the file
and return 0, whereas the claim expects the one empty DATA packet `data_dgram 1 []`; the
read handler as a whole does the same. On a file of 1024 bytes the loops do send the packets
with the payload lengths 512, 512, 0. -/
theorem empty_file_sends_no_block :
    tftp_handle_rrq_loop true 3 1 0 (local_buffer 4096)
        { idle_world with
          reads := file_reads 2 [], recvs := acks_from 9 1 1,
          sends := [SysRes.ok 4], polls := [⟨1, 1, 0⟩] }
      = (some 0, { idle_world with
          reads := [ReadRes.ok []], recvs := acks_from 9 1 1,
          sends := [SysRes.ok 4], polls := [⟨1, 1, 0⟩],
          trace := [Effect.fread, Effect.closed] }) ∧
    tftp_put_file_loop true 3 0 0 (local_buffer 4096)
        { idle_world with
          reads := file_reads 2 [], recvs := acks_from 9 1 1,
          sends := [SysRes.ok 4], polls := [⟨1, 1, 0⟩] }
      = (some 0, { idle_world with
          reads := [ReadRes.ok []], recvs := acks_from 9 1 1,
          sends := [SysRes.ok 4], polls := [⟨1, 1, 0⟩],
          trace := [Effect.fread, Effect.closed] }) ∧
    (tftp_handle_rrq true (request_dgram 1 ["f", "octet"]) 10
        { idle_world with
          opens := [SysRes.ok 3], reads := file_reads 2 [], recvs := acks_from 9 1 1,
          sends := [SysRes.ok 4], polls := [⟨1, 1, 0⟩] }).1 = some 0 ∧
    sent_dgrams (tftp_handle_rrq true (request_dgram 1 ["f", "octet"]) 10
        { idle_world with
          opens := [SysRes.ok 3], reads := file_reads 2 [], recvs := acks_from 9 1 1,
          sends := [SysRes.ok 4], polls := [⟨1, 1, 0⟩] }).2.trace = [] ∧
    data_dgrams ((sample_file 0).length / TFTP_BLOCKSIZE + 1) 1 (sample_file 0)
      = [data_dgram 1 []] ∧
    (∃ w1 : World,
      tftp_handle_rrq_loop true 5 1 0 (local_buffer 4096)
          { idle_world with
            reads := file_reads 4 (sample_file 1024), recvs := acks_from 9 3 1,
            sends := List.replicate 3 (SysRes.ok 516),
            polls := List.replicate 3 ⟨1, 1, 0⟩ } = (some 0, w1) ∧
      (sent_dgrams w1.trace).map (fun d => (d.drop 4).length) = [512, 512, 0]) := by
  refine ⟨by decide, by decide, by decide, by decide, by decide, ?_⟩
  have hlen : (sample_file 1024).length = 1024 := sample_file_length 1024
  obtain ⟨w1, h1, _, h3, _⟩ := sender_loops_run true (sample_file 1024)
    (local_buffer 4096)
    { idle_world with
      reads := file_reads 4 (sample_file 1024), recvs := acks_from 9 3 1,
      sends := List.replicate 3 (SysRes.ok 516),
      polls := List.replicate 3 ⟨1, 1, 0⟩ } 9 [] []
    (by rw [hlen]; decide) (by rw [hlen]; exact (List.append_nil _).symm)
    (by rw [hlen]; exact (List.append_nil _).symm) (sends_succeed_replicate 3 516)
    (by rw [hlen]; decide) (polls_ready_replicate 3)
    (by rw [hlen]; decide) (by rw [local_buffer_length]; decide)
  refine ⟨w1, ?_, ?_⟩
  · have hf : (file_reads 4 (sample_file 1024)).length + 1 = 5 := by
      rw [file_reads_length]
    rw [← hf]
    exact h1
  · have hp := (data_dgrams_payloads 3 1 (sample_file 1024) (by rw [hlen]; decide)).2
    rw [hlen] at h3 hp
    rw [h3, List.map_append]
    exact hp

/-- C7: both sender loops, when every read returns the next `min 512 remaining` bytes of the
file, every `sendto` succeeds, every `poll` reports the socket readable and the peer
acknowledges each block: for a file whose size is not a multiple of 512 the loop returns 0
having sent exactly `size / 512 + 1` DATA packets, numbered from 1, whose payloads have 512
bytes each but for the last, which has `size % 512` bytes; no further packet is sent and the
payloads, taken together, are the content of the file. -/
theorem sender_sends_partial_last_block (le : Bool) (content : List Nat) (buffer : List Nat)
    (w : World) (src : Nat) (extra : List ReadRes) (rrest : List RecvRes)
    (hn : content.length % TFTP_BLOCKSIZE ≠ 0)
    (hreads : w.reads = file_reads (content.length / TFTP_BLOCKSIZE + 2) content ++ extra)
    (hrecvs : w.recvs = acks_from src (content.length / TFTP_BLOCKSIZE + 1) 1 ++ rrest)
    (hs : sends_succeed w.sends) (hsl : content.length / TFTP_BLOCKSIZE + 1 ≤ w.sends.length)
    (hp : polls_ready w.polls) (hpl : content.length / TFTP_BLOCKSIZE + 1 ≤ w.polls.length)
    (hb : 4 ≤ buffer.length) :
    ∃ w1 : World,
      tftp_handle_rrq_loop le (w.reads.length + 1) 1 0 buffer w = (some 0, w1) ∧
      tftp_put_file_loop le (w.reads.length + 1) 0 0 buffer w = (some 0, w1) ∧
      sent_dgrams w1.trace = sent_dgrams w.trace
        ++ data_dgrams (content.length / TFTP_BLOCKSIZE + 1) 1 content ∧
      (data_dgrams (content.length / TFTP_BLOCKSIZE + 1) 1 content).map
          (fun d => (d.drop 4).length)
        = List.replicate (content.length / TFTP_BLOCKSIZE) TFTP_BLOCKSIZE
          ++ [content.length % TFTP_BLOCKSIZE] ∧
      ((data_dgrams (content.length / TFTP_BLOCKSIZE + 1) 1 content).map
          (List.drop 4)).flatten = content := by
  have hpos : 0 < content.length := by
    rcases Nat.eq_zero_or_pos content.length with h | h
    · rw [h] at hn; exact absurd (Nat.zero_mod _) hn
    · exact h
  obtain ⟨w1, h1, h2, h3, _⟩ := sender_loops_run le content buffer w src extra rrest hpos
    hreads hrecvs hs hsl hp hpl hb
  obtain ⟨hp1, hp2⟩ := data_dgrams_payloads (content.length / TFTP_BLOCKSIZE + 1) 1 content
    (by unfold TFTP_BLOCKSIZE; omega)
  refine ⟨w1, h1, h2, h3, ?_, hp1⟩
  rw [hp2]
  have h0 : content.length / TFTP_BLOCKSIZE + 1 - 1 - content.length / TFTP_BLOCKSIZE = 0 := by
    omega
  rw [h0]
  rfl

theorem sender_sends_partial_last_block_witness :
    ∃ w1 : World,
      tftp_handle_rrq_loop true 3 1 0 (local_buffer 4096)
          { idle_world with
            reads := file_reads 2 (sample_file 500), recvs := acks_from 9 1 1,
            sends := List.replicate 1 (SysRes.ok 504),
            polls := List.replicate 1 ⟨1, 1, 0⟩ } = (some 0, w1) ∧
      (sent_dgrams w1.trace).map (fun d => (d.drop 4).length) = [500] := by
  have hlen : (sample_file 500).length = 500 := sample_file_length 500
  obtain ⟨w1, h1, _, h3, h4, _⟩ := sender_sends_partial_last_block true (sample_file 500)
    (local_buffer 4096)
    { idle_world with
      reads := file_reads 2 (sample_file 500), recvs := acks_from 9 1 1,
      sends := List.replicate 1 (SysRes.ok 504),
      polls := List.replicate 1 ⟨1, 1, 0⟩ } 9 [] []
    (by rw [hlen]; decide) (by rw [hlen]; exact (List.append_nil _).symm)
    (by rw [hlen]; exact (List.append_nil _).symm) (sends_succeed_replicate 1 504)
    (by rw [hlen]; decide) (polls_ready_replicate 1)
    (by rw [hlen]; decide) (by rw [local_buffer_length]; decide)
  refine ⟨w1, ?_, ?_⟩
  · have hf : (file_reads 2 (sample_file 500)).length + 1 = 3 := by
      rw [file_reads_length]
    rw [← hf]
    exact h1
  · rw [hlen] at h3 h4
    rw [h3, List.map_append]
    exact h4

/-! ## Block numbering -/

theorem data_dgram_loads (le : Bool) (block : Nat) (payload : List Nat) :
    tfp_load_ushort_ns le (data_dgram block payload) = TFTP_OPCODE_DATA ∧
    tfp_load_ushort_ns le ((data_dgram block payload).drop 2) = block % 65536 := by
  constructor
  · unfold data_dgram
    rw [List.cons_append, List.cons_append,
      tfp_load_ushort_ns_cons le 0 3 _ (by omega) (by omega)]
    rfl
  · unfold data_dgram
    simp only [List.cons_append, List.drop_succ_cons, List.drop_zero]
    rw [tfp_load_ushort_ns_cons le _ _ _ (Nat.mod_lt _ (by omega)) (Nat.mod_lt _ (by omega))]
    omega

theorem ack_dgram_mod (block : Nat) : ack_dgram (block % 65536) = ack_dgram block := by
  unfold ack_dgram
  have h1 : block % 65536 / 256 % 256 = block / 256 % 256 := by omega
  have h2 : block % 65536 % 256 = block % 256 := by omega
  rw [h1, h2]

theorem sent_dgrams_emit (w : World) (e : Effect) :
    sent_dgrams (w.emit e).trace = sent_dgrams w.trace ++
      (match e with
        | Effect.sent dgram _ => [dgram]
        | _ => []) := by
  cases e <;> simp [World.emit, sent_dgrams, List.filterMap_append]

theorem send_ack_cases (le : Bool) (block : Nat) (w : World) :
    (tftp_send_ack_packet le block w).1 = none ∧
        sent_dgrams (tftp_send_ack_packet le block w).2.trace = sent_dgrams w.trace ∨
    (tftp_send_ack_packet le block w).1 = some (-1) ∧
        sent_dgrams (tftp_send_ack_packet le block w).2.trace = sent_dgrams w.trace ∨
    (tftp_send_ack_packet le block w).1 = some 0 ∧
        sent_dgrams (tftp_send_ack_packet le block w).2.trace
          = sent_dgrams w.trace ++ [ack_dgram block] := by
  unfold tftp_send_ack_packet
  split
  · left; exact ⟨rfl, rfl⟩
  · right; left; exact ⟨rfl, rfl⟩
  · right; right
    refine ⟨rfl, ?_⟩
    simp only [sent_dgrams_emit, ushort_bytes_htons, TFTP_OPCODE_ACK]
    rfl

/-- A pass through the receiver body sends nothing and leaves `block` unchanged, or sends
the ACK for `block` and reaches the loop condition with the next block number. -/
theorem wrq_body_sent (le : Bool) (block : Nat) (buffer : List Nat) (w : World) :
    (sent_dgrams (tftp_handle_wrq_body le block buffer w).2.2.trace = sent_dgrams w.trace ∧
      ∀ b len, (tftp_handle_wrq_body le block buffer w).1 = LoopStep.cond b len → b = block) ∨
    (sent_dgrams (tftp_handle_wrq_body le block buffer w).2.2.trace
        = sent_dgrams w.trace ++ [ack_dgram block] ∧
      ∃ len, (tftp_handle_wrq_body le block buffer w).1
        = LoopStep.cond ((block + 1) % 65536) len) := by
  unfold tftp_handle_wrq_body
  split
  · left; exact ⟨rfl, by intro b len h; simp at h⟩
  · rename_i r b w1 h
    have h1 : sent_dgrams w1.trace = sent_dgrams w.trace := by
      unfold recvfrom at h
      split at h
      · simp at h
      · simp only [Option.some.injEq, Prod.mk.injEq] at h
        obtain ⟨_, _, rfl⟩ := h
        simp only [sent_dgrams_emit, List.append_nil]
      · simp only [Option.some.injEq, Prod.mk.injEq] at h
        obtain ⟨_, _, rfl⟩ := h
        simp only [sent_dgrams_emit, List.append_nil]
    simp only
    split_ifs
    · left; exact ⟨by simpa [sent_dgrams_close] using h1, by intro b len h; simp at h⟩
    · left; exact ⟨by simpa [sent_dgrams_close] using h1, by intro b len h; simp at h⟩
    · left; exact ⟨h1, by intro b len h; simp at h; exact h.1.symm⟩
    · left; exact ⟨h1, by intro b len h; simp at h; exact h.1.symm⟩
    · split
      · left; exact ⟨h1, by intro b len h; simp at h⟩
      · rename_i wr w2 h2
        have h3 : sent_dgrams w2.trace = sent_dgrams w1.trace := by
          unfold sys_write at h2
          split at h2
          · simp at h2
          · simp only [Option.some.injEq, Prod.mk.injEq] at h2
            obtain ⟨_, rfl⟩ := h2
            rfl
          · simp only [Option.some.injEq, Prod.mk.injEq] at h2
            obtain ⟨_, rfl⟩ := h2
            simp only [sent_dgrams_emit, List.append_nil]
        split_ifs
        · left
          exact ⟨by rw [sent_dgrams_close, h3, h1], by intro b len h; simp at h⟩
        · have ha := send_ack_cases le block w2
          split
          · rename_i w3 h5
            rw [h5] at ha
            left
            refine ⟨?_, by intro b len h; simp at h⟩
            rcases ha with ⟨_, ha⟩ | ⟨hx, _⟩ | ⟨hx, _⟩
            · simp only at ha ⊢; rw [ha, h3, h1]
            · simp at hx
            · simp at hx
          · rename_i a w3 h5
            rw [h5] at ha
            rcases ha with ⟨hx, _⟩ | ⟨hx, ha⟩ | ⟨hx, ha⟩
            · simp at hx
            · simp only [Option.some.injEq] at hx
              subst hx
              rw [if_pos (by decide)]
              left
              refine ⟨?_, by intro b len h; simp at h⟩
              simp only at ha ⊢
              rw [sent_dgrams_close, ha, h3, h1]
            · simp only [Option.some.injEq] at hx
              subst hx
              rw [if_neg (by decide)]
              right
              refine ⟨?_, _, rfl⟩
              simp only at ha ⊢
              rw [ha, h3, h1]

theorem range_map_ack_succ (block m : Nat) :
    ack_dgram block :: (List.range m).map (fun i => ack_dgram (((block + 1) % 65536 + i) % 65536))
      = (List.range (m + 1)).map (fun i => ack_dgram ((block + i) % 65536)) := by
  rw [List.range_succ_eq_map, List.map_cons, List.map_map]
  have h0 : ack_dgram ((block + 0) % 65536) = ack_dgram block := ack_dgram_mod block
  rw [h0]
  congr 1
  apply List.map_congr_left
  intro i _
  have h : ((block + 1) % 65536 + i) % 65536 = (block + (i + 1)) % 65536 := by omega
  simp only [Function.comp, h, Nat.succ_eq_add_one]

/-- The ACKs a receiver loop sends, in any run, are numbered consecutively modulo 65536 from
the block number the loop is entered with. -/
theorem wrq_loop_acks (le : Bool) :
    ∀ (fuel block : Nat) (buffer : List Nat) (w : World),
      ∃ m : Nat, sent_dgrams (tftp_handle_wrq_loop le fuel block buffer w).2.trace
        = sent_dgrams w.trace ++ (List.range m).map (fun i => ack_dgram ((block + i) % 65536)) := by
  intro fuel
  induction fuel with
  | zero => intro block buffer w; exact ⟨0, by simp [tftp_handle_wrq_loop]⟩
  | succ fuel ih =>
    intro block buffer w
    have hb := wrq_body_sent le block buffer w
    rw [tftp_handle_wrq_loop]
    split
    · rename_i v b w1 h
      rw [h] at hb
      rcases hb with ⟨hs, _⟩ | ⟨_, len, hx⟩
      · exact ⟨0, by simpa using hs⟩
      · simp at hx
    · rename_i b w1 h
      rw [h] at hb
      rcases hb with ⟨hs, _⟩ | ⟨_, len, hx⟩
      · exact ⟨0, by simpa using hs⟩
      · simp at hx
    · rename_i block1 len b w1 h
      rw [h] at hb
      rcases hb with ⟨hs, hblk⟩ | ⟨hs, len1, hx⟩
      · have hb1 : block1 = block := hblk block1 len rfl
        subst hb1
        split_ifs
        · obtain ⟨m, hm⟩ := ih block1 b w1
          exact ⟨m, by rw [hm]; simp only at hs; rw [hs]⟩
        · exact ⟨0, by rw [sent_dgrams_close]; simpa using hs⟩
      · simp only [LoopStep.cond.injEq] at hx
        obtain ⟨hb1, _⟩ := hx
        subst hb1
        simp only at hs
        split_ifs
        · obtain ⟨m, hm⟩ := ih ((block + 1) % 65536) b w1
          refine ⟨m + 1, ?_⟩
          rw [hm, hs, ← range_map_ack_succ, List.append_assoc]
          rfl
        · refine ⟨1, ?_⟩
          rw [sent_dgrams_close, hs]
          have := range_map_ack_succ block 0
          simp only [List.range_zero, List.map_nil] at this
          rw [← this]

/-- The write handler acknowledges the request with ACK 0 and then the blocks from 1 on. -/
theorem wrq_after_split_acks (le : Bool) (sp : SplitRes) (w : World) :
    ∃ m : Nat, sent_dgrams (tftp_handle_wrq_after_split le sp w).2.trace
      = sent_dgrams w.trace ++ (List.range m).map (fun i => ack_dgram (i % 65536)) := by
  unfold tftp_handle_wrq_after_split
  simp only
  split_ifs
  · exact ⟨0, by simp⟩
  · exact ⟨0, by simp⟩
  · exact ⟨0, by simp⟩
  · exact ⟨0, by simp⟩
  · split
    · exact ⟨0, by simp⟩
    · rename_i fd w1 ho
      have h1 : sent_dgrams w1.trace = sent_dgrams w.trace := by
        unfold sys_open at ho
        split at ho
        · simp at ho
        · simp only [Option.some.injEq, Prod.mk.injEq] at ho
          obtain ⟨_, rfl⟩ := ho
          simp only [sent_dgrams_emit, List.append_nil]
        · simp only [Option.some.injEq, Prod.mk.injEq] at ho
          obtain ⟨_, rfl⟩ := ho
          simp only [sent_dgrams_emit, List.append_nil]
      split_ifs
      · exact ⟨0, by simpa using h1⟩
      · have ha := send_ack_cases le 0 w1
        split
        · rename_i w2 h5
          rw [h5] at ha
          rcases ha with ⟨_, ha⟩ | ⟨hx, _⟩ | ⟨hx, _⟩
          · exact ⟨0, by simp only at ha ⊢; rw [ha, h1]; simp⟩
          · simp at hx
          · simp at hx
        · rename_i a w2 h5
          rw [h5] at ha
          rcases ha with ⟨hx, _⟩ | ⟨hx, ha⟩ | ⟨hx, ha⟩
          · simp at hx
          · simp only [Option.some.injEq] at hx
            subst hx
            rw [if_pos (by decide)]
            exact ⟨0, by simp only at ha ⊢; rw [sent_dgrams_close, ha, h1]; simp⟩
          · simp only [Option.some.injEq] at hx
            subst hx
            rw [if_neg (by decide)]
            obtain ⟨m, hm⟩ := wrq_loop_acks le (w2.recvs.length + 1) ((0 + 1) % 65536)
              (local_buffer 65536) w2
            refine ⟨m + 1, ?_⟩
            simp only at ha
            rw [hm, ha, h1, List.append_assoc]
            have := range_map_ack_succ 0 m
            simp only [Nat.zero_add] at this
            rw [← this]
            rfl

/-- C9: block numbers are consecutive modulo 65536 and start at 1. Sender: in a transfer of a
non-empty file over a channel without loss, the `k`-th DATA packet sent by either loop
(`k ≥ 1`) is `data_dgram (k % 65536)` of the `k`-th run of 512 bytes, whose block field
decodes to `k % 65536`. Receiver: in every run of either loop, the ACKs sent, one for each
block accepted, are numbered `1, 2, ...` modulo 65536 in this order; the write handler as a
whole sends ACK 0 first. The block after 65535 is 0. -/
theorem block_numbers_consecutive (le : Bool) (content : List Nat) (buffer : List Nat)
    (w : World) (src : Nat) (extra : List ReadRes) (rrest : List RecvRes)
    (hpos : 0 < content.length)
    (hreads : w.reads = file_reads (content.length / TFTP_BLOCKSIZE + 2) content ++ extra)
    (hrecvs : w.recvs = acks_from src (content.length / TFTP_BLOCKSIZE + 1) 1 ++ rrest)
    (hs : sends_succeed w.sends) (hsl : content.length / TFTP_BLOCKSIZE + 1 ≤ w.sends.length)
    (hp : polls_ready w.polls) (hpl : content.length / TFTP_BLOCKSIZE + 1 ≤ w.polls.length)
    (hb : 4 ≤ buffer.length) :
    (∃ w1 : World,
      tftp_handle_rrq_loop le (w.reads.length + 1) 1 0 buffer w = (some 0, w1) ∧
      tftp_put_file_loop le (w.reads.length + 1) 0 0 buffer w = (some 0, w1) ∧
      sent_dgrams w1.trace = sent_dgrams w.trace
        ++ data_dgrams (content.length / TFTP_BLOCKSIZE + 1) 1 content ∧
      ∀ k : Nat, 1 ≤ k → k ≤ content.length / TFTP_BLOCKSIZE + 1 →
        (data_dgrams (content.length / TFTP_BLOCKSIZE + 1) 1 content)[k - 1]?
          = some (data_dgram (k % 65536)
              ((content.drop (TFTP_BLOCKSIZE * (k - 1))).take TFTP_BLOCKSIZE)) ∧
        tfp_load_ushort_ns le ((data_dgram (k % 65536)
              ((content.drop (TFTP_BLOCKSIZE * (k - 1))).take TFTP_BLOCKSIZE)).drop 2)
          = k % 65536) ∧
    (∀ (fuel : Nat) (buffer1 : List Nat) (w0 : World),
      ∃ m : Nat, sent_dgrams (tftp_get_file_loop le fuel 1 buffer1 w0).2.trace
        = sent_dgrams w0.trace ++ (List.range m).map (fun i => ack_dgram ((i + 1) % 65536))) ∧
    (∀ (fuel : Nat) (buffer1 : List Nat) (w0 : World),
      ∃ m : Nat, sent_dgrams (tftp_handle_wrq_loop le fuel 1 buffer1 w0).2.trace
        = sent_dgrams w0.trace ++ (List.range m).map (fun i => ack_dgram ((i + 1) % 65536))) ∧
    (∀ (request : List Nat) (len : Nat) (w0 : World),
      ∃ m : Nat, sent_dgrams (tftp_handle_wrq le request len w0).2.trace
        = sent_dgrams w0.trace ++ (List.range m).map (fun i => ack_dgram (i % 65536))) ∧
    data_dgrams 2 65535 [] = [data_dgram 65535 [], data_dgram 0 []] ∧
    acks_from src 2 65535 = [RecvRes.ok (ack_dgram 65535) src, RecvRes.ok (ack_dgram 0) src] := by
  have hloop : ∀ (fuel : Nat) (buffer1 : List Nat) (w0 : World),
      ∃ m : Nat, sent_dgrams (tftp_handle_wrq_loop le fuel 1 buffer1 w0).2.trace
        = sent_dgrams w0.trace
          ++ (List.range m).map (fun i => ack_dgram ((i + 1) % 65536)) := by
    intro fuel buffer1 w0
    obtain ⟨m, hm⟩ := wrq_loop_acks le fuel 1 buffer1 w0
    refine ⟨m, ?_⟩
    rw [hm]
    congr 1
    apply List.map_congr_left
    intro i _
    rw [Nat.add_comm]
  refine ⟨?_, ?_, hloop, ?_, rfl, rfl⟩
  · obtain ⟨w1, h1, h2, h3, _⟩ := sender_loops_run le content buffer w src extra rrest hpos
      hreads hrecvs hs hsl hp hpl hb
    refine ⟨w1, h1, h2, h3, ?_⟩
    intro k hk1 hk2
    constructor
    · rw [data_dgrams_getElem _ 1 content (k - 1) (by omega) (by omega)]
      have : (1 + (k - 1)) = k := by omega
      rw [this]
    · rw [(data_dgram_loads le _ _).2]
      exact Nat.mod_mod _ _
  · intro fuel buffer1 w0
    rw [get_file_loop_eq]
    exact hloop fuel buffer1 w0
  · intro request len w0
    exact wrq_after_split_acks le _ w0

theorem block_numbers_consecutive_witness :
    ∃ w1 : World,
      tftp_put_file_loop true 3 0 0 (local_buffer 4096)
          { idle_world with
            reads := file_reads 2 (sample_file 500), recvs := acks_from 9 1 1,
            sends := List.replicate 1 (SysRes.ok 504),
            polls := List.replicate 1 ⟨1, 1, 0⟩ } = (some 0, w1) ∧
      sent_dgrams w1.trace = [data_dgram 1 (sample_file 500)] := by
  have hlen : (sample_file 500).length = 500 := sample_file_length 500
  obtain ⟨⟨w1, _, h2, h3, h4⟩, _⟩ := block_numbers_consecutive true (sample_file 500)
    (local_buffer 4096)
    { idle_world with
      reads := file_reads 2 (sample_file 500), recvs := acks_from 9 1 1,
      sends := List.replicate 1 (SysRes.ok 504),
      polls := List.replicate 1 ⟨1, 1, 0⟩ } 9 [] []
    (by rw [hlen]; decide) (by rw [hlen]; exact (List.append_nil _).symm)
    (by rw [hlen]; exact (List.append_nil _).symm) (sends_succeed_replicate 1 504)
    (by rw [hlen]; decide) (polls_ready_replicate 1)
    (by rw [hlen]; decide) (by rw [local_buffer_length]; decide)
  refine ⟨w1, ?_, ?_⟩
  · have hf : (file_reads 2 (sample_file 500)).length + 1 = 3 := by
      rw [file_reads_length]
    rw [← hf]
    exact h2
  · rw [hlen] at h3
    rw [h3]
    have ht : (sample_file 500).take TFTP_BLOCKSIZE = sample_file 500 :=
      List.take_of_length_le (by rw [hlen]; decide)
    show [] ++ [data_dgram 1 ((sample_file 500).take TFTP_BLOCKSIZE)]
      = [data_dgram 1 (sample_file 500)]
    rw [ht]
    rfl

/-! ## The parameters of a request: fields and payload -/

theorem strlen_append_nul (f t : List Nat) (hf : nul_free f) :
    strlen (f ++ 0 :: t) = f.length := by
  induction f with
  | nil => simp [strlen]
  | cons b f ih =>
    have hb : b ≠ 0 := hf b (List.mem_cons_self _ _)
    have hf1 : nul_free f := fun x hx => hf x (List.mem_cons_of_mem _ hx)
    simp [strlen, hb, ih hf1]

theorem first_nul_le (header : List Nat) (len : Nat) : first_nul header len ≤ len := by
  induction len generalizing header with
  | zero => simp [first_nul]
  | succ len ih =>
    rw [first_nul]
    split_ifs
    · omega
    · have := ih (header.drop 1)
      omega

/-- The first loop of `tftp_params_split` ends before `len` on a payload that starts with a
field and its NUL. -/
theorem first_nul_field (f t : List Nat) (len : Nat) (hf : nul_free f) (hl : f.length < len) :
    first_nul (f ++ 0 :: t) len = f.length := by
  induction f generalizing len with
  | nil =>
    obtain ⟨n, rfl⟩ : ∃ n, len = n + 1 := ⟨len - 1, by simp at hl; omega⟩
    simp [first_nul]
  | cons b f ih =>
    have hb : b ≠ 0 := hf b (List.mem_cons_self _ _)
    have hf1 : nul_free f := fun x hx => hf x (List.mem_cons_of_mem _ hx)
    obtain ⟨n, rfl⟩ : ∃ n, len = n + 1 := ⟨len - 1, by simp at hl; omega⟩
    rw [first_nul]
    simp only [List.cons_append, List.getD_cons_zero, hb, if_false, List.drop_succ_cons,
      List.drop_zero]
    rw [ih n hf1 (by simp at hl; omega)]
    rfl

theorem encode_fields_cons (f : List Nat) (fs : List (List Nat)) :
    encode_fields (f :: fs) = f ++ 0 :: encode_fields fs := by
  simp [encode_fields]

theorem encode_fields_length_ge (fs : List (List Nat)) :
    fs.length ≤ (encode_fields fs).length := by
  induction fs with
  | nil => simp [encode_fields]
  | cons f fs ih =>
    rw [encode_fields_cons]
    simp only [List.length_append, List.length_cons]
    omega

/-- The second loop of `tftp_params_split` on the fields still to come: with rows left and
all fields short enough it stores them all; otherwise it fails with `ENOBUFS`. -/
theorem split_loop_fields (nlimit strlimit : Nat) (errno : Int) (rest : List Nat) :
    ∀ (fs : List (List Nat)) (pre : List Nat) (fuel i : Nat) (acc : List (List Nat)),
      (∀ f ∈ fs, nul_free f) → fs.length ≤ fuel → i ≤ nlimit →
      tftp_params_split_loop (pre ++ encode_fields fs ++ rest)
          (pre.length + (encode_fields fs).length) nlimit strlimit errno fuel i pre.length acc
        = if i + fs.length ≤ nlimit ∧ ∀ f ∈ fs, f.length < strlimit then
            ⟨((i + fs.length : Nat) : Int), errno, acc.reverse ++ fs⟩
          else
            ⟨-1, ENOBUFS, (tftp_params_split_loop (pre ++ encode_fields fs ++ rest)
              (pre.length + (encode_fields fs).length) nlimit strlimit errno fuel i pre.length
              acc).params⟩ := by
  intro fs
  induction fs with
  | nil =>
    intro pre fuel i acc _ _ hi
    have hok : i + ([] : List (List Nat)).length ≤ nlimit ∧
        ∀ f ∈ ([] : List (List Nat)), f.length < strlimit := ⟨by simpa using hi, by simp⟩
    rw [if_pos hok]
    cases fuel with
    | zero => simp [tftp_params_split_loop]
    | succ fuel => simp [tftp_params_split_loop, encode_fields]
  | cons f fs ih =>
    intro pre fuel i acc hnf hfuel hi
    obtain ⟨fuel, rfl⟩ : ∃ n, fuel = n + 1 := ⟨fuel - 1, by simp at hfuel; omega⟩
    have hf : nul_free f := hnf f (List.mem_cons_self _ _)
    have hfs : ∀ g ∈ fs, nul_free g := fun g hg => hnf g (List.mem_cons_of_mem _ hg)
    have hlt : pre.length < pre.length + (encode_fields (f :: fs)).length := by
      rw [encode_fields_cons]; simp
    have hdrop : (pre ++ encode_fields (f :: fs) ++ rest).drop pre.length
        = f ++ 0 :: (encode_fields fs ++ rest) := by
      rw [List.append_assoc, List.drop_left, encode_fields_cons]
      simp
    have hstr : strlen ((pre ++ encode_fields (f :: fs) ++ rest).drop pre.length) = f.length := by
      rw [hdrop, strlen_append_nul f _ hf]
    have htake : ((pre ++ encode_fields (f :: fs) ++ rest).drop pre.length).take f.length = f := by
      rw [hdrop]; simp
    by_cases h1 : i ≥ nlimit
    · rw [if_neg (by rintro ⟨h, _⟩; rw [List.length_cons] at h; omega)]
      rw [tftp_params_split_loop]
      simp only [hlt, h1, if_true]
    · by_cases h2 : f.length ≥ strlimit
      · rw [if_neg (by rintro ⟨_, h⟩; exact absurd (h f (List.mem_cons_self _ _)) (by omega))]
        rw [tftp_params_split_loop]
        simp only [hlt, h1, hstr, h2, if_true, if_false]
      · have hstep : tftp_params_split_loop (pre ++ encode_fields (f :: fs) ++ rest)
            (pre.length + (encode_fields (f :: fs)).length) nlimit strlimit errno (fuel + 1) i
            pre.length acc
            = tftp_params_split_loop ((pre ++ f ++ [0]) ++ encode_fields fs ++ rest)
              ((pre ++ f ++ [0]).length + (encode_fields fs).length) nlimit strlimit errno fuel
              (i + 1) (pre ++ f ++ [0]).length (f :: acc) := by
          rw [tftp_params_split_loop]
          simp only [hlt, if_true, h1, if_false, hstr, h2, htake]
          have e1 : pre ++ encode_fields (f :: fs) ++ rest
              = (pre ++ f ++ [0]) ++ encode_fields fs ++ rest := by
            rw [encode_fields_cons]; simp
          have e2 : pre.length + (encode_fields (f :: fs)).length
              = (pre ++ f ++ [0]).length + (encode_fields fs).length := by
            rw [encode_fields_cons]
            simp only [List.length_append, List.length_cons, List.length_nil]
            omega
          have e3 : pre.length + f.length + 1 = (pre ++ f ++ [0]).length := by
            simp only [List.length_append, List.length_cons, List.length_nil]
          rw [e1, e2, e3]
        rw [hstep, ih (pre ++ f ++ [0]) fuel (i + 1) (f :: acc) hfs
          (by simp at hfuel; omega) (by omega)]
        have hiff : (i + 1 + fs.length ≤ nlimit ∧ ∀ g ∈ fs, g.length < strlimit) ↔
            (i + (f :: fs).length ≤ nlimit ∧ ∀ g ∈ f :: fs, g.length < strlimit) := by
          simp only [List.length_cons, List.mem_cons, forall_eq_or_imp]
          constructor
          · rintro ⟨a, b⟩; exact ⟨by omega, by omega, b⟩
          · rintro ⟨a, _, b⟩; exact ⟨by omega, b⟩
        by_cases hok : i + 1 + fs.length ≤ nlimit ∧ ∀ g ∈ fs, g.length < strlimit
        · rw [if_pos hok, if_pos (hiff.1 hok)]
          simp only [List.length_cons, List.reverse_cons, List.append_assoc, List.singleton_append]
          congr 2
          omega
        · rw [if_neg hok, if_neg (fun h => hok (hiff.2 h))]

/-- The split of a payload that holds the fields `fs`, at the front of any buffer: with at
most `nlimit` fields, all shorter than `strlimit`, it returns their number and stores them;
otherwise it fails with `ENOBUFS`. -/
theorem split_fields (nlimit strlimit : Nat) (errno : Int) (fs : List (List Nat))
    (rest : List Nat) (hne : fs ≠ []) (hnf : ∀ f ∈ fs, nul_free f) :
    tftp_params_split (encode_fields fs ++ rest) (encode_fields fs).length nlimit strlimit errno
      = if fs.length ≤ nlimit ∧ ∀ f ∈ fs, f.length < strlimit then
          ⟨(fs.length : Int), errno, fs⟩
        else
          ⟨-1, ENOBUFS, (tftp_params_split (encode_fields fs ++ rest) (encode_fields fs).length
            nlimit strlimit errno).params⟩ := by
  obtain ⟨f, fs1, rfl⟩ : ∃ f fs1, fs = f :: fs1 := by
    cases fs with
    | nil => exact absurd rfl hne
    | cons f fs1 => exact ⟨f, fs1, rfl⟩
  have hf : nul_free f := hnf f (List.mem_cons_self _ _)
  have hlen : f.length < (encode_fields (f :: fs1)).length := by
    rw [encode_fields_cons]; simp
  have hfirst : first_nul (encode_fields (f :: fs1) ++ rest) (encode_fields (f :: fs1)).length
      ≠ (encode_fields (f :: fs1)).length := by
    have : encode_fields (f :: fs1) ++ rest = f ++ 0 :: (encode_fields fs1 ++ rest) := by
      rw [encode_fields_cons]; simp
    rw [this, first_nul_field f _ _ hf hlen]
    omega
  have hloop := split_loop_fields nlimit strlimit errno rest (f :: fs1) []
    (encode_fields (f :: fs1)).length 0 [] hnf (encode_fields_length_ge _) (Nat.zero_le _)
  simp only [List.nil_append, List.length_nil, Nat.zero_add, List.reverse_nil] at hloop
  unfold tftp_params_split
  rw [if_neg hfirst]
  exact hloop

/-- A payload whose last byte is NUL holds its fields: it is the fields, each followed by a
NUL; no field has a NUL; there are as many fields as NUL bytes, at least one. -/
theorem payload_fields_spec (P : List Nat) (h : P.getLast? = some 0) :
    encode_fields (payload_fields P) = P ∧ (∀ f ∈ payload_fields P, nul_free f) ∧
    (payload_fields P).length = P.count 0 ∧ payload_fields P ≠ [] := by
  induction P with
  | nil => simp at h
  | cons b bs ih =>
    by_cases hb : b = 0
    · subst hb
      cases bs with
      | nil => simp [payload_fields, encode_fields, nul_free]
      | cons c cs =>
        obtain ⟨h1, h2, h3, _⟩ := ih (by simpa [List.getLast?_cons_cons] using h)
        refine ⟨?_, ?_, ?_, ?_⟩
        · rw [payload_fields, if_pos rfl, encode_fields_cons, h1]; rfl
        · rw [payload_fields, if_pos rfl]
          intro f hf
          rcases List.mem_cons.1 hf with rfl | hf
          · intro x hx; simp at hx
          · exact h2 f hf
        · rw [payload_fields, if_pos rfl, List.length_cons, h3]; simp
        · rw [payload_fields, if_pos rfl]; simp
    · cases bs with
      | nil => simp at h; exact absurd h hb
      | cons c cs =>
        obtain ⟨h1, h2, h3, h4⟩ := ih (by simpa [List.getLast?_cons_cons] using h)
        obtain ⟨f, fs, hfs⟩ : ∃ f fs, payload_fields (c :: cs) = f :: fs := by
          cases hp : payload_fields (c :: cs) with
          | nil => exact absurd hp h4
          | cons f fs => exact ⟨f, fs, rfl⟩
        have hpf : payload_fields (b :: c :: cs) = (b :: f) :: fs := by
          rw [payload_fields, if_neg hb, hfs]
        rw [hfs] at h1 h2 h3
        refine ⟨?_, ?_, ?_, ?_⟩
        · rw [hpf, encode_fields_cons, List.cons_append, ← encode_fields_cons, h1]
        · rw [hpf]
          intro g hg
          rcases List.mem_cons.1 hg with rfl | hg
          · intro x hx
            rcases List.mem_cons.1 hx with rfl | hx
            · exact hb
            · exact h2 f (List.mem_cons_self _ _) x hx
          · exact h2 g (List.mem_cons_of_mem _ hg)
        · rw [hpf, List.length_cons, List.count_cons_of_ne (Ne.symm hb), ← h3, List.length_cons]
        · rw [hpf]; simp

/-! ## The header encoder -/

theorem encode_fields_length (ps : List (List Nat)) :
    (encode_fields ps).length = (ps.map (fun p => p.length + 1)).sum := by
  induction ps with
  | nil => rfl
  | cons p ps ih =>
    rw [encode_fields_cons, List.length_append, List.length_cons, ih, List.map_cons,
      List.sum_cons]
    omega

/-- The loop of the encoder when the remaining parameters fit: they are written after what
has been written, each followed by a NUL. -/
theorem prepare_loop_fits (limit : Nat) (errno : Int) :
    ∀ (ps : List (List Nat)) (pre tail : List Nat),
      pre.length + (encode_fields ps).length ≤ limit →
      tftp_prepare_header_loop limit errno ps pre.length (pre ++ tail)
        = ⟨((pre.length + (encode_fields ps).length : Nat) : Int), errno,
            pre ++ encode_fields ps ++ tail.drop (encode_fields ps).length⟩ := by
  intro ps
  induction ps with
  | nil =>
    intro pre tail _
    simp [tftp_prepare_header_loop, encode_fields]
  | cons p ps ih =>
    intro pre tail hfit
    rw [encode_fields_cons, List.length_append, List.length_cons] at hfit
    rw [tftp_prepare_header_loop]
    have h1 : ¬ (pre.length + p.length ≥ limit) := by omega
    simp only [h1, if_false]
    have e1 : memcpy (pre ++ tail) pre.length p = (pre ++ p) ++ tail.drop p.length := by
      simp [memcpy]
    have e2 : memcpy ((pre ++ p) ++ tail.drop p.length) (pre.length + p.length) [0]
        = (pre ++ p ++ [0]) ++ tail.drop (p.length + 1) := by
      have hl : pre.length + p.length = (pre ++ p).length := by
        simp only [List.length_append]
      have t1 : ((pre ++ p) ++ tail.drop p.length).take (pre ++ p).length = pre ++ p :=
        List.take_left' rfl
      have t2 : ((pre ++ p) ++ tail.drop p.length).drop ((pre ++ p).length + 1)
          = (tail.drop p.length).drop 1 := List.drop_append 1
      unfold memcpy
      rw [hl, List.length_singleton, t1, t2, List.drop_drop]
    have e3 : (pre ++ p ++ [0]).length = pre.length + p.length + 1 := by
      simp only [List.length_append, List.length_singleton]
    have ih1 := ih (pre ++ p ++ [0]) (tail.drop (p.length + 1)) (by rw [e3]; omega)
    rw [e3] at ih1
    rw [e1, e2, ih1, encode_fields_cons]
    have e4 : (p ++ 0 :: encode_fields ps).length = p.length + 1 + (encode_fields ps).length := by
      simp only [List.length_append, List.length_cons]; omega
    rw [e4, List.drop_drop]
    have e5 : pre.length + p.length + 1 + (encode_fields ps).length
        = pre.length + (p.length + 1 + (encode_fields ps).length) := by omega
    have e6 : (encode_fields ps).length + (p.length + 1)
        = p.length + 1 + (encode_fields ps).length := by omega
    rw [e5]
    simp only [List.append_assoc, List.singleton_append]

/-- The loop of the encoder when the remaining parameters do not fit: it returns `ENOBUFS`,
a positive value, and leaves `errno` alone. -/
theorem prepare_loop_overflow (limit : Nat) (errno : Int) :
    ∀ (ps : List (List Nat)) (offset : Nat) (header : List Nat),
      offset ≤ limit → limit < offset + (encode_fields ps).length →
      (tftp_prepare_header_loop limit errno ps offset header).ret = ENOBUFS ∧
      (tftp_prepare_header_loop limit errno ps offset header).errno = errno := by
  intro ps
  induction ps with
  | nil =>
    intro offset header h1 h2
    simp [encode_fields] at h2
    omega
  | cons p ps ih =>
    intro offset header h1 h2
    rw [encode_fields_cons, List.length_append, List.length_cons] at h2
    rw [tftp_prepare_header_loop]
    by_cases h : offset + p.length ≥ limit
    · simp only [h, if_true, and_self]
    · simp only [h, if_false]
      exact ih _ _ (by omega) (by omega)

/-- The encoder when the header fits the limit. -/
theorem prepare_header_fits (le : Bool) (header : List Nat) (limit opcode : Nat)
    (ps : List (List Nat)) (errno : Int) (hfit : 2 + (encode_fields ps).length ≤ limit) :
    tftp_prepare_header le header limit opcode (some ps) errno
      = ⟨((2 + (encode_fields ps).length : Nat) : Int), errno,
          [(opcode / 256) % 256, opcode % 256] ++ encode_fields ps
            ++ header.drop (2 + (encode_fields ps).length)⟩ := by
  unfold tftp_prepare_header
  rw [if_neg (by omega), ushort_bytes_htons, memcpy_zero]
  have h := prepare_loop_fits limit errno ps [(opcode / 256) % 256, opcode % 256]
    (header.drop 2) (by simpa using hfit)
  simp only [List.length_cons, List.length_nil, Nat.zero_add, Nat.reduceAdd,
    List.drop_drop] at h
  simp only [List.length_cons, List.length_nil, Nat.zero_add, Nat.reduceAdd]
  rw [h]

/-- The return value of the encoder, in every case. -/
theorem prepare_header_ret (le : Bool) (header : List Nat) (limit opcode : Nat)
    (ps : List (List Nat)) (errno : Int) :
    (tftp_prepare_header le header limit opcode (some ps) errno).ret
      = if limit < 2 then -1
        else if 2 + (encode_fields ps).length ≤ limit then
          ((2 + (encode_fields ps).length : Nat) : Int)
        else ENOBUFS := by
  by_cases h1 : limit < 2
  · rw [if_pos h1]
    unfold tftp_prepare_header
    rw [if_pos h1]
  · rw [if_neg h1]
    by_cases h2 : 2 + (encode_fields ps).length ≤ limit
    · rw [if_pos h2, prepare_header_fits le header limit opcode ps errno h2]
    · rw [if_neg h2]
      unfold tftp_prepare_header
      rw [if_neg h1]
      exact (prepare_loop_overflow limit errno ps 2 _ (by omega) (by omega)).1
/-- The split of a payload whose last byte is NUL, at the front of any buffer, in terms of
the fields of the payload. -/
theorem split_payload (nlimit strlimit : Nat) (errno : Int) (P rest : List Nat)
    (hP : P.getLast? = some 0) :
    tftp_params_split (P ++ rest) P.length nlimit strlimit errno
      = if (payload_fields P).length ≤ nlimit ∧ ∀ f ∈ payload_fields P, f.length < strlimit then
          ⟨((payload_fields P).length : Int), errno, payload_fields P⟩
        else
          ⟨-1, ENOBUFS, (tftp_params_split (P ++ rest) P.length nlimit strlimit errno).params⟩ := by
  obtain ⟨h1, h2, _, h4⟩ := payload_fields_spec P hP
  have h := split_fields nlimit strlimit errno (payload_fields P) rest h4 h2
  rw [h1] at h
  exact h

/-- C14: when the encoded header fits the limit, `tftp_prepare_header` returns the total
number of bytes written, 2 + the sum over the parameters of (length + 1), leaves `errno`
alone, and the buffer then starts with the opcode as two bytes, high byte first, followed
by each parameter and one NUL byte, in the order given, the rest of the buffer being
untouched; with no parameter list it writes only the opcode and returns 2. For the
parameters filename and mode the bytes are opcode(2), filename, 0, mode, 0. -/
theorem tftp_prepare_header_layout (le : Bool) (header : List Nat) (limit opcode : Nat)
    (ps : List (List Nat)) (errno : Int)
    (hfit : 2 + (ps.map (fun p => p.length + 1)).sum ≤ limit) :
    tftp_prepare_header le header limit opcode (some ps) errno
      = ⟨((2 + (ps.map (fun p => p.length + 1)).sum : Nat) : Int), errno,
          [(opcode / 256) % 256, opcode % 256] ++ encode_fields ps
            ++ header.drop (2 + (ps.map (fun p => p.length + 1)).sum)⟩ ∧
    tftp_prepare_header le header limit opcode none errno
      = ⟨2, errno, [(opcode / 256) % 256, opcode % 256] ++ header.drop 2⟩ ∧
    (∀ filename mode : List Nat,
      encode_fields [filename, mode] = filename ++ [0] ++ mode ++ [0]) := by
  rw [← encode_fields_length] at hfit ⊢
  refine ⟨prepare_header_fits le header limit opcode ps errno hfit, ?_, ?_⟩
  · unfold tftp_prepare_header
    rw [if_neg (by omega), ushort_bytes_htons, memcpy_zero]
    rfl
  · intro filename mode
    simp [encode_fields]

/-- C14 at a write request for the file "f" in mode "octet", in a buffer of 16 bytes. -/
theorem tftp_prepare_header_layout_witness :
    2 + (([[102], cstr "octet"] : List (List Nat)).map (fun p => p.length + 1)).sum ≤ 16 ∧
    tftp_prepare_header true (local_buffer 16) 16 TFTP_OPCODE_WRQ
        (some [[102], cstr "octet"]) 0
      = ⟨10, 0, [0, 2, 102, 0, 111, 99, 116, 101, 116, 0, 0, 0, 0, 0, 0, 0]⟩ :=
  ⟨by decide,
   (tftp_prepare_header_layout true (local_buffer 16) 16 TFTP_OPCODE_WRQ
      [[102], cstr "octet"] 0 (by decide)).1⟩

/-- C10: for every opcode below 65536 and every filename and mode without NUL byte, each
shorter than 256 bytes, whose encoding fits the limit, `tftp_prepare_header` on the
parameters filename and mode succeeds, `tfp_load_ushort_ns` on the buffer gives back the
opcode, and `tftp_params_split` on the bytes after the opcode, with the returned length
minus 2 as length, returns 2 and stores exactly filename and mode, in that order. -/
theorem codec_round_trip (le : Bool) (header : List Nat) (limit opcode : Nat)
    (filename mode : List Nat) (errno errno2 : Int)
    (hop : opcode < 65536) (hf : nul_free filename) (hm : nul_free mode)
    (hfl : filename.length < TFTP_PARAMS_STRLIMIT) (hml : mode.length < TFTP_PARAMS_STRLIMIT)
    (hfit : 2 + (filename.length + 1) + (mode.length + 1) ≤ limit) :
    (tftp_prepare_header le header limit opcode (some [filename, mode]) errno).ret
      = ((2 + (filename.length + 1) + (mode.length + 1) : Nat) : Int) ∧
    tfp_load_ushort_ns le
      (tftp_prepare_header le header limit opcode (some [filename, mode]) errno).header
      = opcode ∧
    tftp_params_split
      ((tftp_prepare_header le header limit opcode (some [filename, mode]) errno).header.drop 2)
      ((tftp_prepare_header le header limit opcode (some [filename, mode]) errno).ret.toNat - 2)
      TFTP_PARAMS_NLIMIT TFTP_PARAMS_STRLIMIT errno2
      = ⟨2, errno2, [filename, mode]⟩ := by
  have hlen : (encode_fields [filename, mode]).length
      = (filename.length + 1) + (mode.length + 1) := by
    simp [encode_fields]
    omega
  have h := prepare_header_fits le header limit opcode [filename, mode] errno
    (by rw [hlen]; omega)
  rw [h]
  refine ⟨?_, ?_, ?_⟩
  · show ((2 + (encode_fields [filename, mode]).length : Nat) : Int) = _
    rw [hlen]
    congr 1
    omega
  · show tfp_load_ushort_ns le ([(opcode / 256) % 256, opcode % 256]
      ++ encode_fields [filename, mode] ++ _) = opcode
    rw [List.append_assoc, List.cons_append, List.cons_append, List.nil_append,
      tfp_load_ushort_ns_cons le _ _ _ (Nat.mod_lt _ (by norm_num)) (Nat.mod_lt _ (by norm_num))]
    omega
  · show tftp_params_split (([(opcode / 256) % 256, opcode % 256]
        ++ encode_fields [filename, mode] ++ _).drop 2)
      (((2 + (encode_fields [filename, mode]).length : Nat) : Int).toNat - 2) _ _ _ = _
    rw [List.append_assoc, List.cons_append, List.cons_append, List.nil_append,
      List.drop_succ_cons, List.drop_succ_cons, List.drop_zero, Int.toNat_ofNat,
      Nat.add_sub_cancel_left]
    rw [split_fields TFTP_PARAMS_NLIMIT TFTP_PARAMS_STRLIMIT errno2 [filename, mode] _
      (by simp) (by
        intro f hmem
        rcases List.mem_cons.1 hmem with rfl | hmem
        · exact hf
        · rcases List.mem_cons.1 hmem with rfl | hmem
          · exact hm
          · simp at hmem)]
    rw [if_pos ⟨by simp [TFTP_PARAMS_NLIMIT], by
        intro f hmem
        rcases List.mem_cons.1 hmem with rfl | hmem
        · exact hfl
        · rcases List.mem_cons.1 hmem with rfl | hmem
          · exact hml
          · simp at hmem⟩]
    rfl

/-- C10 at the read request for "f" in mode "octet", on a little-endian host. -/
theorem codec_round_trip_witness :
    (tftp_prepare_header true (local_buffer 16) 16 TFTP_OPCODE_RRQ
      (some [[102], cstr "octet"]) 0).ret = 10 ∧
    tfp_load_ushort_ns true (tftp_prepare_header true (local_buffer 16) 16 TFTP_OPCODE_RRQ
      (some [[102], cstr "octet"]) 0).header = TFTP_OPCODE_RRQ ∧
    tftp_params_split
      ((tftp_prepare_header true (local_buffer 16) 16 TFTP_OPCODE_RRQ
        (some [[102], cstr "octet"]) 0).header.drop 2)
      ((tftp_prepare_header true (local_buffer 16) 16 TFTP_OPCODE_RRQ
        (some [[102], cstr "octet"]) 0).ret.toNat - 2)
      TFTP_PARAMS_NLIMIT TFTP_PARAMS_STRLIMIT 5
      = ⟨2, 5, [[102], cstr "octet"]⟩ :=
  codec_round_trip true (local_buffer 16) 16 TFTP_OPCODE_RRQ [102] (cstr "octet") 0 5
    (by decide) (by decide) (by decide) (by decide) (by decide) (by decide)
/-- C12: for every payload `P` whose last byte is NUL, that holds at most 16 fields, all
shorter than 256 bytes, `tftp_params_split` on the `P.length` bytes at the front of any
buffer returns the number of NUL bytes of `P`, which is at least 1, leaves `errno` alone and
stores the fields of `P` in order: the byte strings without NUL (possibly empty) which, each
followed by a NUL, make up `P`. No call of `tftp_params_split` returns 0, so that in the
handlers the test `nparams == 0` behind `nparams < 0` never holds. -/
theorem tftp_params_split_fields (errno : Int) (P rest : List Nat)
    (hP : P.getLast? = some 0) (hn : (payload_fields P).length ≤ 16)
    (hs : ∀ f ∈ payload_fields P, f.length < 256) :
    tftp_params_split (P ++ rest) P.length TFTP_PARAMS_NLIMIT TFTP_PARAMS_STRLIMIT errno
      = ⟨(P.count 0 : Int), errno, payload_fields P⟩ ∧
    1 ≤ P.count 0 ∧
    (payload_fields P).length = P.count 0 ∧
    encode_fields (payload_fields P) = P ∧
    (∀ f ∈ payload_fields P, nul_free f) ∧
    (∀ (h : List Nat) (l : Nat) (e : Int),
      (tftp_params_split h l TFTP_PARAMS_NLIMIT TFTP_PARAMS_STRLIMIT e).ret ≠ 0) ∧
    (∀ (request : List Nat) (len : Nat) (e : Int),
      ¬ (¬ to_ssize (to_size (request_params request len e).ret) < 0 ∧
          to_size (request_params request len e).ret = 0)) := by
  obtain ⟨h1, h2, h3, h4⟩ := payload_fields_spec P hP
  have hsp := split_payload TFTP_PARAMS_NLIMIT TFTP_PARAMS_STRLIMIT errno P rest hP
  rw [if_pos ⟨hn, hs⟩, h3] at hsp
  refine ⟨hsp, ?_, h3, h1, h2, ?_, ?_⟩
  · rw [← h3]
    cases hp : payload_fields P with
    | nil => exact absurd hp h4
    | cons f fs => simp
  · intro h l e
    rcases split_ret h l TFTP_PARAMS_NLIMIT TFTP_PARAMS_STRLIMIT e with hr | ⟨hr, _⟩
    · rw [hr]; decide
    · omega
  · intro request len e hc
    by_cases hr : (request_params request len e).ret = -1
    · rw [hr, to_ssize_to_size_neg_one] at hc
      exact hc.1 (by decide)
    · exact (request_params_count request len e hr).2.1 hc.2

/-- C12 at the payload of the fields "f", "" and "octet": three NUL bytes, three fields, the
second one empty. -/
theorem tftp_params_split_fields_witness :
    tftp_params_split ([102, 0, 0, 111, 99, 116, 101, 116, 0] ++ [1, 2, 3]) 9
        TFTP_PARAMS_NLIMIT TFTP_PARAMS_STRLIMIT 0
      = ⟨3, 0, [[102], [], [111, 99, 116, 101, 116]]⟩ :=
  (tftp_params_split_fields 0 [102, 0, 0, 111, 99, 116, 101, 116, 0] [1, 2, 3]
    (by decide) (by decide) (by decide)).1
/-- The encoder when the first parameter already does not fit: only the opcode has been
written. -/
theorem prepare_header_first_overflow (le : Bool) (header : List Nat) (limit opcode : Nat)
    (p : List Nat) (ps : List (List Nat)) (errno : Int)
    (h2 : 2 ≤ limit) (h : limit ≤ 2 + p.length) :
    tftp_prepare_header le header limit opcode (some (p :: ps)) errno
      = ⟨ENOBUFS, errno, [(opcode / 256) % 256, opcode % 256] ++ header.drop 2⟩ := by
  unfold tftp_prepare_header
  rw [if_neg (by omega), ushort_bytes_htons, memcpy_zero]
  simp only [tftp_prepare_header_loop]
  rw [if_pos (by omega)]
  rfl

theorem to_size_enobufs : to_size ENOBUFS = 105 ∧ ¬ to_ssize 105 < 0 := by decide

/-- The client's upload of a file whose name has 4094 bytes or more, when the request is
sent and no reply comes: the request is the first 105 bytes of the buffer. -/
theorem put_file_long_name (le : Bool) (path : List Nat) (w : World) (fd n : Nat)
    (opens ss : List SysRes) (p : PollRes) (ps : List PollRes)
    (hopen : w.opens = SysRes.ok fd :: opens) (hlong : 4094 ≤ path.length)
    (hs : w.sends = SysRes.ok n :: ss) (hp : w.polls = p :: ps)
    (hready : 0 < p.status ∧ p.revents &&& POLLHUP = 0) (hrecv : w.recvs = []) :
    tftp_put_file le path w = (none, { w with
      opens := opens, sends := ss, polls := ps,
      trace := w.trace ++ [Effect.open_call path false,
        Effect.sent ([0, 2] ++ List.replicate 103 0) w.saddr, Effect.polled] }) := by
  obtain ⟨ef, sa, er, op, rd, wr, sd, pl, rc, tr⟩ := w
  simp only at hopen hs hp hrecv
  subst hopen hs hp hrecv
  unfold tftp_put_file
  simp only [sys_open, World.emit]
  rw [if_neg (by omega)]
  rw [prepare_header_first_overflow le _ 4096 _ path _ _ (by omega) (by omega)]
  simp only [to_size_enobufs.1]
  rw [if_neg to_size_enobufs.2]
  rw [sendto_autoretry_ready _ 105 _ n ss p ps rfl rfl hready]
  have ht : List.take 105 ([TFTP_OPCODE_WRQ / 256 % 256, TFTP_OPCODE_WRQ % 256]
      ++ List.drop 2 (local_buffer 4096)) = [0, 2] ++ List.replicate 103 0 := by
    show List.take (103 + 1 + 1) (0 :: 2 :: List.drop 2 (List.replicate 4096 0)) = _
    rw [List.drop_replicate, List.take_succ_cons, List.take_succ_cons, List.take_replicate]
    rfl
  simp only [ht]
  rw [if_neg (by omega)]
  simp only [recvfrom, List.append_assoc, List.singleton_append]
/-- C13 (the code at the failing input): whatever the arguments, the return value of
`tftp_prepare_header` on a parameter list is -1 when the limit is below 2, the encoded
length when it fits the limit, and otherwise `ENOBUFS`, the positive number 105: not a
negative value. For the opcode RRQ, the one parameter "a" and the limit 3 (encoded length 4)
the call returns 105 and leaves `errno` alone. `tftp_put_file` on a file name of 4094 bytes
(encoded length 4103, limit 4096) takes the 105 for the length of the request: it sends the
first 105 bytes of its buffer, the opcode WRQ followed by 103 bytes the encoder has not
written, and goes on to wait for the reply. -/
theorem prepare_header_overflow_is_positive :
    (∀ (le : Bool) (header : List Nat) (limit opcode : Nat) (ps : List (List Nat))
        (errno : Int),
      (tftp_prepare_header le header limit opcode (some ps) errno).ret
        = if limit < 2 then -1
          else if 2 + (encode_fields ps).length ≤ limit then
            ((2 + (encode_fields ps).length : Nat) : Int)
          else 105) ∧
    tftp_prepare_header true (local_buffer 8) 3 TFTP_OPCODE_RRQ (some [[97]]) 0
      = ⟨105, 0, [0, 1, 0, 0, 0, 0, 0, 0]⟩ ∧
    ¬ (tftp_prepare_header true (local_buffer 8) 3 TFTP_OPCODE_RRQ (some [[97]]) 0).ret < 0 ∧
    tftp_put_file true (sample_file 4094)
        { idle_world with
          opens := [SysRes.ok 3], sends := [SysRes.ok 105], polls := [⟨1, 1, 0⟩] }
      = (none, { idle_world with
          trace := [Effect.open_call (sample_file 4094) false,
            Effect.sent ([0, 2] ++ List.replicate 103 0) 0, Effect.polled] }) := by
  refine ⟨?_, by decide, by decide, ?_⟩
  · intro le header limit opcode ps errno
    exact prepare_header_ret le header limit opcode ps errno
  · exact put_file_long_name true (sample_file 4094)
      { idle_world with
        opens := [SysRes.ok 3], sends := [SysRes.ok 105], polls := [⟨1, 1, 0⟩] }
      3 105 [] [] ⟨1, 1, 0⟩ [] rfl (by rw [sample_file_length]) rfl rfl (by decide) rfl

/-! ## The transfer mode of a request -/

/-- C15 (the code at the failing input): `tftp_parse_transfer_mode` returns octet (1) for
"octet" in any letter case, netascii (0) for "netascii" in any letter case, and -1 for any
other string. Without a mode parameter both handlers go on to open the file, and so they do
for the modes "OCTET" and "Octet". The write handler returns `EINVAL` for the mode
"netascii", without opening a file or sending a packet. The read handler, which rejects only
a mode that does not parse, accepts the mode "netascii" (and "NetAscii"): the read request
for "f" in mode "netascii" opens the file and sends its two bytes in an octet DATA packet;
for the mode "mail" it returns `EINVAL` without opening a file or sending a packet. -/
theorem rrq_accepts_netascii :
    (∀ mode : List Nat,
      tftp_parse_transfer_mode mode
        = if mode.map tolower = cstr "octet" then 1
          else if mode.map tolower = cstr "netascii" then 0
          else -1) ∧
    tftp_handle_rrq true (request_dgram 1 ["f", "netascii"]) 13
        { idle_world with
          opens := [SysRes.ok 3], reads := file_reads 2 [104, 105], recvs := acks_from 9 1 1,
          sends := [SysRes.ok 6], polls := [⟨1, 1, 0⟩] }
      = (some 0, { idle_world with
          saddr := 9,
          trace := [Effect.open_call (cstr "f") false, Effect.fread,
            Effect.sent (data_dgram 1 [104, 105]) 0, Effect.polled, Effect.received,
            Effect.fread, Effect.closed] }) ∧
    (tftp_handle_rrq true (request_dgram 1 ["f", "NetAscii"]) 13
        { idle_world with opens := [SysRes.ok 3] }).2.trace
      = [Effect.open_call (cstr "f") false] ∧
    tftp_handle_wrq true (request_dgram 2 ["f", "netascii"]) 13
        { idle_world with opens := [SysRes.ok 3], sends := [SysRes.ok 4] }
      = (some EINVAL, { idle_world with opens := [SysRes.ok 3], sends := [SysRes.ok 4] }) ∧
    tftp_handle_rrq true (request_dgram 1 ["f", "mail"]) 9
        { idle_world with opens := [SysRes.ok 3], sends := [SysRes.ok 4] }
      = (some EINVAL, { idle_world with opens := [SysRes.ok 3], sends := [SysRes.ok 4] }) ∧
    (tftp_handle_rrq true (request_dgram 1 ["f"]) 4
        { idle_world with opens := [SysRes.ok 3] }).2.trace
      = [Effect.open_call (cstr "f") false] ∧
    (tftp_handle_wrq true (request_dgram 2 ["f"]) 4
        { idle_world with opens := [SysRes.ok 3] }).2.trace
      = [Effect.open_call (cstr "f") true] ∧
    (tftp_handle_rrq true (request_dgram 1 ["f", "OCTET"]) 10
        { idle_world with opens := [SysRes.ok 3] }).2.trace
      = [Effect.open_call (cstr "f") false] ∧
    (tftp_handle_wrq true (request_dgram 2 ["f", "Octet"]) 10
        { idle_world with opens := [SysRes.ok 3] }).2.trace
      = [Effect.open_call (cstr "f") true] := by
  refine ⟨?_, by decide, by decide, by decide, by decide, by decide, by decide, by decide,
    by decide⟩
  intro mode
  unfold tftp_parse_transfer_mode strcmp_eq TFTP_TRANSFER_MODE_OCTET TFTP_TRANSFER_MODE_NETASCII
  simp only [beq_iff_eq]

/-! ## The ERROR packet for a status -/

theorem errmsg_short (code : Nat) : (tftp_get_errmsg code).length < 256 := by
  unfold tftp_get_errmsg
  split_ifs <;> decide

/-- A call of `tftp_send_error_packet` whose `sendto` succeeds sends the ERROR packet of the
code, with its standard message, to the session's peer. -/
theorem send_error_packet_ok (le : Bool) (code : Nat) (w : World) (n : Nat)
    (ss : List SysRes) (hs : w.sends = SysRes.ok n :: ss) :
    tftp_send_error_packet le code w = (some 0, { w with
      sends := ss, trace := w.trace ++ [Effect.sent (error_dgram code) w.saddr] }) := by
  have hlen := errmsg_short code
  unfold tftp_send_error_packet
  simp only
  rw [if_neg (by omega), hs]
  simp only [ushort_bytes_htons, World.emit, TFTP_OPCODE_ERROR]
  have h2 : ([5 / 256 % 256, 5 % 256] ++ [code / 256 % 256, code % 256] ++ tftp_get_errmsg code
      ++ [0]) = error_dgram code := by
    unfold error_dgram
    rfl
  rw [h2, List.take_of_length_le (by simp [error_dgram]; omega)]

/-- What the service loop does with a non-zero status when the `sendto` succeeds. -/
theorem main_report_nonzero (le : Bool) (status : Int) (w : World) (n : Nat)
    (ss : List SysRes) (h0 : status ≠ 0) (hs : w.sends = SysRes.ok n :: ss) :
    main_report le status w = (some (), { w with
      sends := ss,
      trace := w.trace ++ [Effect.sent (error_dgram (main_error_code status)) w.saddr] }) := by
  unfold main_report
  rw [if_neg h0, send_error_packet_ok le _ w n ss hs]

/-- C17: the code of the ERROR packet for a status, for every status: `EINVAL` gives
ILLEGAL_OPERATION (4), `EPERM` and `EACCES` give ACCESS_VIOLATION (2), `EDQUOT` gives
DISK_FULL (3), every other status, `ENOENT` and `ENOSPC` among them, gives NOT_DEFINED (0).
For the status 0 the service loop sends nothing; for any other status, when the `sendto`
succeeds, it sends the one ERROR packet of that code to the session's peer. -/
theorem main_error_code_total (status : Int) :
    main_error_code status
      = (if status = 22 then 4
         else if status = 1 ∨ status = 13 then 2
         else if status = 122 then 3
         else 0) ∧
    main_error_code EINVAL = TFTP_ERROR_ILLEGAL_OPERATION ∧
    main_error_code EPERM = TFTP_ERROR_ACCESS_VIOLATION ∧
    main_error_code EACCES = TFTP_ERROR_ACCESS_VIOLATION ∧
    main_error_code EDQUOT = TFTP_ERROR_DISK_FULL ∧
    main_error_code ENOENT = TFTP_ERROR_NOT_DEFINED ∧
    main_error_code ENOSPC = TFTP_ERROR_NOT_DEFINED ∧
    (TFTP_ERROR_ILLEGAL_OPERATION = 4 ∧ TFTP_ERROR_ACCESS_VIOLATION = 2 ∧
      TFTP_ERROR_DISK_FULL = 3 ∧ TFTP_ERROR_NOT_DEFINED = 0) ∧
    (∀ (le : Bool) (w : World), main_report le 0 w = (some (), w)) ∧
    (∀ (le : Bool) (w : World) (n : Nat) (ss : List SysRes),
      status ≠ 0 → w.sends = SysRes.ok n :: ss →
      main_report le status w = (some (), { w with
        sends := ss,
        trace := w.trace
          ++ [Effect.sent (error_dgram (main_error_code status)) w.saddr] })) := by
  refine ⟨rfl, by decide, by decide, by decide, by decide, by decide, by decide,
    ⟨rfl, rfl, rfl, rfl⟩, ?_, ?_⟩
  · intro le w
    unfold main_report
    rw [if_pos rfl]
  · intro le w n ss h0 hs
    exact main_report_nonzero le status w n ss h0 hs

/-- C17 at the status `ENOENT` of a read request for a missing file: the peer at address 7
gets the ERROR packet of code 0. -/
theorem main_error_code_total_witness :
    main_report true ENOENT { idle_world with saddr := 7, sends := [SysRes.ok 45] }
      = (some (), { idle_world with
          saddr := 7,
          trace := [Effect.sent
            ([0, 5, 0, 0] ++ cstr "Not defined, see error message (if any)." ++ [0]) 7] }) :=
  (main_error_code_total ENOENT).2.2.2.2.2.2.2.2.2 true
    { idle_world with saddr := 7, sends := [SysRes.ok 45] } 45 [] (by decide) rfl

/-! ## The dispatcher -/

/-- C16: `tftp_handle_operation` on a received datagram `d` of at most 4096 bytes from the
address `src`. With less than 2 bytes it returns `EMSGSIZE`, and the opcode is not looked at.
With 2 bytes or more: the opcode 1 leads to `tftp_handle_rrq` and the opcode 2 to
`tftp_handle_wrq`, on the datagram in the buffer; any other opcode gives `EINVAL` with
nothing else done, and the service loop then sends, when its `sendto` succeeds, the ERROR
packet of code ILLEGAL_OPERATION (4) to `src`, no file having been opened. -/
theorem dispatcher_routes_by_opcode (le : Bool) (buffer : List Nat) (w : World)
    (d : List Nat) (src : Nat) (rest : List RecvRes)
    (hr : w.recvs = RecvRes.ok d src :: rest) (hd : d.length ≤ 4096) :
    (d.length < 2 →
      tftp_handle_operation le buffer w = (some EMSGSIZE, w.after_recv rest src)) ∧
    (2 ≤ d.length → tfp_load_ushort_ns le d = 1 →
      tftp_handle_operation le buffer w
        = tftp_handle_rrq le (memcpy buffer 0 d) d.length (w.after_recv rest src)) ∧
    (2 ≤ d.length → tfp_load_ushort_ns le d = 2 →
      tftp_handle_operation le buffer w
        = tftp_handle_wrq le (memcpy buffer 0 d) d.length (w.after_recv rest src)) ∧
    (2 ≤ d.length → tfp_load_ushort_ns le d ≠ 1 → tfp_load_ushort_ns le d ≠ 2 →
      tftp_handle_operation le buffer w = (some EINVAL, w.after_recv rest src) ∧
      ∀ (n : Nat) (ss : List SysRes), w.sends = SysRes.ok n :: ss →
        main_iteration le buffer w = (some EINVAL, { w with
          recvs := rest, saddr := src, sends := ss,
          trace := w.trace ++ [Effect.received,
            Effect.sent (error_dgram TFTP_ERROR_ILLEGAL_OPERATION) src] }) ∧
        open_calls (main_iteration le buffer w).2.trace = open_calls w.trace) := by
  have htake : d.take 4096 = d := List.take_of_length_le hd
  obtain ⟨hs1, hs2⟩ := to_size_length d.length (by omega)
  have hrecv : recvfrom buffer 4096 w
      = some ((d.length : Int), memcpy buffer 0 d, w.after_recv rest src) :=
    recvfrom_ok buffer 4096 w d src rest hr hd
  have hunfold : tftp_handle_operation le buffer w
      = if tftp_packet_check_length 2 d.length = 0 then
          (some EMSGSIZE, w.after_recv rest src)
        else if tfp_load_ushort_ns le (memcpy buffer 0 d) = TFTP_OPCODE_WRQ then
          tftp_handle_wrq le (memcpy buffer 0 d) d.length (w.after_recv rest src)
        else if tfp_load_ushort_ns le (memcpy buffer 0 d) = TFTP_OPCODE_RRQ then
          tftp_handle_rrq le (memcpy buffer 0 d) d.length (w.after_recv rest src)
        else (some EINVAL, w.after_recv rest src) := by
    unfold tftp_handle_operation
    rw [hrecv]
    simp only [hs1, hs2, if_false]
  refine ⟨?_, ?_, ?_, ?_⟩
  · intro h
    rw [hunfold, if_pos (by unfold tftp_packet_check_length; rw [if_pos h])]
  · intro h ho
    rw [hunfold, if_neg (by unfold tftp_packet_check_length; rw [if_neg (by omega)]; decide),
      load_opcode_memcpy le buffer d h, ho, if_neg (by decide), if_pos (by decide)]
  · intro h ho
    rw [hunfold, if_neg (by unfold tftp_packet_check_length; rw [if_neg (by omega)]; decide),
      load_opcode_memcpy le buffer d h, ho, if_pos (by decide)]
  · intro h h1 h2
    have hop : tftp_handle_operation le buffer w = (some EINVAL, w.after_recv rest src) := by
      rw [hunfold,
        if_neg (by unfold tftp_packet_check_length; rw [if_neg (by omega)]; decide),
        load_opcode_memcpy le buffer d h, if_neg (by exact h2), if_neg (by exact h1)]
    refine ⟨hop, ?_⟩
    intro n ss hs
    have hit : main_iteration le buffer w = (some EINVAL, { w with
        recvs := rest, saddr := src, sends := ss,
        trace := w.trace ++ [Effect.received,
          Effect.sent (error_dgram TFTP_ERROR_ILLEGAL_OPERATION) src] }) := by
      unfold main_iteration
      rw [hop]
      simp only
      rw [main_report_nonzero le EINVAL (w.after_recv rest src) n ss (by decide)
        (by simpa [World.after_recv] using hs)]
      simp [World.after_recv]
      rfl
    refine ⟨hit, ?_⟩
    rw [hit]
    simp [open_calls_append, open_calls]
/-- C16 at a datagram of three bytes with the opcode 9 from the address 7. -/
theorem dispatcher_routes_by_opcode_witness :
    main_iteration true (local_buffer 4096)
        { idle_world with recvs := [RecvRes.ok [0, 9, 1] 7], sends := [SysRes.ok 28] }
      = (some EINVAL, { idle_world with
          saddr := 7,
          trace := [Effect.received,
            Effect.sent (error_dgram TFTP_ERROR_ILLEGAL_OPERATION) 7] }) :=
  (((dispatcher_routes_by_opcode true (local_buffer 4096)
      { idle_world with recvs := [RecvRes.ok [0, 9, 1] 7], sends := [SysRes.ok 28] }
      [0, 9, 1] 7 [] rfl (by decide)).2.2.2 (by decide) (by decide) (by decide)).2
    28 [] rfl).1

/-! ## Undersized datagrams -/

/-- A datagram of less than 4 bytes ends the body of the receiver loops with the value of
`errno`, which no statement of the body has set. -/
theorem wrq_body_short (le : Bool) (block : Nat) (buffer : List Nat) (w : World)
    (d : List Nat) (src : Nat) (rest : List RecvRes)
    (hr : w.recvs = RecvRes.ok d src :: rest) (h4 : d.length < 4) :
    tftp_handle_wrq_body le block buffer w
      = (LoopStep.ret w.errno, memcpy buffer 0 d, (w.after_recv rest src).close) := by
  obtain ⟨hs1, hs2⟩ := to_size_length d.length (by omega)
  have hl : tftp_packet_check_length 4 d.length = 0 := by
    unfold tftp_packet_check_length
    rw [if_pos h4]
  unfold tftp_handle_wrq_body
  rw [recvfrom_ok buffer 65536 w d src rest hr (by omega)]
  simp only [hs1, hs2, hl, if_false, if_true, World.after_recv]

/-- Both receiver loops on a datagram of less than 4 bytes: the file is closed and the
result is the value `errno` had before, zero included. -/
theorem receiver_short_returns_errno (le : Bool) (fuel block : Nat) (buffer : List Nat)
    (w : World) (d : List Nat) (src : Nat) (rest : List RecvRes)
    (hr : w.recvs = RecvRes.ok d src :: rest) (h4 : d.length < 4) :
    tftp_handle_wrq_loop le (fuel + 1) block buffer w
      = (some w.errno, (w.after_recv rest src).close) ∧
    tftp_get_file_loop le (fuel + 1) block buffer w
      = (some w.errno, (w.after_recv rest src).close) := by
  have h : tftp_handle_wrq_loop le (fuel + 1) block buffer w
      = (some w.errno, (w.after_recv rest src).close) := by
    rw [tftp_handle_wrq_loop, wrq_body_short le block buffer w d src rest hr h4]
  refine ⟨h, ?_⟩
  rw [get_file_loop_eq]
  exact h

/-- C20 (the code at the failing input): a Receiver that takes the 3-byte datagram 00 03 00
while `errno` is 0 closes the file and returns 0, the result of a successful transfer, in
both receiver loops; with `errno` at 11 it returns 11. The whole write handler, entered on a
write request for "f" and then given the 3-byte datagram, returns 0 and the service loop
sends no ERROR packet; `tftp_get_file` returns 0 as well. Both sender loops return `EMSGSIZE`
on a 3-byte reply. -/
theorem short_datagram_is_success_for_receiver :
    tftp_handle_wrq_loop true 2 1 (local_buffer 65536)
        { idle_world with recvs := [RecvRes.ok [0, 3, 0] 9] }
      = (some 0, { idle_world with saddr := 9, trace := [Effect.received, Effect.closed] }) ∧
    tftp_get_file_loop true 2 1 (local_buffer 65536)
        { idle_world with recvs := [RecvRes.ok [0, 3, 0] 9] }
      = (some 0, { idle_world with saddr := 9, trace := [Effect.received, Effect.closed] }) ∧
    (tftp_handle_wrq_loop true 2 1 (local_buffer 65536)
        { idle_world with errno := 11, recvs := [RecvRes.ok [0, 3, 0] 9] }).1 = some 11 ∧
    main_iteration true (local_buffer 4096)
        { idle_world with
          recvs := [RecvRes.ok (request_dgram 2 ["f", "octet"]) 9, RecvRes.ok [0, 3, 0] 9],
          opens := [SysRes.ok 3], sends := [SysRes.ok 4, SysRes.ok 30] }
      = (some 0, { idle_world with
          saddr := 9, sends := [SysRes.ok 30],
          trace := [Effect.received, Effect.open_call (cstr "f") true,
            Effect.sent (ack_dgram 0) 9, Effect.received, Effect.closed] }) ∧
    (tftp_get_file true (cstr "f")
        { idle_world with
          opens := [SysRes.ok 3], sends := [SysRes.ok 10], polls := [⟨1, 1, 0⟩],
          recvs := [RecvRes.ok [0, 3, 0] 9] }).1 = some 0 ∧
    (tftp_handle_rrq_loop true 2 1 0 (local_buffer 4096)
        { idle_world with
          reads := file_reads 2 [104, 105], sends := [SysRes.ok 6], polls := [⟨1, 1, 0⟩],
          recvs := [RecvRes.ok [0, 4, 0] 9] }).1 = some EMSGSIZE ∧
    (tftp_put_file_loop true 2 0 0 (local_buffer 4096)
        { idle_world with
          reads := file_reads 2 [104, 105], sends := [SysRes.ok 6], polls := [⟨1, 1, 0⟩],
          recvs := [RecvRes.ok [0, 4, 0] 9] }).1 = some EMSGSIZE ∧
    EMSGSIZE ≠ 0 := by
  refine ⟨by decide, by decide, by decide, by decide, by decide, by decide, by decide,
    by decide⟩
/-! ## Sender role: the reply to a DATA packet -/

/-- One pass of the `for` loop of `tftp_handle_rrq` when the read returns `data` and the
packet is sent at once: what follows is the wait at `recv_ack`. -/
theorem rrq_loop_sent (le : Bool) (fuel block lastread : Nat) (buffer : List Nat) (w : World)
    (data : List Nat) (rs : List ReadRes) (n : Nat) (ss : List SysRes) (p : PollRes)
    (ps : List PollRes)
    (hreads : w.reads = ReadRes.ok data :: rs) (hdl : data.length ≤ TFTP_BLOCKSIZE)
    (hgo : 0 < data.length ∨ lastread = TFTP_BLOCKSIZE)
    (hs : w.sends = SysRes.ok n :: ss) (hp : w.polls = p :: ps)
    (hready : 0 < p.status ∧ p.revents &&& POLLHUP = 0)
    (hb : 4 ≤ buffer.length) :
    tftp_handle_rrq_loop le (fuel + 1) block lastread buffer w
      = match recv_ack le block (w.recvs.length + 1) { w with
          reads := rs, sends := ss, polls := ps,
          trace := w.trace ++ [Effect.fread, Effect.sent (data_dgram block data) w.saddr,
            Effect.polled] } with
        | (AckStep.ret v, w1) => (some v, w1)
        | (AckStep.blocked, w1) => (none, w1)
        | (AckStep.acked, w1) =>
          tftp_handle_rrq_loop le fuel ((block + 1) % 65536) data.length
            (store_data_header le (memcpy buffer 4 data) block) w1 := by
  unfold TFTP_BLOCKSIZE at hdl hgo
  have htake : data.take 512 = data := List.take_of_length_le hdl
  obtain ⟨hs1, hs2⟩ := to_size_length data.length (by omega)
  have hpos : to_ssize data.length > 0 ∨ lastread = 512 := by
    rcases hgo with h | h
    · left; rw [to_ssize_small _ (by omega)]; omega
    · right; exact h
  have hmod : (4 + data.length) % SIZE_MAX1 = 4 + data.length :=
    Nat.mod_eq_of_lt (by unfold SIZE_MAX1; omega)
  obtain ⟨hd1, hd2⟩ := store_data_header_take le buffer data block hb
  obtain ⟨ef, sa, er, op, rd, wr, sd, pl, rc, tr⟩ := w
  simp only at hreads hs hp
  subst hreads hs hp
  have hsend := sendto_autoretry_ready (store_data_header le (memcpy buffer 4 data) block)
    (4 + data.length) ⟨ef, sa, er, op, rs, wr, SysRes.ok n :: ss, p :: ps,
      rc, tr ++ [Effect.fread]⟩ n ss p ps rfl rfl hready
  simp only [hd1] at hsend
  rw [tftp_handle_rrq_loop]
  simp only [sys_read, TFTP_BLOCKSIZE, htake, hs1, hpos, if_true, hmod, World.emit, hsend]
  rw [if_neg (by omega)]
  simp only [List.append_assoc, List.cons_append, List.nil_append]

/-- C18: in both sender loops, when a block `data` has been read and its DATA packet sent,
and the reply `d` has at least 4 bytes and an opcode other than ACK: the wait for the ACK
ends with `EINVAL` whatever block is awaited, so the reply acknowledges no block; the loop
returns `EINVAL` having closed the file, with the one DATA packet as the only packet sent,
no further read of the file and no further reply taken. -/
theorem sender_aborts_on_non_ack (le : Bool) (fuel block lastread : Nat) (buffer : List Nat)
    (w : World) (data : List Nat) (rs : List ReadRes) (n : Nat) (ss : List SysRes)
    (p : PollRes) (ps : List PollRes) (d : List Nat) (src : Nat) (rrest : List RecvRes)
    (hreads : w.reads = ReadRes.ok data :: rs) (hdl : data.length ≤ TFTP_BLOCKSIZE)
    (hgo : 0 < data.length ∨ lastread = TFTP_BLOCKSIZE)
    (hs : w.sends = SysRes.ok n :: ss) (hp : w.polls = p :: ps)
    (hready : 0 < p.status ∧ p.revents &&& POLLHUP = 0)
    (hb : 4 ≤ buffer.length)
    (hrecv : w.recvs = RecvRes.ok d src :: rrest) (h4 : 4 ≤ d.length)
    (hop : tfp_load_ushort_ns le d ≠ TFTP_OPCODE_ACK) :
    (∀ (b f : Nat) (w0 : World), w0.recvs = RecvRes.ok d src :: rrest →
      recv_ack le b (f + 1) w0 = (AckStep.ret EINVAL, (w0.after_recv rrest src).close)) ∧
    tftp_handle_rrq_loop le (fuel + 1) block lastread buffer w
      = (some EINVAL, { w with
          reads := rs, sends := ss, polls := ps, recvs := rrest, saddr := src,
          trace := w.trace ++ [Effect.fread, Effect.sent (data_dgram block data) w.saddr,
            Effect.polled, Effect.received, Effect.closed] }) ∧
    tftp_put_file_loop le (fuel + 1) block lastread buffer w
      = (some EINVAL, { w with
          reads := rs, sends := ss, polls := ps, recvs := rrest, saddr := src,
          trace := w.trace ++ [Effect.fread,
            Effect.sent (data_dgram ((block + 1) % 65536) data) w.saddr,
            Effect.polled, Effect.received, Effect.closed] }) ∧
    sent_dgrams (tftp_handle_rrq_loop le (fuel + 1) block lastread buffer w).2.trace
      = sent_dgrams w.trace ++ [data_dgram block data] ∧
    sent_dgrams (tftp_put_file_loop le (fuel + 1) block lastread buffer w).2.trace
      = sent_dgrams w.trace ++ [data_dgram ((block + 1) % 65536) data] := by
  have hack : ∀ (b f : Nat) (w0 : World), w0.recvs = RecvRes.ok d src :: rrest →
      recv_ack le b (f + 1) w0 = (AckStep.ret EINVAL, (w0.after_recv rrest src).close) := by
    intro b f w0 h0
    rw [recv_ack_step le b f w0 d src rrest h0 h4, if_pos hop]
  have hloop : ∀ blk : Nat, tftp_handle_rrq_loop le (fuel + 1) blk lastread buffer w
      = (some EINVAL, { w with
          reads := rs, sends := ss, polls := ps, recvs := rrest, saddr := src,
          trace := w.trace ++ [Effect.fread, Effect.sent (data_dgram blk data) w.saddr,
            Effect.polled, Effect.received, Effect.closed] }) := by
    intro blk
    rw [rrq_loop_sent le fuel blk lastread buffer w data rs n ss p ps hreads hdl hgo hs hp
      hready hb, hack blk w.recvs.length { w with
        reads := rs, sends := ss, polls := ps,
        trace := w.trace ++ [Effect.fread, Effect.sent (data_dgram blk data) w.saddr,
          Effect.polled] } hrecv]
    simp [World.after_recv, World.close, World.emit]
  have hput : tftp_put_file_loop le (fuel + 1) block lastread buffer w
      = (some EINVAL, { w with
          reads := rs, sends := ss, polls := ps, recvs := rrest, saddr := src,
          trace := w.trace ++ [Effect.fread,
            Effect.sent (data_dgram ((block + 1) % 65536) data) w.saddr,
            Effect.polled, Effect.received, Effect.closed] }) := by
    rw [put_file_loop_eq]
    exact hloop _
  refine ⟨hack, hloop block, hput, ?_, ?_⟩
  · rw [hloop block]
    simp [sent_dgrams_append, sent_dgrams]
  · rw [hput]
    simp [sent_dgrams_append, sent_dgrams]

/-- C18 at a file of two bytes whose first DATA packet is answered with an ERROR packet. -/
theorem sender_aborts_on_non_ack_witness :
    tftp_handle_rrq_loop true 3 1 0 (local_buffer 4096)
        { idle_world with
          reads := file_reads 2 [104, 105], sends := [SysRes.ok 6], polls := [⟨1, 1, 0⟩],
          recvs := [RecvRes.ok (error_dgram 3) 9] }
      = (some EINVAL, { idle_world with
          reads := [ReadRes.ok []], saddr := 9,
          trace := [Effect.fread, Effect.sent (data_dgram 1 [104, 105]) 0, Effect.polled,
            Effect.received, Effect.closed] }) :=
  (sender_aborts_on_non_ack true 2 1 0 (local_buffer 4096)
    { idle_world with
      reads := file_reads 2 [104, 105], sends := [SysRes.ok 6], polls := [⟨1, 1, 0⟩],
      recvs := [RecvRes.ok (error_dgram 3) 9] }
    [104, 105] [ReadRes.ok []] 6 [] ⟨1, 1, 0⟩ [] (error_dgram 3) 9 []
    rfl (by decide) (Or.inl (by decide)) rfl rfl (by decide)
    (by rw [local_buffer_length]; decide) rfl (by decide) (by decide)).2.1
/-! ## The datagrams a sender loop adds to the trace -/

/-- The datagrams `sendto_autoretry` puts on the trace: its argument, once per `sendto`
that succeeded; when there is none, the call has failed or is blocked. -/
theorem sendto_autoretry_go_sent (buf : List Nat) (dest : Nat) :
    ∀ (polls : List PollRes) (w : World),
      ∃ k : Nat,
        sent_dgrams (sendto_autoretry_go buf dest polls w).2.2.trace
          = sent_dgrams w.trace ++ List.replicate k buf ∧
        (k = 0 → (sendto_autoretry_go buf dest polls w).1 = none ∨
          (sendto_autoretry_go buf dest polls w).1 = some (-1)) := by
  intro polls
  induction polls with
  | nil =>
    intro w
    unfold sendto_autoretry_go
    split
    · exact ⟨0, by simp, fun _ => Or.inl rfl⟩
    · exact ⟨0, by simp, fun _ => Or.inr rfl⟩
    · exact ⟨1, by simp [sent_dgrams_emit], fun h => absurd h (by decide)⟩
  | cons p polls ih =>
    intro w
    unfold sendto_autoretry_go
    split
    · exact ⟨0, by simp, fun _ => Or.inl rfl⟩
    · exact ⟨0, by simp, fun _ => Or.inr rfl⟩
    · simp only
      split
      · exact ⟨1, by simp [sent_dgrams_emit], fun h => absurd h (by decide)⟩
      · split
        · exact ⟨1, by simp [sent_dgrams_emit], fun h => absurd h (by decide)⟩
        · split
          · rename_i n sends hsends _ _ _
            obtain ⟨k, hk, _⟩ := ih ((({ w with sends := sends }).emit
              (Effect.sent buf dest)).emit Effect.polled)
            refine ⟨k + 1, ?_, fun h => absurd h (by omega)⟩
            rw [hk]
            simp [sent_dgrams_emit, List.replicate_succ]
          · exact ⟨1, by simp [sent_dgrams_emit], fun h => absurd h (by decide)⟩

theorem sendto_autoretry_sent (buf : List Nat) (len : Nat) (w : World) :
    ∃ k : Nat,
      sent_dgrams (sendto_autoretry buf len w).2.trace
        = sent_dgrams w.trace ++ List.replicate k (buf.take len) ∧
      (k = 0 → (sendto_autoretry buf len w).1 = none ∨
        (sendto_autoretry buf len w).1 = some (-1)) := by
  unfold sendto_autoretry
  exact sendto_autoretry_go_sent _ _ _ _
theorem sys_read_cases (buffer : List Nat) (off count : Nat) (w : World) (r : Int)
    (b : List Nat) (w1 : World) (h : sys_read buffer off count w = some (r, b, w1)) :
    sent_dgrams w1.trace = sent_dgrams w.trace ∧
    (r = -1 ∨ ∃ data : List Nat, r = ((data.take count).length : Int) ∧
      b = memcpy buffer off (data.take count)) := by
  unfold sys_read at h
  split at h
  · simp at h
  · simp only [Option.some.injEq, Prod.mk.injEq] at h
    obtain ⟨rfl, _, rfl⟩ := h
    exact ⟨by simp [sent_dgrams_emit], Or.inl rfl⟩
  · rename_i data reads hreads
    simp only [Option.some.injEq, Prod.mk.injEq] at h
    obtain ⟨rfl, rfl, rfl⟩ := h
    exact ⟨by simp [sent_dgrams_emit], Or.inr ⟨data, rfl, rfl⟩⟩

/-- A sender loop only adds to the datagrams sent. -/
theorem rrq_loop_sent_mono (le : Bool) :
    ∀ (fuel block lastread : Nat) (buffer : List Nat) (w : World),
      ∃ more : List (List Nat),
        sent_dgrams (tftp_handle_rrq_loop le fuel block lastread buffer w).2.trace
          = sent_dgrams w.trace ++ more := by
  intro fuel
  induction fuel with
  | zero => intro block lastread buffer w; exact ⟨[], by simp [tftp_handle_rrq_loop]⟩
  | succ fuel ih =>
    intro block lastread buffer w
    unfold tftp_handle_rrq_loop
    split
    · exact ⟨[], by simp⟩
    · rename_i r b w1 h
      have h1 := (sys_read_cases _ _ _ _ _ _ _ h).1
      simp only
      split_ifs
      · obtain ⟨k, h2, _⟩ := sendto_autoretry_sent (store_data_header le b block)
          ((4 + to_size r) % SIZE_MAX1) w1
        split
        · rename_i w2 h3
          rw [h3] at h2
          exact ⟨_, by rw [h2, h1]⟩
        · rename_i s w2 h3
          rw [h3] at h2
          split_ifs
          · exact ⟨_, by
              show sent_dgrams w2.close.trace = _
              rw [sent_dgrams_close, h2, h1]⟩
          · have h4 := (recv_ack_frame le block (w2.recvs.length + 1) w2).2.2.2
            split
            · rename_i v w3 h5; rw [h5] at h4; exact ⟨_, by rw [h4, h2, h1]⟩
            · rename_i w3 h5; rw [h5] at h4; exact ⟨_, by rw [h4, h2, h1]⟩
            · rename_i w3 h5
              rw [h5] at h4
              obtain ⟨more, hm⟩ := ih ((block + 1) % 65536) (to_size r)
                (store_data_header le b block) w3
              exact ⟨_, by rw [hm, h4, h2, h1, List.append_assoc]⟩
      · exact ⟨[], by rw [sent_dgrams_close, h1, List.append_nil]⟩
      · exact ⟨[], by rw [sent_dgrams_close, h1, List.append_nil]⟩

/-- The first datagram a sender loop sends, when the loop is entered after a read that was
not a full block: a DATA packet with the block number the loop was entered with, carrying
between 1 and 512 bytes. -/
theorem rrq_loop_first_dgram (le : Bool) (fuel block lastread : Nat) (buffer : List Nat)
    (w : World) (hl : lastread ≠ TFTP_BLOCKSIZE) (hb : 4 ≤ buffer.length) :
    ∃ more : List (List Nat),
      sent_dgrams (tftp_handle_rrq_loop le fuel block lastread buffer w).2.trace
        = sent_dgrams w.trace ++ more ∧
      ∀ x, more.head? = some x →
        ∃ data : List Nat, 0 < data.length ∧ data.length ≤ TFTP_BLOCKSIZE ∧
          x = data_dgram block data := by
  cases fuel with
  | zero => exact ⟨[], by simp [tftp_handle_rrq_loop], by simp⟩
  | succ fuel =>
    unfold tftp_handle_rrq_loop
    split
    · exact ⟨[], by simp, by simp⟩
    · rename_i r b w1 h
      obtain ⟨h1, hr⟩ := sys_read_cases _ _ _ _ _ _ _ h
      simp only
      split_ifs with hgo hneg
      · have hpos : to_ssize (to_size r) > 0 := by
          rcases hgo with h | h
          · exact h
          · exact absurd h hl
        rcases hr with rfl | ⟨data, rfl, rfl⟩
        · rw [to_ssize_to_size_neg_one] at hpos
          omega
        · have hlen : (data.take TFTP_BLOCKSIZE).length ≤ 512 := by
            unfold TFTP_BLOCKSIZE
            simp only [List.length_take]
            omega
          obtain ⟨hs1, _⟩ := to_size_length (data.take TFTP_BLOCKSIZE).length (by omega)
          have hdpos : 0 < (data.take TFTP_BLOCKSIZE).length := by
            rw [hs1, to_ssize_small _ (by omega)] at hpos
            omega
          have hmod : (4 + (data.take TFTP_BLOCKSIZE).length) % SIZE_MAX1
              = 4 + (data.take TFTP_BLOCKSIZE).length :=
            Nat.mod_eq_of_lt (by unfold SIZE_MAX1; omega)
          obtain ⟨hd1, _⟩ := store_data_header_take le buffer (data.take TFTP_BLOCKSIZE)
            block hb
          have hfirst : ∀ (k : Nat) (more : List (List Nat)) (x : List Nat), k ≠ 0 →
              (List.replicate k (data_dgram block (data.take TFTP_BLOCKSIZE))
                ++ more).head? = some x →
              ∃ data : List Nat, 0 < data.length ∧ data.length ≤ TFTP_BLOCKSIZE ∧
                x = data_dgram block data := by
            intro k more x hk hx
            obtain ⟨k, rfl⟩ : ∃ j, k = j + 1 := ⟨k - 1, by omega⟩
            rw [List.replicate_succ, List.cons_append, List.head?_cons] at hx
            exact ⟨data.take TFTP_BLOCKSIZE, hdpos, hlen,
              (Option.some.inj hx).symm⟩
          have hnil : ∀ (k : Nat) (x : List Nat),
              (List.replicate k (data_dgram block (data.take TFTP_BLOCKSIZE))).head? = some x →
              ∃ data : List Nat, 0 < data.length ∧ data.length ≤ TFTP_BLOCKSIZE ∧
                x = data_dgram block data := by
            intro k x hx
            cases k with
            | zero => simp at hx
            | succ k =>
              have := hfirst (k + 1) [] x (by omega) (by rw [List.append_nil]; exact hx)
              exact this
          obtain ⟨k, h2, hk0⟩ := sendto_autoretry_sent
            (store_data_header le (memcpy buffer 4 (data.take TFTP_BLOCKSIZE)) block)
            ((4 + to_size ((data.take TFTP_BLOCKSIZE).length : Int)) % SIZE_MAX1) w1
          rw [hs1, hmod, hd1] at h2
          rw [hs1, hmod] at hk0
          rw [hs1, hmod]
          split
          · rename_i w2 h3
            rw [h3] at h2
            exact ⟨_, by rw [h2, h1], hnil k⟩
          · rename_i s w2 h3
            rw [h3] at h2 hk0
            split_ifs with hsneg
            · exact ⟨_, by
                show sent_dgrams w2.close.trace = _
                rw [sent_dgrams_close, h2, h1], hnil k⟩
            · have hk : k ≠ 0 := by
                intro hk
                rcases hk0 hk with h | h
                · simp at h
                · simp only [Option.some.injEq] at h
                  omega
              have h4 := (recv_ack_frame le block (w2.recvs.length + 1) w2).2.2.2
              split
              · rename_i v w3 h5; rw [h5] at h4; exact ⟨_, by rw [h4, h2, h1], hnil k⟩
              · rename_i w3 h5; rw [h5] at h4; exact ⟨_, by rw [h4, h2, h1], hnil k⟩
              · rename_i w3 h5
                rw [h5] at h4
                obtain ⟨more, hm⟩ := rrq_loop_sent_mono le fuel ((block + 1) % 65536)
                  (data.take TFTP_BLOCKSIZE).length
                  (store_data_header le (memcpy buffer 4 (data.take TFTP_BLOCKSIZE)) block) w3
                exact ⟨_, by rw [hm, h4, h2, h1, List.append_assoc], fun x hx => hfirst k more x hk hx⟩
      · exact ⟨[], by rw [sent_dgrams_close, h1, List.append_nil], by simp⟩
      · exact ⟨[], by rw [sent_dgrams_close, h1, List.append_nil], by simp⟩
/-! ## The client's upload: the reply to the write request -/

/-- The upload `tftp_put_file` of a file whose request fits the buffer, when the file opens,
the request is sent at once and the reply `d` comes from `src`: what the function does on
the reply. -/
theorem put_file_reply (le : Bool) (path : List Nat) (w : World) (fd n : Nat)
    (opens ss : List SysRes) (p : PollRes) (ps : List PollRes) (d : List Nat) (src : Nat)
    (rrest : List RecvRes)
    (hopen : w.opens = SysRes.ok fd :: opens) (hfit : path.length + 9 ≤ 4096)
    (hs : w.sends = SysRes.ok n :: ss) (hp : w.polls = p :: ps)
    (hready : 0 < p.status ∧ p.revents &&& POLLHUP = 0)
    (hrecv : w.recvs = RecvRes.ok d src :: rrest) :
    tftp_put_file le path w
      = if d.length < 4 then
          (some EMSGSIZE, (w.after_request path opens ss ps rrest src).close)
        else if tfp_load_ushort_ns le d ≠ TFTP_OPCODE_ACK then
          (some EINVAL, (w.after_request path opens ss ps rrest src).close)
        else if tfp_load_ushort_ns le (d.drop 2) ≠ 0 then
          (some EINVAL, (w.after_request path opens ss ps rrest src).close)
        else
          tftp_put_file_loop le (w.reads.length + 1) 0 0
            (memcpy (wrq_request path
              ++ (local_buffer 4096).drop (2 + (encode_fields [path, cstr "octet"]).length))
              0 (d.take 4096))
            (w.after_request path opens ss ps rrest src) := by
  have hlen : (encode_fields [path, cstr "octet"]).length = path.length + 7 := by
    simp [encode_fields, cstr]
  have hfits := prepare_header_fits le (local_buffer 4096) 4096 TFTP_OPCODE_WRQ
    [path, cstr "octet"] w.errno (by rw [hlen]; omega)
  have hop2 : [TFTP_OPCODE_WRQ / 256 % 256, TFTP_OPCODE_WRQ % 256] = [0, 2] := by decide
  rw [hop2] at hfits
  have hsz : to_size ((2 + (encode_fields [path, cstr "octet"]).length : Nat) : Int)
      = 2 + (encode_fields [path, cstr "octet"]).length :=
    to_size_natCast _ (by rw [hlen]; omega)
  have hss : ¬ to_ssize (2 + (encode_fields [path, cstr "octet"]).length) < 0 := by
    rw [to_ssize_small _ (by rw [hlen]; omega)]
    omega
  have htk : ([0, 2] ++ encode_fields [path, cstr "octet"]
      ++ (local_buffer 4096).drop (2 + (encode_fields [path, cstr "octet"]).length)).take
        (2 + (encode_fields [path, cstr "octet"]).length)
      = wrq_request path := by
    unfold wrq_request
    exact List.take_left' (by simp; omega)
  have hdl : (d.take 4096).length ≤ 4096 := by
    simp only [List.length_take]
    omega
  obtain ⟨hs1, hs2⟩ := to_size_length (d.take 4096).length (by omega)
  obtain ⟨ef, sa, er, op, rd, wr, sd, pl, rc, tr⟩ := w
  simp only at hopen hs hp hrecv hfits
  subst hopen hs hp hrecv
  have hsend := sendto_autoretry_ready
    ([0, 2] ++ encode_fields [path, cstr "octet"]
      ++ (local_buffer 4096).drop (2 + (encode_fields [path, cstr "octet"]).length))
    (2 + (encode_fields [path, cstr "octet"]).length)
    ⟨ef, sa, er, opens, rd, wr, SysRes.ok n :: ss, p :: ps, RecvRes.ok d src :: rrest,
      tr ++ [Effect.open_call path false]⟩ n ss p ps rfl rfl hready
  rw [htk] at hsend
  unfold tftp_put_file
  simp only [sys_open, World.emit]
  rw [if_neg (by omega), hfits]
  simp only [hsz]
  rw [if_neg hss, hsend]
  simp only
  rw [if_neg (by omega)]
  simp only [recvfrom, World.emit, hs1]
  rw [if_neg hs2]
  by_cases h4 : d.length < 4
  · have hc : tftp_packet_check_length 4 (d.take 4096).length = 0 := by
      unfold tftp_packet_check_length
      rw [if_pos (by simp only [List.length_take]; omega)]
    rw [if_pos hc, if_pos h4]
    simp [World.after_request, World.close, World.emit]
  · have hc : ¬ tftp_packet_check_length 4 (d.take 4096).length = 0 := by
      unfold tftp_packet_check_length
      rw [if_neg (by simp only [List.length_take]; omega)]
      decide
    obtain ⟨ho, hb⟩ := load_recv_buffer le
      ([0, 2] ++ encode_fields [path, cstr "octet"]
        ++ (local_buffer 4096).drop (2 + (encode_fields [path, cstr "octet"]).length))
      d 4096 (by omega) (by omega)
    rw [if_neg hc, if_neg h4, ho, hb]
    by_cases h1 : tfp_load_ushort_ns le d ≠ TFTP_OPCODE_ACK
    · rw [if_pos h1, if_pos h1]
      simp [World.after_request, World.close, World.emit]
    · rw [if_neg h1, if_neg h1]
      by_cases h2 : tfp_load_ushort_ns le (d.drop 2) ≠ 0
      · rw [if_pos h2, if_pos h2]
        simp [World.after_request, World.close, World.emit]
      · rw [if_neg h2, if_neg h2]
        have h0 : tfp_load_ushort_ns le (d.drop 2) = 0 := by
          by_contra hne
          exact h2 hne
        rw [h0]
        simp [World.after_request, wrq_request]
/-- C19: `tftp_put_file` on a file whose request fits the buffer, when the file opens, the
request is sent at once and the first reply `d` comes from `src`. If `d` has less than 4
bytes the result is `EMSGSIZE`; if its opcode is not ACK, or it is an ACK for a block other
than 0, the result is `EINVAL`; in the three cases the file is closed and the request is the
only datagram sent. If `d` is the ACK for block 0, whatever happens next, the datagrams sent
are the request and then those of the loop, the first of which, if there is one, is a DATA
packet with the block number 1. -/
theorem put_waits_for_ack_zero (le : Bool) (path : List Nat) (w : World) (fd n : Nat)
    (opens ss : List SysRes) (p : PollRes) (ps : List PollRes) (d : List Nat) (src : Nat)
    (rrest : List RecvRes)
    (hopen : w.opens = SysRes.ok fd :: opens) (hfit : path.length + 9 ≤ 4096)
    (hs : w.sends = SysRes.ok n :: ss) (hp : w.polls = p :: ps)
    (hready : 0 < p.status ∧ p.revents &&& POLLHUP = 0)
    (hrecv : w.recvs = RecvRes.ok d src :: rrest) :
    (d.length < 4 → tftp_put_file le path w
      = (some EMSGSIZE, (w.after_request path opens ss ps rrest src).close)) ∧
    (4 ≤ d.length → tfp_load_ushort_ns le d ≠ TFTP_OPCODE_ACK → tftp_put_file le path w
      = (some EINVAL, (w.after_request path opens ss ps rrest src).close)) ∧
    (4 ≤ d.length → tfp_load_ushort_ns le d = TFTP_OPCODE_ACK →
      tfp_load_ushort_ns le (d.drop 2) ≠ 0 → tftp_put_file le path w
      = (some EINVAL, (w.after_request path opens ss ps rrest src).close)) ∧
    sent_dgrams (w.after_request path opens ss ps rrest src).close.trace
      = sent_dgrams w.trace ++ [wrq_request path] ∧
    EMSGSIZE ≠ 0 ∧ EINVAL ≠ 0 ∧
    (4 ≤ d.length → tfp_load_ushort_ns le d = TFTP_OPCODE_ACK →
      tfp_load_ushort_ns le (d.drop 2) = 0 →
      ∃ more : List (List Nat),
        sent_dgrams (tftp_put_file le path w).2.trace
          = sent_dgrams w.trace ++ wrq_request path :: more ∧
        ∀ x, more.head? = some x →
          ∃ data : List Nat, 0 < data.length ∧ data.length ≤ TFTP_BLOCKSIZE ∧
            x = data_dgram 1 data) := by
  have h := put_file_reply le path w fd n opens ss p ps d src rrest hopen hfit hs hp hready
    hrecv
  have hsent : sent_dgrams (w.after_request path opens ss ps rrest src).trace
      = sent_dgrams w.trace ++ [wrq_request path] := by
    simp [World.after_request, sent_dgrams_append, sent_dgrams]
  refine ⟨?_, ?_, ?_, ?_, by decide, by decide, ?_⟩
  · intro h4
    rw [h, if_pos h4]
  · intro h4 ho
    rw [h, if_neg (by omega), if_pos ho]
  · intro h4 ho hb
    rw [h, if_neg (by omega), if_neg (by simpa using ho), if_pos hb]
  · rw [sent_dgrams_close, hsent]
  · intro h4 ho hb
    rw [h, if_neg (by omega), if_neg (by simpa using ho), if_neg (by simpa using hb),
      put_file_loop_eq]
    obtain ⟨more, hm, hfirst⟩ := rrq_loop_first_dgram le (w.reads.length + 1)
      ((0 + 1) % 65536) 0
      (memcpy (wrq_request path
        ++ (local_buffer 4096).drop (2 + (encode_fields [path, cstr "octet"]).length))
        0 (d.take 4096))
      (w.after_request path opens ss ps rrest src) (by decide)
      (by
        rw [memcpy_zero]
        simp only [List.length_append, List.length_drop, List.length_take, wrq_request,
          local_buffer_length, List.length_cons, List.length_nil]
        omega)
    refine ⟨more, ?_, hfirst⟩
    rw [hm, hsent, List.append_assoc]
    rfl

/-- C19 at the upload of "f" answered by the ACK for block 1: the result is `EINVAL` and the
request is the only datagram sent. -/
theorem put_waits_for_ack_zero_witness :
    tftp_put_file true (cstr "f")
        { idle_world with
          opens := [SysRes.ok 3], sends := [SysRes.ok 10], polls := [⟨1, 1, 0⟩],
          recvs := [RecvRes.ok (ack_dgram 1) 9], reads := file_reads 2 [104, 105] }
      = (some EINVAL, { idle_world with
          saddr := 9, reads := file_reads 2 [104, 105],
          trace := [Effect.open_call (cstr "f") false,
            Effect.sent (wrq_request (cstr "f")) 0,
            Effect.polled, Effect.received, Effect.closed] }) :=
  (put_waits_for_ack_zero true (cstr "f")
    { idle_world with
      opens := [SysRes.ok 3], sends := [SysRes.ok 10], polls := [⟨1, 1, 0⟩],
      recvs := [RecvRes.ok (ack_dgram 1) 9], reads := file_reads 2 [104, 105] }
    3 10 [] [] ⟨1, 1, 0⟩ [] (ack_dgram 1) 9 [] rfl (by decide) rfl rfl (by decide) rfl).2.2.1
    (by decide) (by decide) (by decide)

/-! ## The 16-bit transcoders -/

/-- C25: on either host, for every value `v` below 65536, `tfp_store_ushort_ns` writes the
two bytes `v / 256`, `v % 256` at the front of the buffer and `tfp_load_ushort_ns` on the
result returns `v`; for every two bytes `b0`, `b1`, `tfp_load_ushort_ns` returns
`256 * b0 + b1`, and storing that value writes `b0`, `b1` back. -/
theorem ushort_transcoders_inverse (le : Bool) (buffer rest : List Nat) (v b0 b1 : Nat)
    (hv : v < 65536) (h0 : b0 < 256) (h1 : b1 < 256) :
    tfp_store_ushort_ns le buffer v = [v / 256, v % 256] ++ buffer.drop 2 ∧
    tfp_load_ushort_ns le (tfp_store_ushort_ns le buffer v) = v ∧
    tfp_load_ushort_ns le (b0 :: b1 :: rest) = 256 * b0 + b1 ∧
    tfp_store_ushort_ns le buffer (tfp_load_ushort_ns le (b0 :: b1 :: rest))
      = [b0, b1] ++ buffer.drop 2 := by
  have hstore : ∀ x : Nat, x < 65536 →
      tfp_store_ushort_ns le buffer x = [x / 256, x % 256] ++ buffer.drop 2 := by
    intro x hx
    unfold tfp_store_ushort_ns
    rw [ushort_bytes_htons, memcpy_zero]
    have : x / 256 % 256 = x / 256 := Nat.mod_eq_of_lt (by omega)
    rw [this]
    rfl
  have hload := tfp_load_ushort_ns_cons le b0 b1 rest h0 h1
  refine ⟨hstore v hv, ?_, hload, ?_⟩
  · rw [hstore v hv, List.cons_append, List.cons_append,
      tfp_load_ushort_ns_cons le _ _ _ (by omega) (Nat.mod_lt _ (by omega))]
    omega
  · rw [hload, hstore _ (by omega)]
    have e1 : (256 * b0 + b1) / 256 = b0 := by omega
    have e2 : (256 * b0 + b1) % 256 = b1 := by omega
    rw [e1, e2]

/-- C25 at the value 0x1234 on a little-endian host. -/
theorem ushort_transcoders_inverse_witness :
    tfp_store_ushort_ns true [9, 9, 9] 4660 = [18, 52, 9] ∧
    tfp_load_ushort_ns true (tfp_store_ushort_ns true [9, 9, 9] 4660) = 4660 ∧
    tfp_load_ushort_ns true [18, 52, 7] = 4660 := by
  have h := ushort_transcoders_inverse true [9, 9, 9] [7] 4660 18 52 (by decide) (by decide)
    (by decide)
  exact ⟨h.1, h.2.1, h.2.2.1⟩

/-! ## The ERROR packet -/

/-- C24: for every code below 65536, a call of `tftp_send_error_packet` whose `sendto`
succeeds sends to the session's peer the bytes 0, 5, the code high byte first, the message
of the code and one NUL byte, 4 + message length + 1 bytes in all. The messages of the codes
0 to 7 are the eight standard strings; every message is shorter than 256 bytes, so that the
`E2BIG` branch is never taken: the call does what its `sendto` does. -/
theorem error_packet_layout (le : Bool) (code : Nat) (w : World) (n : Nat)
    (ss : List SysRes) (hc : code < 65536) (hs : w.sends = SysRes.ok n :: ss) :
    tftp_send_error_packet le code w = (some 0, { w with
      sends := ss,
      trace := w.trace ++ [Effect.sent
        ([0, 5, code / 256, code % 256] ++ tftp_get_errmsg code ++ [0]) w.saddr] }) ∧
    ([0, 5, code / 256, code % 256] ++ tftp_get_errmsg code ++ [0]).length
      = 4 + (tftp_get_errmsg code).length + 1 ∧
    tftp_get_errmsg 0 = cstr "Not defined, see error message (if any)." ∧
    tftp_get_errmsg 1 = cstr "File not found." ∧
    tftp_get_errmsg 2 = cstr "Access violation." ∧
    tftp_get_errmsg 3 = cstr "Disk full or allocation exceeded." ∧
    tftp_get_errmsg 4 = cstr "Illegal TFTP operation." ∧
    tftp_get_errmsg 5 = cstr "Unknown transfer ID." ∧
    tftp_get_errmsg 6 = cstr "File already exists." ∧
    tftp_get_errmsg 7 = cstr "No such user." ∧
    (∀ c : Nat, (tftp_get_errmsg c).length < 256) ∧
    (∀ (c : Nat) (w0 : World),
      tftp_send_error_packet le c w0
        = match w0.sends with
          | [] => (none, w0)
          | SysRes.err e :: sends =>
            (some (-1), { w0 with sends := sends, errno := e, exit_flag := 1 })
          | SysRes.ok _ :: sends =>
            (some 0, { w0 with
              sends := sends,
              trace := w0.trace ++ [Effect.sent (error_dgram c) w0.saddr] })) := by
  have hd : error_dgram code = [0, 5, code / 256, code % 256] ++ tftp_get_errmsg code ++ [0] := by
    unfold error_dgram
    have : code / 256 % 256 = code / 256 := Nat.mod_eq_of_lt (by omega)
    rw [this]
  refine ⟨?_, by simp; omega, by decide, by decide, by decide, by decide, by decide, by decide,
    by decide, by decide, errmsg_short, ?_⟩
  · rw [send_error_packet_ok le code w n ss hs, hd]
  · intro c w0
    cases hw : w0.sends with
    | nil =>
      unfold tftp_send_error_packet
      simp only
      rw [if_neg (by have := errmsg_short c; omega), hw]
    | cons x sends =>
      cases x with
      | ok m => rw [send_error_packet_ok le c w0 m sends hw]
      | err e =>
        unfold tftp_send_error_packet
        simp only
        rw [if_neg (by have := errmsg_short c; omega), hw]

/-- C24 at the code 1: the 20 bytes of the ERROR packet "File not found.". -/
theorem error_packet_layout_witness :
    tftp_send_error_packet true 1 { idle_world with saddr := 7, sends := [SysRes.ok 20] }
      = (some 0, { idle_world with
          saddr := 7,
          trace := [Effect.sent ([0, 5, 1 / 256, 1 % 256] ++ tftp_get_errmsg 1 ++ [0]) 7] }) :=
  (error_packet_layout true 1 { idle_world with saddr := 7, sends := [SysRes.ok 20] } 20 []
    (by decide) rfl).1
/-! ## The automatic retry of a send -/

theorem retry_trace_succ (k : Nat) (buf : List Nat) (dest : Nat) :
    retry_trace (k + 1) buf dest
      = [Effect.sent buf dest, Effect.polled] ++ retry_trace k buf dest := by
  simp [retry_trace, List.replicate_succ]

theorem sent_dgrams_retry_trace (k : Nat) (buf : List Nat) (dest : Nat) :
    sent_dgrams (retry_trace k buf dest) = List.replicate k buf := by
  induction k with
  | zero => rfl
  | succ k ih =>
    rw [retry_trace_succ, sent_dgrams_append, ih, List.replicate_succ]
    rfl

theorem retry_trace_succ_end (k : Nat) (buf : List Nat) (dest : Nat) :
    retry_trace (k + 1) buf dest
      = retry_trace k buf dest ++ [Effect.sent buf dest, Effect.polled] := by
  induction k with
  | zero => rfl
  | succ k ih =>
    rw [retry_trace_succ (k + 1)]
    conv_lhs => rw [ih, ← List.append_assoc, ← retry_trace_succ]

/-- The rounds of `sendto_autoretry` whose send succeeds and whose wait times out: each
sends the datagram again. -/
theorem sendto_go_timeouts (buf : List Nat) (dest : Nat) :
    ∀ (tos : List PollRes) (ns : List Nat) (w : World) (rest : List PollRes)
      (ss : List SysRes),
      polls_timeout tos → ns.length = tos.length → w.sends = ns.map SysRes.ok ++ ss →
      sendto_autoretry_go buf dest (tos ++ rest) w
        = sendto_autoretry_go buf dest rest { w with
            sends := ss, trace := w.trace ++ retry_trace tos.length buf dest } := by
  intro tos
  induction tos with
  | nil =>
    intro ns w rest ss _ hlen hs
    obtain ⟨ef, sa, er, op, rd, wr, sd, pl, rc, tr⟩ := w
    have hn : ns = [] := List.length_eq_zero.1 hlen
    subst hn
    simp only [List.map_nil, List.nil_append] at hs
    subst hs
    simp [retry_trace]
  | cons t tos ih =>
    intro ns w rest ss hto hlen hs
    obtain ⟨m, ns, rfl⟩ : ∃ m ns1, ns = m :: ns1 := by
      cases ns with
      | nil => simp at hlen
      | cons m ns1 => exact ⟨m, ns1, rfl⟩
    have ht := hto t (List.mem_cons_self _ _)
    have hto1 : polls_timeout tos := fun q hq => hto q (List.mem_cons_of_mem _ hq)
    obtain ⟨ef, sa, er, op, rd, wr, sd, pl, rc, tr⟩ := w
    simp only [List.map_cons, List.cons_append] at hs
    subst hs
    rw [List.cons_append, sendto_autoretry_go]
    simp only [World.emit]
    rw [if_neg (by omega), if_neg (by simp [ht.2]), if_pos ht.1]
    rw [ih ns _ rest ss hto1 (by simpa using hlen) rfl]
    simp only [List.length_cons, retry_trace_succ, List.append_assoc, List.cons_append,
      List.nil_append]

/-- C22: `sendto_autoretry` on a world whose first `k` waits time out, the sends before them
succeeding. If the next send succeeds with the count `n` and the next wait reports the
socket readable without hang-up, the call returns `n` having sent the same datagram to the
same address `k + 1` times. If the next send fails, the call returns -1 at once, after `k`
datagrams. If the next send succeeds and the next wait fails or reports a hang-up, the call
returns -1 at once, after `k + 1` datagrams. No call takes a `recvfrom` outcome, changes the
peer address or puts anything but sends and waits on the trace. -/
theorem sendto_autoretry_resends (buf : List Nat) (len : Nat) (w : World)
    (tos : List PollRes) (ns : List Nat) (hto : polls_timeout tos)
    (hlen : ns.length = tos.length) :
    (∀ (n : Nat) (ss : List SysRes) (p : PollRes) (ps : List PollRes),
      w.sends = ns.map SysRes.ok ++ SysRes.ok n :: ss → w.polls = tos ++ p :: ps →
      0 < p.status → p.revents &&& POLLHUP = 0 →
      sendto_autoretry buf len w = (some (n : Int), { w with
        sends := ss, polls := ps,
        trace := w.trace ++ retry_trace (tos.length + 1) (buf.take len) w.saddr })) ∧
    (∀ (e : Int) (ss : List SysRes) (ps : List PollRes),
      w.sends = ns.map SysRes.ok ++ SysRes.err e :: ss → w.polls = tos ++ ps →
      sendto_autoretry buf len w = (some (-1), { w with
        sends := ss, polls := ps, errno := e,
        trace := w.trace ++ retry_trace tos.length (buf.take len) w.saddr })) ∧
    (∀ (n : Nat) (ss : List SysRes) (p : PollRes) (ps : List PollRes),
      w.sends = ns.map SysRes.ok ++ SysRes.ok n :: ss → w.polls = tos ++ p :: ps →
      p.status < 0 →
      sendto_autoretry buf len w = (some (-1), { w with
        sends := ss, polls := ps, errno := p.errno,
        trace := w.trace ++ retry_trace (tos.length + 1) (buf.take len) w.saddr })) ∧
    (∀ (n : Nat) (ss : List SysRes) (p : PollRes) (ps : List PollRes),
      w.sends = ns.map SysRes.ok ++ SysRes.ok n :: ss → w.polls = tos ++ p :: ps →
      0 ≤ p.status → p.revents &&& POLLHUP ≠ 0 →
      sendto_autoretry buf len w = (some (-1), { w with
        sends := ss, polls := ps,
        trace := w.trace ++ retry_trace (tos.length + 1) (buf.take len) w.saddr })) ∧
    (∀ k : Nat, sent_dgrams (retry_trace k (buf.take len) w.saddr)
      = List.replicate k (buf.take len)) ∧
    (∀ w0 : World, (sendto_autoretry buf len w0).2.recvs = w0.recvs ∧
      (sendto_autoretry buf len w0).2.saddr = w0.saddr ∧
      ∀ x ∈ (sendto_autoretry buf len w0).2.trace,
        x ∈ w0.trace ∨ x = Effect.sent (buf.take len) w0.saddr ∨ x = Effect.polled) := by
  have hframe : ∀ (dest : Nat) (polls : List PollRes) (w0 : World),
      (sendto_autoretry_go (buf.take len) dest polls w0).2.2.recvs = w0.recvs ∧
      (sendto_autoretry_go (buf.take len) dest polls w0).2.2.saddr = w0.saddr ∧
      ∀ x ∈ (sendto_autoretry_go (buf.take len) dest polls w0).2.2.trace,
        x ∈ w0.trace ∨ x = Effect.sent (buf.take len) dest ∨ x = Effect.polled := by
    intro dest polls
    induction polls with
    | nil =>
      intro w0
      unfold sendto_autoretry_go
      split
      · exact ⟨rfl, rfl, fun x hx => Or.inl hx⟩
      · exact ⟨rfl, rfl, fun x hx => Or.inl hx⟩
      · refine ⟨rfl, rfl, fun x hx => ?_⟩
        simp only [World.emit, List.mem_append, List.mem_singleton] at hx
        tauto
    | cons q polls ih =>
      intro w0
      unfold sendto_autoretry_go
      split
      · exact ⟨rfl, rfl, fun x hx => Or.inl hx⟩
      · exact ⟨rfl, rfl, fun x hx => Or.inl hx⟩
      · simp only
        split
        · refine ⟨rfl, rfl, fun x hx => ?_⟩
          simp only [World.emit, List.mem_append, List.mem_singleton] at hx
          tauto
        · split
          · refine ⟨rfl, rfl, fun x hx => ?_⟩
            simp only [World.emit, List.mem_append, List.mem_singleton] at hx
            tauto
          · split
            · rename_i n sends hsends _ _ _
              obtain ⟨h1, h2, h3⟩ := ih ((({ w0 with sends := sends }).emit
                (Effect.sent (buf.take len) dest)).emit Effect.polled)
              refine ⟨h1, h2, fun x hx => ?_⟩
              rcases h3 x hx with h | h | h
              · simp only [World.emit, List.mem_append, List.mem_singleton] at h
                tauto
              · exact Or.inr (Or.inl h)
              · exact Or.inr (Or.inr h)
            · refine ⟨rfl, rfl, fun x hx => ?_⟩
              simp only [World.emit, List.mem_append, List.mem_singleton] at hx
              tauto
  obtain ⟨ef, sa, er, op, rd, wr, sd, pl, rc, tr⟩ := w
  refine ⟨?_, ?_, ?_, ?_, fun k => sent_dgrams_retry_trace k _ _, ?_⟩
  · intro n ss p ps hs hp hst hhup
    simp only at hs hp
    subst hs hp
    unfold sendto_autoretry
    simp only
    rw [sendto_go_timeouts (buf.take len) sa tos ns _ (p :: ps) (SysRes.ok n :: ss) hto hlen rfl,
      sendto_autoretry_go]
    simp only [World.emit]
    rw [if_neg (by omega), if_neg (by simp [hhup]), if_neg (by omega)]
    simp only [retry_trace_succ_end, List.append_assoc, List.cons_append, List.nil_append]
  · intro e ss ps hs hp
    simp only at hs hp
    subst hs hp
    unfold sendto_autoretry
    simp only
    rw [sendto_go_timeouts (buf.take len) sa tos ns _ ps (SysRes.err e :: ss) hto hlen rfl,
      sendto_autoretry_go]
  · intro n ss p ps hs hp hst
    simp only at hs hp
    subst hs hp
    unfold sendto_autoretry
    simp only
    rw [sendto_go_timeouts (buf.take len) sa tos ns _ (p :: ps) (SysRes.ok n :: ss) hto hlen rfl,
      sendto_autoretry_go]
    simp only [World.emit]
    rw [if_pos hst]
    simp only [retry_trace_succ_end, List.append_assoc, List.cons_append, List.nil_append]
  · intro n ss p ps hs hp hst hhup
    simp only at hs hp
    subst hs hp
    unfold sendto_autoretry
    simp only
    rw [sendto_go_timeouts (buf.take len) sa tos ns _ (p :: ps) (SysRes.ok n :: ss) hto hlen rfl,
      sendto_autoretry_go]
    simp only [World.emit]
    rw [if_neg (by omega), if_pos hhup]
    simp only [retry_trace_succ_end, List.append_assoc, List.cons_append, List.nil_append]
  · intro w0
    unfold sendto_autoretry
    exact hframe _ _ _
/-- C22 at one time-out followed by a wait that reports the socket readable: the datagram is
sent twice. -/
theorem sendto_autoretry_resends_witness :
    sendto_autoretry [1, 2, 3] 3
        { idle_world with
          saddr := 7, sends := [SysRes.ok 3, SysRes.ok 3], polls := [⟨0, 0, 0⟩, ⟨1, 1, 0⟩] }
      = (some 3, { idle_world with
          saddr := 7,
          trace := [Effect.sent [1, 2, 3] 7, Effect.polled, Effect.sent [1, 2, 3] 7,
            Effect.polled] }) :=
  (sendto_autoretry_resends [1, 2, 3] 3
    { idle_world with
      saddr := 7, sends := [SysRes.ok 3, SysRes.ok 3], polls := [⟨0, 0, 0⟩, ⟨1, 1, 0⟩] }
    [⟨0, 0, 0⟩] [3]
    (by
      intro p hp
      rw [List.mem_singleton.1 hp]
      decide)
    rfl).1 3 [] ⟨1, 1, 0⟩ [] rfl rfl (by decide) (by decide)

/-! ## The components of an accepted path -/

theorem path_components_ne_nil (p : List Nat) : path_components p ≠ [] := by
  cases p with
  | nil => simp [path_components]
  | cons b bs =>
    unfold path_components
    split_ifs
    · simp
    · split <;> simp

/-- A path without '/' is its only component; otherwise its first component is what stands
before the first '/', and the other components are those of the rest. -/
theorem path_components_cases (p : List Nat) :
    path_components p = [p] ∨
    ∃ c0 rest : List Nat, p = c0 ++ 47 :: rest ∧
      path_components p = c0 :: path_components rest := by
  induction p with
  | nil => left; rfl
  | cons b bs ih =>
    by_cases hb : b = 47
    · right
      refine ⟨[], bs, by rw [hb]; rfl, ?_⟩
      rw [path_components, if_pos hb]
    · rcases ih with h | ⟨c0, rest, h1, h2⟩
      · left
        rw [path_components, if_neg hb, h]
      · right
        refine ⟨b :: c0, rest, by rw [h1]; rfl, ?_⟩
        rw [path_components, if_neg hb, h2]

/-- A component other than the last is followed by a '/' in the path. -/
theorem path_component_followed (n : Nat) :
    ∀ (p c : List Nat), p.length ≤ n → c ∈ (path_components p).dropLast →
      ∃ pre post : List Nat, p = pre ++ c ++ 47 :: post := by
  induction n with
  | zero =>
    intro p c hn hc
    have hp : p = [] := List.length_eq_zero.1 (by omega)
    subst hp
    simp [path_components] at hc
  | succ n ih =>
    intro p c hn hc
    rcases path_components_cases p with h | ⟨c0, rest, h1, h2⟩
    · rw [h] at hc
      simp at hc
    · rw [h2] at hc
      obtain ⟨x, xs, hx⟩ : ∃ x xs, path_components rest = x :: xs := by
        cases hr : path_components rest with
        | nil => exact absurd hr (path_components_ne_nil rest)
        | cons x xs => exact ⟨x, xs, rfl⟩
      rw [hx, List.dropLast_cons₂] at hc
      rcases List.mem_cons.1 hc with rfl | hc
      · exact ⟨[], rest, by rw [h1]; rfl⟩
      · rw [← hx] at hc
        have hl : rest.length ≤ n := by
          have : p.length = c0.length + (rest.length + 1) := by
            rw [h1]; simp
          omega
        obtain ⟨pre, post, hpp⟩ := ih rest c hl hc
        exact ⟨c0 ++ 47 :: pre, post, by rw [h1, hpp]; simp⟩

/-- In a path that `tftp_validate_path` accepts, no component but the last may be "..". -/
theorem accepted_path_components (p c : List Nat) (hv : tftp_validate_path p = true)
    (hc : c ∈ (path_components p).dropLast) : c ≠ [46, 46] := by
  intro h
  subst h
  obtain ⟨pre, post, hp⟩ := path_component_followed p.length p _ (Nat.le_refl _) hc
  have hin : [46, 46, 47] <:+: p := ⟨pre, post, by rw [hp]; simp⟩
  exact ((validate_path_accepts_iff p).1 hv).2 hin

/-- C29 (the code at the failing inputs): `tftp_validate_path` accepts the paths ".." and
"a/..", whose last component is ".."; the read handler then opens "..". It rejects the path
"foo../bar", which is not absolute and whose components are "foo.." and "bar". -/
theorem validate_path_accepts_dotdot :
    tftp_validate_path (cstr "..") = true ∧
    path_components (cstr "..") = [cstr ".."] ∧
    tftp_validate_path (cstr "a/..") = true ∧
    path_components (cstr "a/..") = [cstr "a", cstr ".."] ∧
    open_calls (tftp_handle_rrq true (request_dgram 1 ["..", "octet"]) 11
        { idle_world with opens := [SysRes.ok 3] }).2.trace = [cstr ".."] ∧
    tftp_validate_path (cstr "foo../bar") = false ∧
    (cstr "foo../bar").head? ≠ some 47 ∧
    path_components (cstr "foo../bar") = [cstr "foo..", cstr "bar"] ∧
    cstr ".." ∉ path_components (cstr "foo../bar") := by
  refine ⟨by decide, by decide, by decide, by decide, by decide, by decide, by decide,
    by decide, by decide⟩
/-! ## What the split reads -/

set_option maxRecDepth 4000 in
/-- C28 (the code at the failing input): for the length 3, two buffers that agree on their
first three bytes "a", NUL, "b" give different fields: the second field is "b" when a NUL
follows and "bc" when "c", NUL follow; when 256 bytes without NUL follow, the call fails
with `ENOBUFS`. In the server: the 5-byte read request 00 01 "f" 00 "o" returns `EINVAL`
(mode "o") when the receive buffer holds zeros, and opens "f" (mode "octet") when the buffer
still holds an earlier request for "g" in mode "octet". -/
theorem split_reads_past_len :
    List.take 3 ([97, 0, 98] ++ [0]) = List.take 3 ([97, 0, 98] ++ [99, 0]) ∧
    tftp_params_split ([97, 0, 98] ++ [0]) 3 TFTP_PARAMS_NLIMIT TFTP_PARAMS_STRLIMIT 0
      = ⟨2, 0, [[97], [98]]⟩ ∧
    tftp_params_split ([97, 0, 98] ++ [99, 0]) 3 TFTP_PARAMS_NLIMIT TFTP_PARAMS_STRLIMIT 0
      = ⟨2, 0, [[97], [98, 99]]⟩ ∧
    (tftp_params_split ([97, 0, 98] ++ sample_file 256) 3
      TFTP_PARAMS_NLIMIT TFTP_PARAMS_STRLIMIT 0).ret = -1 ∧
    (tftp_params_split ([97, 0, 98] ++ sample_file 256) 3
      TFTP_PARAMS_NLIMIT TFTP_PARAMS_STRLIMIT 0).errno = ENOBUFS ∧
    (tftp_handle_operation true (local_buffer 4096)
        { idle_world with
          recvs := [RecvRes.ok [0, 1, 102, 0, 111] 9], opens := [SysRes.ok 3] })
      = (some EINVAL, { idle_world with
          saddr := 9, opens := [SysRes.ok 3], trace := [Effect.received] }) ∧
    (tftp_handle_operation true (request_dgram 1 ["g", "octet"] ++ local_buffer 4086)
        { idle_world with
          recvs := [RecvRes.ok [0, 1, 102, 0, 111] 9], opens := [SysRes.ok 3] }).2.trace
      = [Effect.received, Effect.open_call (cstr "f") false] := by
  refine ⟨by decide, by decide, by decide, by decide, by decide, by decide, by decide⟩

/-! ## The result 0 of a Receiver -/

/-- C27 (the code at the failing input): `tftp_get_file` for "f", answered with the ERROR
packet "File not found.", returns 0 having written nothing and acknowledged nothing; the
write handler, given the same ERROR packet instead of the first DATA packet, returns 0 as
well, and so does the service loop, which sends no ERROR packet. -/
theorem receiver_returns_zero_on_error_packet :
    tftp_get_file true (cstr "f")
        { idle_world with
          opens := [SysRes.ok 3], sends := [SysRes.ok 10], polls := [⟨1, 1, 0⟩],
          recvs := [RecvRes.ok (error_dgram 1) 9] }
      = (some 0, { idle_world with
          saddr := 9,
          trace := [Effect.open_call (cstr "f") true,
            Effect.sent (request_dgram 1 ["f", "octet"]) 0, Effect.polled, Effect.received,
            Effect.closed] }) ∧
    error_dgram 1 = [0, 5, 0, 1] ++ cstr "File not found." ++ [0] ∧
    tfp_load_ushort_ns true (error_dgram 1) = TFTP_OPCODE_ERROR ∧
    main_iteration true (local_buffer 4096)
        { idle_world with
          recvs := [RecvRes.ok (request_dgram 2 ["f", "octet"]) 9,
            RecvRes.ok (error_dgram 3) 9],
          opens := [SysRes.ok 3], sends := [SysRes.ok 4, SysRes.ok 30] }
      = (some 0, { idle_world with
          saddr := 9, sends := [SysRes.ok 30],
          trace := [Effect.received, Effect.open_call (cstr "f") true,
            Effect.sent (ack_dgram 0) 9, Effect.received, Effect.closed] }) := by
  refine ⟨by decide, by decide, by decide, by decide⟩
/-! ## Sender role: a failing read -/

/-- A read that fails when the previous read was not a full block ends the sender loop: the
file is closed, nothing is sent, the result is `EINVAL`. -/
theorem rrq_loop_read_error (le : Bool) (fuel block lastread : Nat) (buffer : List Nat)
    (w : World) (e : Int) (rs : List ReadRes)
    (hreads : w.reads = ReadRes.err e :: rs) (hl : lastread ≠ TFTP_BLOCKSIZE) :
    tftp_handle_rrq_loop le (fuel + 1) block lastread buffer w
      = (some EINVAL, { w with
          reads := rs, errno := e, trace := w.trace ++ [Effect.fread, Effect.closed] }) := by
  have h0 : ¬ (to_ssize (to_size (-1)) > 0 ∨ lastread = TFTP_BLOCKSIZE) := by
    have : ¬ to_ssize (to_size (-1)) > 0 := by decide
    tauto
  have h1 : to_ssize (to_size (-1)) < 0 := by decide
  rw [tftp_handle_rrq_loop]
  unfold sys_read
  rw [hreads]
  simp only [h0, h1, if_false, if_true, World.emit, World.close, List.append_assoc,
    List.cons_append, List.nil_append]

theorem store_data_header_take3 (le : Bool) (buffer : List Nat) (block : Nat)
    (hb : 4 ≤ buffer.length) :
    (store_data_header le buffer block).take 3 = [0, 3, (block / 256) % 256] := by
  have hm : memcpy buffer 4 [] = buffer := by
    simp [memcpy]
  have h := (store_data_header_take le buffer [] block hb).1
  rw [hm] at h
  have h3 : (store_data_header le buffer block).take 3
      = ((store_data_header le buffer block).take (4 + ([] : List Nat).length)).take 3 := by
    rw [List.take_take]
    rfl
  rw [h3, h]
  rfl

/-- A read that fails right after a full block does not end the sender loop: the loop sends
the first three bytes of its buffer and waits for an ACK. -/
theorem rrq_loop_read_error_after_full (le : Bool) (fuel block lastread : Nat)
    (buffer : List Nat)
    (w : World) (e : Int) (rs : List ReadRes) (n : Nat) (ss : List SysRes) (p : PollRes)
    (ps : List PollRes) (hl : lastread = TFTP_BLOCKSIZE)
    (hreads : w.reads = ReadRes.err e :: rs)
    (hs : w.sends = SysRes.ok n :: ss) (hp : w.polls = p :: ps)
    (hready : 0 < p.status ∧ p.revents &&& POLLHUP = 0)
    (hb : 4 ≤ buffer.length) :
    tftp_handle_rrq_loop le (fuel + 1) block lastread buffer w
      = match recv_ack le block (w.recvs.length + 1) { w with
          reads := rs, errno := e, sends := ss, polls := ps,
          trace := w.trace ++ [Effect.fread,
            Effect.sent [0, 3, (block / 256) % 256] w.saddr, Effect.polled] } with
        | (AckStep.ret v, w1) => (some v, w1)
        | (AckStep.blocked, w1) => (none, w1)
        | (AckStep.acked, w1) =>
          tftp_handle_rrq_loop le fuel ((block + 1) % 65536) (to_size (-1))
            (store_data_header le buffer block) w1 := by
  subst hl
  have hmod : (4 + to_size (-1)) % SIZE_MAX1 = 3 := by decide
  have hd := store_data_header_take3 le buffer block hb
  obtain ⟨ef, sa, er, op, rd, wr, sd, pl, rc, tr⟩ := w
  simp only at hreads hs hp
  subst hreads hs hp
  have hsend := sendto_autoretry_ready (store_data_header le buffer block) 3
    ⟨ef, sa, e, op, rs, wr, SysRes.ok n :: ss, p :: ps, rc, tr ++ [Effect.fread]⟩
    n ss p ps rfl rfl hready
  simp only [hd] at hsend
  rw [tftp_handle_rrq_loop]
  simp only [sys_read, World.emit]
  rw [if_pos (Or.inr trivial)]
  simp only [hmod, hsend]
  rw [if_neg (by omega)]
  simp only [List.append_assoc, List.cons_append, List.nil_append]

/-- C21 (the code at the failing input): a source file whose first read returns a full block
of 512 bytes and whose second read fails. After the first DATA packet has been acknowledged,
both sender loops take the failed read for a block: they send the first three bytes of the
buffer, 00 03 00, as a datagram and wait for a reply. If that datagram is acknowledged and
the next read meets the end of the file, the loops return 0. A read that fails when the
previous read was not a full block does end the loop with `EINVAL` and nothing sent. -/
theorem read_error_after_full_block_sends :
    tftp_handle_rrq_loop true 3 1 0 (local_buffer 4096)
        { idle_world with
          reads := [ReadRes.ok (sample_file 512), ReadRes.err 5],
          sends := [SysRes.ok 516, SysRes.ok 3], polls := [⟨1, 1, 0⟩, ⟨1, 1, 0⟩],
          recvs := [RecvRes.ok (ack_dgram 1) 9] }
      = (none, { idle_world with
          saddr := 9, errno := 5,
          trace := [Effect.fread, Effect.sent (data_dgram 1 (sample_file 512)) 0,
            Effect.polled, Effect.received, Effect.fread, Effect.sent [0, 3, 0] 9,
            Effect.polled] }) ∧
    tftp_put_file_loop true 3 0 0 (local_buffer 4096)
        { idle_world with
          reads := [ReadRes.ok (sample_file 512), ReadRes.err 5],
          sends := [SysRes.ok 516, SysRes.ok 3], polls := [⟨1, 1, 0⟩, ⟨1, 1, 0⟩],
          recvs := [RecvRes.ok (ack_dgram 1) 9] }
      = (none, { idle_world with
          saddr := 9, errno := 5,
          trace := [Effect.fread, Effect.sent (data_dgram 1 (sample_file 512)) 0,
            Effect.polled, Effect.received, Effect.fread, Effect.sent [0, 3, 0] 9,
            Effect.polled] }) ∧
    tftp_handle_rrq_loop true 3 1 0 (local_buffer 4096)
        { idle_world with
          reads := [ReadRes.ok (sample_file 512), ReadRes.err 5, ReadRes.ok []],
          sends := [SysRes.ok 516, SysRes.ok 3], polls := [⟨1, 1, 0⟩, ⟨1, 1, 0⟩],
          recvs := [RecvRes.ok (ack_dgram 1) 9, RecvRes.ok (ack_dgram 2) 9] }
      = (some 0, { idle_world with
          saddr := 9, errno := 5,
          trace := [Effect.fread, Effect.sent (data_dgram 1 (sample_file 512)) 0,
            Effect.polled, Effect.received, Effect.fread, Effect.sent [0, 3, 0] 9,
            Effect.polled, Effect.received, Effect.fread, Effect.closed] }) ∧
    tftp_handle_rrq_loop true 3 1 0 (local_buffer 4096)
        { idle_world with reads := [ReadRes.err 5], sends := [SysRes.ok 3] }
      = (some EINVAL, { idle_world with
          errno := 5, sends := [SysRes.ok 3],
          trace := [Effect.fread, Effect.closed] }) := by
  have hbuf : 4 ≤ (local_buffer 4096).length := by rw [local_buffer_length]; decide
  have hlen := sample_file_length 512
  have hb2 := (store_data_header_take true (local_buffer 4096) (sample_file 512) 1 hbuf).2
  have h1 : ∀ (rs : List ReadRes) (rc : List RecvRes),
      tftp_handle_rrq_loop true 3 1 0 (local_buffer 4096)
        { idle_world with
          reads := ReadRes.ok (sample_file 512) :: ReadRes.err 5 :: rs,
          sends := [SysRes.ok 516, SysRes.ok 3], polls := [⟨1, 1, 0⟩, ⟨1, 1, 0⟩],
          recvs := RecvRes.ok (ack_dgram 1) 9 :: rc }
      = match recv_ack true 2 (rc.length + 1)
          { idle_world with
            saddr := 9, errno := 5, reads := rs, recvs := rc,
            trace := [Effect.fread, Effect.sent (data_dgram 1 (sample_file 512)) 0,
              Effect.polled, Effect.received, Effect.fread, Effect.sent [0, 3, 0] 9,
              Effect.polled] } with
        | (AckStep.ret v, w1) => (some v, w1)
        | (AckStep.blocked, w1) => (none, w1)
        | (AckStep.acked, w1) =>
          tftp_handle_rrq_loop true 1 3 (to_size (-1))
            (store_data_header true
              (store_data_header true (memcpy (local_buffer 4096) 4 (sample_file 512)) 1) 2)
            w1 := by
    intro rs rc
    rw [rrq_loop_block true 2 1 0 (local_buffer 4096) _ (sample_file 512)
      (ReadRes.err 5 :: rs) 516 [SysRes.ok 3] ⟨1, 1, 0⟩ [⟨1, 1, 0⟩] 9 rc rfl
      (by rw [hlen]; decide) (Or.inl (by rw [hlen]; decide)) rfl rfl (by decide) rfl
      (by decide) hbuf]
    rw [rrq_loop_read_error_after_full true 1 ((1 + 1) % 65536) (sample_file 512).length _ _
      5 rs 3 [] ⟨1, 1, 0⟩ [] hlen rfl rfl rfl (by decide) hb2]
    rfl
  refine ⟨?_, ?_, ?_, ?_⟩
  · rw [h1 [] [], recv_ack_nil true 2 _ _ rfl]
    rfl
  · rw [put_file_loop_eq, h1 [] [], recv_ack_nil true 2 _ _ rfl]
    rfl
  · rw [h1 [ReadRes.ok []] [RecvRes.ok (ack_dgram 2) 9]]
    have hack := recv_ack_step true 2 1
      { idle_world with
        saddr := 9, errno := 5, reads := [ReadRes.ok []],
        recvs := [RecvRes.ok (ack_dgram 2) 9],
        trace := [Effect.fread, Effect.sent (data_dgram 1 (sample_file 512)) 0,
          Effect.polled, Effect.received, Effect.fread, Effect.sent [0, 3, 0] 9,
          Effect.polled] }
      (ack_dgram 2) 9 [] rfl (by decide)
    rw [if_neg (by decide), if_neg (by decide)] at hack
    have hack2 : recv_ack true 2 (([RecvRes.ok (ack_dgram 2) 9] : List RecvRes).length + 1) _
      = _ := hack
    rw [hack2]
    simp only
    rw [rrq_loop_eof true 0 3 (to_size (-1)) _ _ [] rfl (by decide)]
    rfl
  · rw [rrq_loop_read_error true 2 1 0 (local_buffer 4096) _ 5 [] rfl (by decide)]
    rfl

/-! ## Receiver role: a whole transfer over a channel without loss -/

theorem written_after_accept (w : World) (rest : List RecvRes) (src : Nat)
    (ws ss : List SysRes) (payload : List Nat) (block : Nat) :
    written (w.after_accept rest src ws ss payload block).trace = written w.trace ++ payload ∧
    sent_dgrams (w.after_accept rest src ws ss payload block).trace
      = sent_dgrams w.trace ++ [ack_dgram block] := by
  constructor
  · simp [World.after_accept, written_append, written]
  · simp [World.after_accept, sent_dgrams_append, sent_dgrams, ack_dgram]

theorem transport_clean_append (s1 s2 : List SysRes) (p1 p2 : List PollRes)
    (r1 r2 : List RecvRes) :
    transport_clean (s1 ++ s2) (p1 ++ p2) (r1 ++ r2)
      = (transport_clean s1 p1 r1 && transport_clean s2 p2 r2) := by
  simp only [transport_clean, List.all_append]
  cases s1.all (fun x => !x.failed) <;> cases s2.all (fun x => !x.failed) <;>
    cases p1.all (fun x => !x.failed) <;> cases p2.all (fun x => !x.failed) <;>
    cases r1.all (fun x => !x.failed) <;> cases r2.all (fun x => !x.failed) <;> rfl

theorem tracks_refl (w : World) : exit_flag_tracks w w :=
  ⟨[], [], [], rfl, rfl, rfl, rfl⟩

/-- A step that takes no transport outcome and leaves the flag alone. -/
theorem tracks_of_same (w w1 : World) (h1 : w1.sends = w.sends) (h2 : w1.polls = w.polls)
    (h3 : w1.recvs = w.recvs) (h4 : w1.exit_flag = w.exit_flag) : exit_flag_tracks w w1 :=
  ⟨[], [], [], by rw [h1]; rfl, by rw [h2]; rfl, by rw [h3]; rfl, by rw [h4]; rfl⟩

theorem tracks_trans (w w1 w2 : World) (h1 : exit_flag_tracks w w1)
    (h2 : exit_flag_tracks w1 w2) : exit_flag_tracks w w2 := by
  obtain ⟨s1, p1, r1, a1, b1, c1, f1⟩ := h1
  obtain ⟨s2, p2, r2, a2, b2, c2, f2⟩ := h2
  refine ⟨s1 ++ s2, p1 ++ p2, r1 ++ r2, by rw [a1, a2, List.append_assoc],
    by rw [b1, b2, List.append_assoc], by rw [c1, c2, List.append_assoc], ?_⟩
  rw [transport_clean_append, f2, f1]
  cases transport_clean s1 p1 r1 <;> cases transport_clean s2 p2 r2 <;> rfl

theorem tracks_then_same (w w1 w2 : World) (h : exit_flag_tracks w w1)
    (h1 : w2.sends = w1.sends) (h2 : w2.polls = w1.polls) (h3 : w2.recvs = w1.recvs)
    (h4 : w2.exit_flag = w1.exit_flag) : exit_flag_tracks w w2 :=
  tracks_trans w w1 w2 h (tracks_of_same w1 w2 h1 h2 h3 h4)

theorem tracks_close (w w1 : World) (h : exit_flag_tracks w w1) :
    exit_flag_tracks w w1.close :=
  tracks_then_same w w1 w1.close h rfl rfl rfl rfl

/-- What `recvfrom` does to the transport: it takes one outcome, a failure exactly when the
value returned is negative, and leaves the flag alone. -/
theorem recvfrom_transport (buffer : List Nat) (size : Nat) (w : World) (r : Int)
    (b : List Nat) (w1 : World) (h : recvfrom buffer size w = some (r, b, w1))
    (hsz : size ≤ 65536) :
    w1.sends = w.sends ∧ w1.polls = w.polls ∧ w1.exit_flag = w.exit_flag ∧
    ∃ x : RecvRes, w.recvs = x :: w1.recvs ∧
      (x.failed = true ↔ to_ssize (to_size r) < 0) := by
  unfold recvfrom at h
  split at h
  · simp at h
  · rename_i e recvs hr
    simp only [Option.some.injEq, Prod.mk.injEq] at h
    obtain ⟨rfl, _, rfl⟩ := h
    refine ⟨rfl, rfl, rfl, RecvRes.err e, hr, ?_⟩
    rw [to_ssize_to_size_neg_one]
    simp [RecvRes.failed]
  · rename_i d src recvs hr
    simp only [Option.some.injEq, Prod.mk.injEq] at h
    obtain ⟨rfl, _, rfl⟩ := h
    refine ⟨rfl, rfl, rfl, RecvRes.ok d src, hr, ?_⟩
    obtain ⟨h1, h2⟩ := to_size_length (d.take size).length
      (by simp only [List.length_take]; omega)
    rw [h1]
    constructor
    · intro hf
      simp [RecvRes.failed] at hf
    · intro hf
      exact absurd hf h2

theorem sys_write_transport (bytes : List Nat) (w : World) (r : Int) (w1 : World)
    (h : sys_write bytes w = some (r, w1)) :
    w1.sends = w.sends ∧ w1.polls = w.polls ∧ w1.recvs = w.recvs ∧
    w1.exit_flag = w.exit_flag := by
  unfold sys_write at h
  split at h
  · simp at h
  · simp only [Option.some.injEq, Prod.mk.injEq] at h
    obtain ⟨_, rfl⟩ := h
    exact ⟨rfl, rfl, rfl, rfl⟩
  · simp only [Option.some.injEq, Prod.mk.injEq] at h
    obtain ⟨_, rfl⟩ := h
    exact ⟨rfl, rfl, rfl, rfl⟩

theorem sys_read_transport (buffer : List Nat) (off count : Nat) (w : World) (r : Int)
    (b : List Nat) (w1 : World) (h : sys_read buffer off count w = some (r, b, w1)) :
    w1.sends = w.sends ∧ w1.polls = w.polls ∧ w1.recvs = w.recvs ∧
    w1.exit_flag = w.exit_flag := by
  unfold sys_read at h
  split at h
  · simp at h
  · simp only [Option.some.injEq, Prod.mk.injEq] at h
    obtain ⟨_, _, rfl⟩ := h
    exact ⟨rfl, rfl, rfl, rfl⟩
  · simp only [Option.some.injEq, Prod.mk.injEq] at h
    obtain ⟨_, _, rfl⟩ := h
    exact ⟨rfl, rfl, rfl, rfl⟩

theorem sys_open_transport (path : List Nat) (writing : Bool) (w : World) (fd : Int)
    (w1 : World) (h : sys_open path writing w = some (fd, w1)) :
    w1.sends = w.sends ∧ w1.polls = w.polls ∧ w1.recvs = w.recvs ∧
    w1.exit_flag = w.exit_flag := by
  unfold sys_open at h
  split at h
  · simp at h
  · simp only [Option.some.injEq, Prod.mk.injEq] at h
    obtain ⟨_, rfl⟩ := h
    exact ⟨rfl, rfl, rfl, rfl⟩
  · simp only [Option.some.injEq, Prod.mk.injEq] at h
    obtain ⟨_, rfl⟩ := h
    exact ⟨rfl, rfl, rfl, rfl⟩

/-- The flag across `tftp_send_ack_packet`, which sets it itself when the send fails. -/
theorem send_ack_tracks (le : Bool) (block : Nat) (w : World) :
    exit_flag_tracks w (tftp_send_ack_packet le block w).2 := by
  unfold tftp_send_ack_packet
  simp only
  split
  · exact tracks_refl w
  · rename_i e sends hs
    exact ⟨[SysRes.err e], [], [], hs, rfl, rfl, rfl⟩
  · rename_i n sends hs
    exact ⟨[SysRes.ok n], [], [], hs, rfl, rfl, rfl⟩

/-- The flag across `tftp_send_error_packet`. -/
theorem send_error_tracks (le : Bool) (code : Nat) (w : World) :
    exit_flag_tracks w (tftp_send_error_packet le code w).2 := by
  unfold tftp_send_error_packet
  simp only
  split_ifs
  · exact tracks_of_same w _ rfl rfl rfl rfl
  · split
    · exact tracks_refl w
    · rename_i e sends hs
      exact ⟨[SysRes.err e], [], [], hs, rfl, rfl, rfl⟩
    · rename_i n sends hs
      exact ⟨[SysRes.ok n], [], [], hs, rfl, rfl, rfl⟩

/-- What `sendto_autoretry` does to the transport: it takes outcomes of `sendto` and `poll`,
leaves the flag to its caller, and returns a negative value exactly when one of the outcomes
taken is a failure. -/
theorem sendto_autoretry_go_transport (buf : List Nat) (dest : Nat) :
    ∀ (polls : List PollRes) (w : World),
      ∃ (s : List SysRes) (p : List PollRes),
        w.sends = s ++ (sendto_autoretry_go buf dest polls w).2.2.sends ∧
        polls = p ++ (sendto_autoretry_go buf dest polls w).2.1 ∧
        (sendto_autoretry_go buf dest polls w).2.2.recvs = w.recvs ∧
        (sendto_autoretry_go buf dest polls w).2.2.exit_flag = w.exit_flag ∧
        ((sendto_autoretry_go buf dest polls w).1 = none → transport_clean s p [] = true) ∧
        (∀ v : Int, (sendto_autoretry_go buf dest polls w).1 = some v →
          (transport_clean s p [] = true ↔ ¬ v < 0)) := by
  intro polls
  induction polls with
  | nil =>
    intro w
    unfold sendto_autoretry_go
    split
    · exact ⟨[], [], by simp, rfl, rfl, rfl, fun _ => rfl, fun v hv => by simp at hv⟩
    · rename_i e sends hs
      refine ⟨[SysRes.err e], [], hs, rfl, rfl, rfl, fun h => by simp at h, fun v hv => ?_⟩
      simp only [Option.some.injEq] at hv
      subst hv
      simp [transport_clean, SysRes.failed]
    · rename_i n sends hs
      exact ⟨[SysRes.ok n], [], hs, rfl, rfl, rfl, fun _ => rfl, fun v hv => by simp at hv⟩
  | cons q polls ih =>
    intro w
    unfold sendto_autoretry_go
    split
    · exact ⟨[], [], by simp, rfl, rfl, rfl, fun _ => rfl, fun v hv => by simp at hv⟩
    · rename_i e sends hs
      refine ⟨[SysRes.err e], [], hs, rfl, rfl, rfl, fun h => by simp at h, fun v hv => ?_⟩
      simp only [Option.some.injEq] at hv
      subst hv
      simp [transport_clean, SysRes.failed]
    · rename_i n sends hs
      simp only
      split
      · rename_i hneg
        refine ⟨[SysRes.ok n], [q], hs, rfl, rfl, rfl, fun h => by simp at h, fun v hv => ?_⟩
        simp only [Option.some.injEq] at hv
        subst hv
        simp [transport_clean, SysRes.failed, PollRes.failed, hneg]
      · split
        · rename_i hneg hhup
          refine ⟨[SysRes.ok n], [q], hs, rfl, rfl, rfl, fun h => by simp at h,
            fun v hv => ?_⟩
          simp only [Option.some.injEq] at hv
          subst hv
          simp [transport_clean, SysRes.failed, PollRes.failed, hhup]
        · split
          · rename_i hneg hhup hzero
            obtain ⟨s, p, a1, a2, a3, a4, a5, a6⟩ := ih ((({ w with sends := sends }).emit
              (Effect.sent buf dest)).emit Effect.polled)
            have hq : q.failed = false := by
              simp [PollRes.failed, hneg]
              simpa using hhup
            have hc : transport_clean (SysRes.ok n :: s) (q :: p) [] = transport_clean s p [] := by
              simp [transport_clean, SysRes.failed, hq]
            refine ⟨SysRes.ok n :: s, q :: p, ?_, ?_, a3, a4, ?_, ?_⟩
            · rw [hs]
              exact congrArg _ a1
            · exact congrArg _ a2
            · intro h
              rw [hc]
              exact a5 h
            · intro v hv
              rw [hc]
              exact a6 v hv
          · rename_i hneg hhup hzero
            have hq : q.failed = false := by
              simp [PollRes.failed, hneg]
              simpa using hhup
            refine ⟨[SysRes.ok n], [q], hs, rfl, rfl, rfl, fun h => by simp at h,
              fun v hv => ?_⟩
            simp only [Option.some.injEq] at hv
            subst hv
            simp [transport_clean, SysRes.failed, hq]

theorem sendto_autoretry_transport (buf : List Nat) (len : Nat) (w : World) :
    ∃ (s : List SysRes) (p : List PollRes),
      w.sends = s ++ (sendto_autoretry buf len w).2.sends ∧
      w.polls = p ++ (sendto_autoretry buf len w).2.polls ∧
      (sendto_autoretry buf len w).2.recvs = w.recvs ∧
      (sendto_autoretry buf len w).2.exit_flag = w.exit_flag ∧
      ((sendto_autoretry buf len w).1 = none → transport_clean s p [] = true) ∧
      (∀ v : Int, (sendto_autoretry buf len w).1 = some v →
        (transport_clean s p [] = true ↔ ¬ v < 0)) := by
  unfold sendto_autoretry
  exact sendto_autoretry_go_transport _ _ _ _
theorem tracks_recv (w w1 : World) (x : RecvRes) (h1 : w1.sends = w.sends)
    (h2 : w1.polls = w.polls) (h3 : w.recvs = x :: w1.recvs)
    (h4 : w1.exit_flag = if x.failed then 1 else w.exit_flag) : exit_flag_tracks w w1 := by
  refine ⟨[], [], [x], by rw [h1]; rfl, by rw [h2]; rfl, h3, ?_⟩
  rw [h4]
  cases hx : x.failed <;> simp [transport_clean, hx]

theorem failed_eq_false (x : RecvRes) (r : Int)
    (hx : x.failed = true ↔ to_ssize (to_size r) < 0) (h : ¬ to_ssize (to_size r) < 0) :
    x.failed = false := by
  cases hf : x.failed with
  | false => rfl
  | true => exact absurd (hx.1 hf) h

/-- The flag across the wait for an ACK. -/
theorem recv_ack_tracks (le : Bool) (block : Nat) :
    ∀ (fuel : Nat) (w : World), exit_flag_tracks w (recv_ack le block fuel w).2 := by
  intro fuel
  induction fuel with
  | zero => intro w; exact tracks_refl w
  | succ fuel ih =>
    intro w
    unfold recv_ack
    split
    · exact tracks_refl w
    · rename_i r b w1 h
      obtain ⟨t1, t2, t3, x, hx, hxf⟩ := recvfrom_transport _ 4 _ _ _ _ h (by omega)
      simp only
      split_ifs with c1 c2 c3 c4
      · exact tracks_recv w _ x t1 t2 hx (by
          show (1 : Int) = _
          rw [hxf.2 c1]
          rfl)
      · have hf := failed_eq_false x r hxf c1
        exact tracks_close w w1 (tracks_recv w w1 x t1 t2 hx (by rw [hf, t3]; rfl))
      · have hf := failed_eq_false x r hxf c1
        exact tracks_close w w1 (tracks_recv w w1 x t1 t2 hx (by rw [hf, t3]; rfl))
      · have hf := failed_eq_false x r hxf c1
        exact tracks_trans w w1 _ (tracks_recv w w1 x t1 t2 hx (by rw [hf, t3]; rfl)) (ih w1)
      · have hf := failed_eq_false x r hxf c1
        exact tracks_recv w w1 x t1 t2 hx (by rw [hf, t3]; rfl)

/-- The flag across one pass through the body of a receiver loop. -/
theorem wrq_body_tracks (le : Bool) (block : Nat) (buffer : List Nat) (w : World) :
    exit_flag_tracks w (tftp_handle_wrq_body le block buffer w).2.2 := by
  unfold tftp_handle_wrq_body
  split
  · exact tracks_refl w
  · rename_i r b w1 h
    obtain ⟨t1, t2, t3, x, hx, hxf⟩ := recvfrom_transport _ 65536 _ _ _ _ h (by omega)
    simp only
    split_ifs with c1 c2 c3 c4
    · exact tracks_recv w _ x t1 t2 hx (by
        show (1 : Int) = _
        rw [hxf.2 c1]
        rfl)
    · have hf := failed_eq_false x r hxf c1
      exact tracks_close w w1 (tracks_recv w w1 x t1 t2 hx (by rw [hf, t3]; rfl))
    · have hf := failed_eq_false x r hxf c1
      exact tracks_recv w w1 x t1 t2 hx (by rw [hf, t3]; rfl)
    · have hf := failed_eq_false x r hxf c1
      exact tracks_recv w w1 x t1 t2 hx (by rw [hf, t3]; rfl)
    · have hf := failed_eq_false x r hxf c1
      have hw1 := tracks_recv w w1 x t1 t2 hx (by rw [hf, t3]; rfl)
      split
      · exact hw1
      · rename_i wr w2 h2
        obtain ⟨u1, u2, u3, u4⟩ := sys_write_transport _ _ _ _ h2
        have hw2 := tracks_then_same w w1 w2 hw1 u1 u2 u3 u4
        split_ifs
        · exact tracks_close w w2 hw2
        · have ha := send_ack_tracks le block w2
          split
          · rename_i w3 h5
            rw [h5] at ha
            exact tracks_trans w w2 w3 hw2 ha
          · rename_i a w3 h5
            rw [h5] at ha
            have hw3 := tracks_trans w w2 w3 hw2 ha
            split_ifs
            · exact tracks_close w w3 hw3
            · exact hw3

/-- The flag across a receiver loop. -/
theorem wrq_loop_tracks (le : Bool) :
    ∀ (fuel block : Nat) (buffer : List Nat) (w : World),
      exit_flag_tracks w (tftp_handle_wrq_loop le fuel block buffer w).2 := by
  intro fuel
  induction fuel with
  | zero => intro block buffer w; exact tracks_refl w
  | succ fuel ih =>
    intro block buffer w
    have hb := wrq_body_tracks le block buffer w
    rw [tftp_handle_wrq_loop]
    split
    · rename_i v b w1 h; rw [h] at hb; exact hb
    · rename_i b w1 h; rw [h] at hb; exact hb
    · rename_i block1 len b w1 h
      rw [h] at hb
      split_ifs
      · exact tracks_trans w w1 _ hb (ih block1 b w1)
      · exact tracks_close w w1 hb

/-- The flag across a sender loop. -/
theorem rrq_loop_tracks (le : Bool) :
    ∀ (fuel block lastread : Nat) (buffer : List Nat) (w : World),
      exit_flag_tracks w (tftp_handle_rrq_loop le fuel block lastread buffer w).2 := by
  intro fuel
  induction fuel with
  | zero => intro block lastread buffer w; exact tracks_refl w
  | succ fuel ih =>
    intro block lastread buffer w
    unfold tftp_handle_rrq_loop
    split
    · exact tracks_refl w
    · rename_i r b w1 h
      obtain ⟨u1, u2, u3, u4⟩ := sys_read_transport _ _ _ _ _ _ _ h
      have hw1 := tracks_of_same w w1 u1 u2 u3 u4
      simp only
      split_ifs
      · obtain ⟨s, p, a1, a2, a3, a4, a5, a6⟩ := sendto_autoretry_transport
          (store_data_header le b block) ((4 + to_size r) % SIZE_MAX1) w1
        split
        · rename_i w2 h3
          rw [h3] at a1 a2 a3 a4 a5
          exact tracks_trans w w1 w2 hw1
            ⟨s, p, [], a1, a2, by rw [a3]; rfl, by rw [a5 rfl, a4]; rfl⟩
        · rename_i v w2 h3
          rw [h3] at a1 a2 a3 a4 a6
          have h6 := a6 v rfl
          split_ifs with hneg
          · have hc : transport_clean s p [] = false := by
              cases hcl : transport_clean s p [] with
              | false => rfl
              | true => exact absurd hneg (h6.1 hcl)
            exact tracks_trans w w1 _ hw1
              ⟨s, p, [], a1, a2, by
                show w1.recvs = [] ++ w2.recvs
                rw [a3]; rfl, by
                show (1 : Int) = _
                rw [hc]
                rfl⟩
          · have hc : transport_clean s p [] = true := h6.2 hneg
            have hw2 : exit_flag_tracks w w2 := tracks_trans w w1 w2 hw1
              ⟨s, p, [], a1, a2, by rw [a3]; rfl, by rw [hc, a4]; rfl⟩
            have h4 := recv_ack_tracks le block (w2.recvs.length + 1) w2
            split
            · rename_i e w3 h5; rw [h5] at h4; exact tracks_trans w w2 w3 hw2 h4
            · rename_i w3 h5; rw [h5] at h4; exact tracks_trans w w2 w3 hw2 h4
            · rename_i w3 h5
              rw [h5] at h4
              exact tracks_trans w w3 _ (tracks_trans w w2 w3 hw2 h4) (ih _ _ _ w3)
      · exact tracks_close w w1 hw1
      · exact tracks_close w w1 hw1
/-- The flag after a call of `sendto_autoretry` whose caller sets it when the value returned
is negative. -/
theorem sendto_caller_tracks (buf : List Nat) (len : Nat) (w : World) :
    (∀ w2 : World, sendto_autoretry buf len w = (none, w2) → exit_flag_tracks w w2) ∧
    (∀ (v : Int) (w2 : World), sendto_autoretry buf len w = (some v, w2) → v < 0 →
      exit_flag_tracks w { w2.close with exit_flag := 1 }) ∧
    (∀ (v : Int) (w2 : World), sendto_autoretry buf len w = (some v, w2) → ¬ v < 0 →
      exit_flag_tracks w w2) := by
  obtain ⟨s, p, a1, a2, a3, a4, a5, a6⟩ := sendto_autoretry_transport buf len w
  refine ⟨?_, ?_, ?_⟩
  · intro w2 h
    rw [h] at a1 a2 a3 a4 a5
    exact ⟨s, p, [], a1, a2, by rw [a3]; rfl, by rw [a5 rfl, a4]; rfl⟩
  · intro v w2 h hneg
    rw [h] at a1 a2 a3 a4 a6
    have hc : transport_clean s p [] = false := by
      cases hcl : transport_clean s p [] with
      | false => rfl
      | true => exact absurd hneg ((a6 v rfl).1 hcl)
    exact ⟨s, p, [], a1, a2, by
      show w.recvs = [] ++ w2.recvs
      rw [a3]; rfl, by
      show (1 : Int) = _
      rw [hc]
      rfl⟩
  · intro v w2 h hneg
    rw [h] at a1 a2 a3 a4 a6
    exact ⟨s, p, [], a1, a2, by rw [a3]; rfl, by rw [(a6 v rfl).2 hneg, a4]; rfl⟩

theorem put_file_loop_tracks (le : Bool) (fuel block lastread : Nat) (buffer : List Nat)
    (w : World) :
    exit_flag_tracks w (tftp_put_file_loop le fuel block lastread buffer w).2 := by
  rw [put_file_loop_eq]
  exact rrq_loop_tracks le _ _ _ _ _

theorem get_file_loop_tracks (le : Bool) (fuel block : Nat) (buffer : List Nat) (w : World) :
    exit_flag_tracks w (tftp_get_file_loop le fuel block buffer w).2 := by
  rw [get_file_loop_eq]
  exact wrq_loop_tracks le _ _ _ _

theorem wrq_after_split_tracks (le : Bool) (sp : SplitRes) (w : World) :
    exit_flag_tracks w (tftp_handle_wrq_after_split le sp w).2 := by
  have h0 : exit_flag_tracks w { w with errno := sp.errno } :=
    tracks_of_same w _ rfl rfl rfl rfl
  unfold tftp_handle_wrq_after_split
  simp only
  split_ifs
  · exact h0
  · exact h0
  · exact h0
  · exact h0
  · split
    · exact h0
    · rename_i fd w1 ho
      obtain ⟨u1, u2, u3, u4⟩ := sys_open_transport _ _ _ _ _ ho
      have hw1 := tracks_then_same w _ w1 h0 u1 u2 u3 u4
      split_ifs
      · exact hw1
      · have ha := send_ack_tracks le 0 w1
        split
        · rename_i w2 h5
          rw [h5] at ha
          exact tracks_trans w w1 w2 hw1 ha
        · rename_i a w2 h5
          rw [h5] at ha
          have hw2 := tracks_trans w w1 w2 hw1 ha
          split_ifs
          · exact tracks_close w w2 hw2
          · exact tracks_trans w w2 _ hw2 (wrq_loop_tracks le _ _ _ w2)

theorem rrq_after_split_tracks (le : Bool) (sp : SplitRes) (w : World) :
    exit_flag_tracks w (tftp_handle_rrq_after_split le sp w).2 := by
  have h0 : exit_flag_tracks w { w with errno := sp.errno } :=
    tracks_of_same w _ rfl rfl rfl rfl
  unfold tftp_handle_rrq_after_split
  simp only
  split_ifs
  · exact h0
  · exact h0
  · exact h0
  · exact h0
  · split
    · exact h0
    · rename_i fd w1 ho
      obtain ⟨u1, u2, u3, u4⟩ := sys_open_transport _ _ _ _ _ ho
      have hw1 := tracks_then_same w _ w1 h0 u1 u2 u3 u4
      split_ifs
      · exact hw1
      · exact tracks_trans w w1 _ hw1 (rrq_loop_tracks le _ _ _ _ w1)

theorem get_file_tracks (le : Bool) (path : List Nat) (w : World) :
    exit_flag_tracks w (tftp_get_file le path w).2 := by
  unfold tftp_get_file
  simp only
  split
  · exact tracks_refl w
  · rename_i fd w1 ho
    obtain ⟨u1, u2, u3, u4⟩ := sys_open_transport _ _ _ _ _ ho
    have hw1 := tracks_of_same w w1 u1 u2 u3 u4
    split_ifs
    · exact hw1
    · exact tracks_then_same w w1 _ hw1 rfl rfl rfl rfl
    · have hw1e := tracks_then_same w w1
        { w1 with errno := (tftp_prepare_header le (local_buffer 65536) 65536 TFTP_OPCODE_RRQ
          (some [path, cstr "octet"]) w1.errno).errno } hw1 rfl rfl rfl rfl
      obtain ⟨s1, s2, s3⟩ := sendto_caller_tracks
        (tftp_prepare_header le (local_buffer 65536) 65536 TFTP_OPCODE_RRQ
          (some [path, cstr "octet"]) w1.errno).header
        (to_size (tftp_prepare_header le (local_buffer 65536) 65536 TFTP_OPCODE_RRQ
          (some [path, cstr "octet"]) w1.errno).ret)
        { w1 with errno := (tftp_prepare_header le (local_buffer 65536) 65536 TFTP_OPCODE_RRQ
          (some [path, cstr "octet"]) w1.errno).errno }
      split
      · rename_i w2 h3
        exact tracks_trans w _ w2 hw1e (s1 w2 h3)
      · rename_i v w2 h3
        split_ifs with hneg
        · exact tracks_trans w _ _ hw1e (s2 v w2 h3 hneg)
        · exact tracks_trans w w2 _ (tracks_trans w _ w2 hw1e (s3 v w2 h3 hneg))
            (get_file_loop_tracks le _ _ _ w2)

theorem put_file_tracks (le : Bool) (path : List Nat) (w : World) :
    exit_flag_tracks w (tftp_put_file le path w).2 := by
  unfold tftp_put_file
  simp only
  split
  · exact tracks_refl w
  · rename_i fd w1 ho
    obtain ⟨u1, u2, u3, u4⟩ := sys_open_transport _ _ _ _ _ ho
    have hw1 := tracks_of_same w w1 u1 u2 u3 u4
    split_ifs
    · exact hw1
    · exact tracks_then_same w w1 _ hw1 rfl rfl rfl rfl
    · have hw1e := tracks_then_same w w1
        { w1 with errno := (tftp_prepare_header le (local_buffer 4096) 4096 TFTP_OPCODE_WRQ
          (some [path, cstr "octet"]) w1.errno).errno } hw1 rfl rfl rfl rfl
      obtain ⟨s1, s2, s3⟩ := sendto_caller_tracks
        (tftp_prepare_header le (local_buffer 4096) 4096 TFTP_OPCODE_WRQ
          (some [path, cstr "octet"]) w1.errno).header
        (to_size (tftp_prepare_header le (local_buffer 4096) 4096 TFTP_OPCODE_WRQ
          (some [path, cstr "octet"]) w1.errno).ret)
        { w1 with errno := (tftp_prepare_header le (local_buffer 4096) 4096 TFTP_OPCODE_WRQ
          (some [path, cstr "octet"]) w1.errno).errno }
      split
      · rename_i w2 h3
        exact tracks_trans w _ w2 hw1e (s1 w2 h3)
      · rename_i v w2 h3
        split_ifs with hneg
        · exact tracks_trans w _ _ hw1e (s2 v w2 h3 hneg)
        · have hw2 := tracks_trans w _ w2 hw1e (s3 v w2 h3 hneg)
          split
          · exact hw2
          · rename_i r b w3 hr
            obtain ⟨t1, t2, t3, x, hx, hxf⟩ := recvfrom_transport _ 4096 _ _ _ _ hr (by omega)
            split_ifs with c1 c2 c3 c4
            · exact tracks_trans w w2 _ hw2 (tracks_recv w2 _ x t1 t2 hx (by
                show (1 : Int) = _
                rw [hxf.2 c1]
                rfl))
            · have hf := failed_eq_false x r hxf c1
              exact tracks_close w w3 (tracks_trans w w2 w3 hw2
                (tracks_recv w2 w3 x t1 t2 hx (by rw [hf, t3]; rfl)))
            · have hf := failed_eq_false x r hxf c1
              exact tracks_close w w3 (tracks_trans w w2 w3 hw2
                (tracks_recv w2 w3 x t1 t2 hx (by rw [hf, t3]; rfl)))
            · have hf := failed_eq_false x r hxf c1
              exact tracks_close w w3 (tracks_trans w w2 w3 hw2
                (tracks_recv w2 w3 x t1 t2 hx (by rw [hf, t3]; rfl)))
            · have hf := failed_eq_false x r hxf c1
              exact tracks_trans w w3 _ (tracks_trans w w2 w3 hw2
                (tracks_recv w2 w3 x t1 t2 hx (by rw [hf, t3]; rfl)))
                (put_file_loop_tracks le _ _ _ _ w3)

/-- C23: in every run of a role loop (`tftp_handle_wrq`, `tftp_get_file`, `tftp_handle_rrq`,
`tftp_put_file`) and of the function around it, `exit_flag` follows the transport: the run
has taken some outcomes of `sendto`, `poll` and `recvfrom`; if one of them is a failure (a
failed send, a failed receive, a failed wait or a hang-up) `exit_flag` is 1 at the exit, and
otherwise, whatever the exit (protocol error, file error, success), `exit_flag` is what it
was. A run that takes no transport outcome at all leaves it unchanged. -/
theorem exit_flag_set_by_transport_errors (le : Bool) :
    (∀ (fuel block : Nat) (buffer : List Nat) (w : World),
      exit_flag_tracks w (tftp_handle_wrq_loop le fuel block buffer w).2) ∧
    (∀ (fuel block : Nat) (buffer : List Nat) (w : World),
      exit_flag_tracks w (tftp_get_file_loop le fuel block buffer w).2) ∧
    (∀ (fuel block lastread : Nat) (buffer : List Nat) (w : World),
      exit_flag_tracks w (tftp_handle_rrq_loop le fuel block lastread buffer w).2) ∧
    (∀ (fuel block lastread : Nat) (buffer : List Nat) (w : World),
      exit_flag_tracks w (tftp_put_file_loop le fuel block lastread buffer w).2) ∧
    (∀ (request : List Nat) (len : Nat) (w : World),
      exit_flag_tracks w (tftp_handle_wrq le request len w).2) ∧
    (∀ (request : List Nat) (len : Nat) (w : World),
      exit_flag_tracks w (tftp_handle_rrq le request len w).2) ∧
    (∀ (path : List Nat) (w : World), exit_flag_tracks w (tftp_get_file le path w).2) ∧
    (∀ (path : List Nat) (w : World), exit_flag_tracks w (tftp_put_file le path w).2) ∧
    (∀ w w1 : World, exit_flag_tracks w w1 →
      (w1.sends = w.sends → w1.polls = w.polls → w1.recvs = w.recvs →
        w1.exit_flag = w.exit_flag) ∧
      (w1.exit_flag ≠ w.exit_flag → w1.exit_flag = 1)) := by
  refine ⟨wrq_loop_tracks le, get_file_loop_tracks le, rrq_loop_tracks le,
    put_file_loop_tracks le, ?_, ?_, get_file_tracks le, put_file_tracks le, ?_⟩
  · intro request len w
    exact wrq_after_split_tracks le _ w
  · intro request len w
    exact rrq_after_split_tracks le _ w
  · intro w w1 h
    obtain ⟨s, p, r, a, b, c, f⟩ := h
    constructor
    · intro hs hp hr
      have es : s = [] := by
        rw [hs] at a
        exact List.append_left_eq_self.1 a.symm
      have ep : p = [] := by
        rw [hp] at b
        exact List.append_left_eq_self.1 b.symm
      have er : r = [] := by
        rw [hr] at c
        exact List.append_left_eq_self.1 c.symm
      rw [f, es, ep, er]
      rfl
    · intro hne
      rw [f] at hne ⊢
      cases hc : transport_clean s p r with
      | false => rfl
      | true => rw [hc] at hne; exact absurd rfl hne

/-! ## Receiver role: a write that takes part of the payload -/

/-- The expected DATA block when the `write` takes `n` bytes, whatever `n`: the body tests
only `write ( ... ) < 0`, so the first `n` bytes of the payload are appended, the block is
acknowledged and the pass reaches the loop condition with the next block number. -/
theorem wrq_body_write_count (le : Bool) (block : Nat) (buffer : List Nat) (w : World)
    (d : List Nat) (src : Nat) (rest : List RecvRes)
    (hr : w.recvs = RecvRes.ok d src :: rest) (h4 : 4 ≤ d.length) (hmax : d.length ≤ 65536)
    (hop : tfp_load_ushort_ns le d = TFTP_OPCODE_DATA)
    (hblk : tfp_load_ushort_ns le (d.drop 2) = block)
    (n : Nat) (ws : List SysRes) (hw : w.writes = SysRes.ok n :: ws)
    (m : Nat) (ss : List SysRes) (hsend : w.sends = SysRes.ok m :: ss) :
    tftp_handle_wrq_body le block buffer w
      = (LoopStep.cond ((block + 1) % 65536) d.length, memcpy buffer 0 d,
        w.after_accept rest src ws ss ((d.drop 4).take n) block) := by
  obtain ⟨hs1, hs2⟩ := to_size_length d.length hmax
  have hl : ¬ (tftp_packet_check_length 4 d.length = 0) := by
    unfold tftp_packet_check_length
    rw [if_neg (by omega)]
    decide
  have hlen : ¬ ((((d.drop 4).take n).length : Int) < 0) := by omega
  unfold tftp_handle_wrq_body
  rw [recvfrom_ok buffer 65536 w d src rest hr hmax]
  simp only [hs1, hs2, hl, if_false, load_opcode_memcpy le buffer d (by omega),
    load_block_memcpy le buffer d h4, hop, hblk, ne_eq, not_true_eq_false,
    payload_memcpy buffer d h4, sys_write, hw, hlen, tftp_send_ack_packet, hsend,
    World.emit, ushort_bytes_htons, TFTP_OPCODE_ACK, World.after_accept]
  simp

/-- Both receiver loops on the expected DATA block when the `write` takes `n` bytes: the
file gets the first `n` bytes of the payload, the block is acknowledged, and the loop ends
with 0 or goes on according to the length of the datagram alone. -/
theorem receiver_write_count (le : Bool) (fuel block : Nat) (buffer : List Nat) (w : World)
    (d : List Nat) (src : Nat) (rest : List RecvRes)
    (hr : w.recvs = RecvRes.ok d src :: rest) (h4 : 4 ≤ d.length) (hmax : d.length ≤ 65536)
    (hop : tfp_load_ushort_ns le d = TFTP_OPCODE_DATA)
    (hblk : tfp_load_ushort_ns le (d.drop 2) = block)
    (n : Nat) (ws : List SysRes) (hw : w.writes = SysRes.ok n :: ws)
    (m : Nat) (ss : List SysRes) (hsend : w.sends = SysRes.ok m :: ss) :
    tftp_handle_wrq_loop le (fuel + 1) block buffer w
      = (if d.length = 4 + TFTP_BLOCKSIZE then
          tftp_handle_wrq_loop le fuel ((block + 1) % 65536) (memcpy buffer 0 d)
            (w.after_accept rest src ws ss ((d.drop 4).take n) block)
        else (some 0, (w.after_accept rest src ws ss ((d.drop 4).take n) block).close)) ∧
    tftp_get_file_loop le (fuel + 1) block buffer w
      = (if d.length = 4 + TFTP_BLOCKSIZE then
          tftp_get_file_loop le fuel ((block + 1) % 65536) (memcpy buffer 0 d)
            (w.after_accept rest src ws ss ((d.drop 4).take n) block)
        else (some 0, (w.after_accept rest src ws ss ((d.drop 4).take n) block).close)) ∧
    written (w.after_accept rest src ws ss ((d.drop 4).take n) block).trace
      = written w.trace ++ (d.drop 4).take n := by
  have h := wrq_loop_of_body_cond le fuel block buffer w _ _ _ _
    (wrq_body_write_count le block buffer w d src rest hr h4 hmax hop hblk n ws hw m ss hsend)
  refine ⟨h, ?_, (written_after_accept w rest src ws ss _ block).1⟩
  rw [get_file_loop_eq, get_file_loop_eq]
  exact h

/-- C5 (the code at the failing input): a Receiver expecting block 1 takes the DATA packet
of block 1 with the two payload bytes "hi", and its `write` takes one byte only (it returns
1). Both receiver loops go on as after a complete write: the file has got the one byte "h",
the ACK for block 1 is sent and the result is 0. `tftp_get_file` as a whole returns 0 with
the file holding "h". When the `write` takes both bytes, the file gets "hi". -/
theorem short_write_is_acknowledged :
    tftp_handle_wrq_loop true 2 1 (local_buffer 65536)
        { idle_world with
          recvs := [RecvRes.ok (data_dgram 1 [104, 105]) 9],
          writes := [SysRes.ok 1], sends := [SysRes.ok 4] }
      = (some 0, { idle_world with
          saddr := 9,
          trace := [Effect.received, Effect.fwrite [104], Effect.sent (ack_dgram 1) 9,
            Effect.closed] }) ∧
    tftp_get_file_loop true 2 1 (local_buffer 65536)
        { idle_world with
          recvs := [RecvRes.ok (data_dgram 1 [104, 105]) 9],
          writes := [SysRes.ok 1], sends := [SysRes.ok 4] }
      = (some 0, { idle_world with
          saddr := 9,
          trace := [Effect.received, Effect.fwrite [104], Effect.sent (ack_dgram 1) 9,
            Effect.closed] }) ∧
    (tftp_get_file true (cstr "f")
        { idle_world with
          opens := [SysRes.ok 3], sends := [SysRes.ok 10, SysRes.ok 4], polls := [⟨1, 1, 0⟩],
          recvs := [RecvRes.ok (data_dgram 1 [104, 105]) 9], writes := [SysRes.ok 1] }).1
      = some 0 ∧
    written (tftp_get_file true (cstr "f")
        { idle_world with
          opens := [SysRes.ok 3], sends := [SysRes.ok 10, SysRes.ok 4], polls := [⟨1, 1, 0⟩],
          recvs := [RecvRes.ok (data_dgram 1 [104, 105]) 9],
          writes := [SysRes.ok 1] }).2.trace
      = [104] ∧
    (data_dgram 1 [104, 105]).drop 4 = [104, 105] ∧
    written (tftp_handle_wrq_loop true 2 1 (local_buffer 65536)
        { idle_world with
          recvs := [RecvRes.ok (data_dgram 1 [104, 105]) 9],
          writes := [SysRes.ok 2], sends := [SysRes.ok 4] }).2.trace
      = [104, 105] := by
  refine ⟨by decide, by decide, by decide, by decide, by decide, by decide⟩

end Ltftp
